import Mathlib

/-!
# Catalog synchronisation of criticalstack/marketplace

A shallow embedding of `controllers/source_controller.go`: the category
overlay loader (`parseCategories`), asset URL normalisation (`fixURLs`), the
per-package body of the loop over `repoIndex.Entries` in
`SourceReconciler.Reconcile` (locate or seed the record, apply the category
overlay, append unseen versions, label deprecated applications, write), the
reconcile run around it with its status writes (`setSourceStatus`), and of
`controllers/release_controller.go`: `decodeSecretRelease` and
`ReleaseReconciler.Reconcile`.

Go strings are embedded as Lean strings, Go slices as lists, Go maps as
association lists (`GoMap`) read through `GoMap.get` and written through
`GoMap.set`; a map that Go ranges over is given as the list of its entries in
the order the range visits them. A nil label map is `none`, and writing to it
is the fault `Fault.nilMapWrite`. Log lines and recorder events are not part
of the embedding. The Go standard library (`net/url`) and the answers of the
Resource Store are parameters of the definitions that call them; a reconcile
run takes the answers of all its collaborators as one environment
(`SourceEnv`, `ReleaseEnv`) and yields what it did and returned (`SourceRun`,
`ReleaseRun`). For Applications `ctrl.CreateOrUpdate` is embedded with the
store it works on (`createOrUpdate`), so that the mutate function of
`Reconcile` runs on the record the library has read.

The definitions come first; the lemmas and the theorems on the claims follow.
-/

namespace Marketplace

/-! ## Go maps -/

/-- Go `map[string]α`: the entries, each key at most once when built with `set`. -/
abbrev GoMap (α : Type) := List (String × α)

namespace GoMap

/-- Go `m[k]` (comma-ok form): the value stored under `k`, if any. -/
def get {α : Type} : GoMap α → String → Option α
  | [], _ => none
  | (k', v) :: t, k => if k' = k then some v else get t k

/-- Go `m[k] = v`: overwrite the value under `k`, or add the key. -/
def set {α : Type} : GoMap α → String → α → GoMap α
  | [], k, v => [(k, v)]
  | (k', v') :: t, k, v => if k' = k then (k, v) :: t else (k', v') :: set t k v

/-- The keys of the map. -/
def keys {α : Type} (m : GoMap α) : List String := m.map Prod.fst

end GoMap

/-! ## Strings and paths (Go `strings`, `path`) -/

/-- Go `strings.HasPrefix(s, p)`. -/
def hasPrefixStr (s p : String) : Bool := p.data.isPrefixOf s.data

/-- Split at every `/` (always at least one component). -/
def splitSlash : List Char → List (List Char)
  | [] => [[]]
  | c :: cs =>
    if c = '/' then [] :: splitSlash cs
    else
      match splitSlash cs with
      | [] => [[c]]
      | w :: ws => (c :: w) :: ws

/-- One step of `path.Clean` on the stack of kept components (top first):
empty and `.` components are dropped, `..` removes the last kept component
when there is one that is not itself a kept `..`, and is otherwise kept only
in an unrooted path. -/
def cleanStep (rooted : Bool) (stack : List (List Char)) (comp : List Char) :
    List (List Char) :=
  if comp = [] ∨ comp = ['.'] then stack
  else if comp = ['.', '.'] then
    match stack with
    | top :: below =>
      if top = ['.', '.'] then (if rooted then stack else comp :: stack) else below
    | [] => if rooted then stack else [comp]
  else comp :: stack

/-- Go `path.Clean`. -/
def pathClean (p : List Char) : List Char :=
  match p with
  | [] => ['.']
  | c :: _ =>
    let rooted : Bool := decide (c = '/')
    let kept := ((splitSlash p).foldl (cleanStep rooted) []).reverse
    let body := List.intercalate ['/'] kept
    if rooted then '/' :: body
    else if body = [] then ['.'] else body

/-- Go `path.Join`: the non-empty elements joined by `/` and cleaned; the
empty string when every element is empty. -/
def pathJoin (elems : List String) : String :=
  match (elems.map String.data).filter (fun e => e ≠ []) with
  | [] => ""
  | es => String.mk (pathClean (List.intercalate ['/'] es))

/-! ## URLs (Go `net/url`) -/

/-- Go `url.URL`. -/
structure URL where
  Scheme : String
  Opaque : String
  User : Option (String × Option String)
  Host : String
  Path : String
  RawPath : String
  ForceQuery : Bool
  RawQuery : String
  Fragment : String
  deriving DecidableEq, Repr

/-- The two operations of Go's `net/url` that `fixURLs` calls: `url.Parse`
(`none` when it reports an error, in which case the returned pointer is nil)
and `(*URL).String`. The standard library is not part of the repository, so
the code is embedded over any implementation of the two. -/
structure NetURL where
  urlParse : String → Option URL
  urlString : URL → String

/-- Parse of `scheme://host/path` for concrete evaluations: the scheme is
everything before the first `://`, the host runs to the next `/`, the rest is
the path. It agrees with `url.Parse` on absolute URLs without user info,
query, fragment or percent escapes; every other input is reported as a
failure here. -/
def plainParse (s : String) : Option URL :=
  let rec go (scheme : List Char) : List Char → Option URL
    | ':' :: '/' :: '/' :: rest =>
      if scheme = [] ∨ rest.any (fun c => c = '?' ∨ c = '#' ∨ c = '%' ∨ c = '@' ∨ c = ' ')
      then none
      else
        let host := rest.takeWhile (fun c => c ≠ '/')
        let path := rest.dropWhile (fun c => c ≠ '/')
        some { Scheme := String.mk scheme.reverse, Opaque := "", User := none,
               Host := String.mk host, Path := String.mk path, RawPath := "",
               ForceQuery := false, RawQuery := "", Fragment := "" }
    | c :: rest => if c.isAlphanum then go (c :: scheme) rest else none
    | [] => none
  go [] s.data

/-- Rendering `(*URL).String` of a URL without opaque part, user info, query
or fragment whose path needs no escaping: `scheme://host` followed by the
path, with a `/` put in front of a path that lacks one. -/
def plainString (u : URL) : String :=
  let sep := if u.Path ≠ "" ∧ ¬ hasPrefixStr u.Path "/" ∧ u.Host ≠ "" then "/" else ""
  u.Scheme ++ "://" ++ u.Host ++ sep ++ u.Path

/-- The `net/url` instance used for concrete evaluations. -/
def plainURL : NetURL := { urlParse := plainParse, urlString := plainString }

/-- Lines 125–134 of `fixURLs`: the loop over `urls`, carrying `parsed`, whose
`Path` the loop body overwrites on every rewritten element. -/
def fixURLsLoop (lib : NetURL) (src : String) : Option URL → List String → List String
  | _, [] => []
  | parsed, u :: urls =>
    if ¬ hasPrefixStr u src then
      match parsed with
      | some p =>
        let p' : URL := { p with Path := pathJoin [p.Path, u] }
        lib.urlString p' :: fixURLsLoop lib src (some p') urls
      | none => pathJoin [src, u] :: fixURLsLoop lib src none urls
    else u :: fixURLsLoop lib src parsed urls

/-- Go `fixURLs(log, src, urls)` (the log line on a parse error aside). -/
def fixURLs (lib : NetURL) (src : String) (urls : List String) : List String :=
  fixURLsLoop lib src (lib.urlParse src) urls

/-! ## Data model -/

/-- Helm `chart.Maintainer`. -/
structure chart.Maintainer where
  Name : String
  Email : String
  URL : String
  deriving DecidableEq, Repr

/-- Helm `chart.Dependency`; `ImportValues` holds each import value as
`fmt.Sprintf("%v", v)` prints it. -/
structure chart.Dependency where
  Name : String
  Version : String
  Repository : String
  Condition : String
  Tags : List String
  Enabled : Bool
  ImportValues : List String
  Alias : String
  deriving DecidableEq, Repr

/-- Helm `repo.ChartVersion`: one entry of the index for one package version
(the fields `Reconcile` reads). `Created` is the instant as a number. -/
structure repo.ChartVersion where
  Home : String
  Sources : List String
  Version : String
  Description : String
  Keywords : List String
  Maintainers : List chart.Maintainer
  Icon : String
  APIVersion : String
  AppVersion : String
  Deprecated : Bool
  Annotations : GoMap String
  KubeVersion : String
  Dependencies : List chart.Dependency
  ChartType : String
  URLs : List String
  Created : Int
  Removed : Bool
  Digest : String
  deriving DecidableEq, Repr

/-- Modelled from the spec: the `v1alpha2` API type `Maintainer` is declared
outside the given sources; its fields are those `copyMaintainers` fills. -/
structure Maintainer where
  Name : String
  Email : String
  URL : String
  deriving DecidableEq, Repr

/-- Modelled from the spec: the `v1alpha2` API type `Dependency` is declared
outside the given sources; its fields are those `copyDependencies` fills. -/
structure Dependency where
  Name : String
  Version : String
  Repository : String
  Condition : String
  Tags : List String
  Enabled : Bool
  ImportValues : List String
  Alias : String
  deriving DecidableEq, Repr

/-- Modelled from the spec: the `v1alpha2` API type `ChartVersion` (the version
descriptor of an Application) is declared outside the given sources; its
fields are those of the composite literal in `Reconcile`. -/
structure ChartVersion where
  Home : String
  Sources : List String
  Version : String
  Description : String
  Keywords : List String
  Maintainers : List Maintainer
  Icon : String
  APIVersion : String
  AppVersion : String
  Deprecated : Bool
  Annotations : GoMap String
  KubeVersion : String
  Dependencies : List Dependency
  ChartType : String
  URLs : List String
  Created : Int
  Removed : Option Bool
  Digest : String
  deriving DecidableEq, Repr

/-- Modelled from the spec: the `v1alpha2` API type `Application` is declared
outside the given sources; these are the fields `Reconcile` and
`setSourceStatus` use. `Labels` is `none` for a nil map; `Controller` is the
name in the controller owner reference, if there is one. -/
structure Application where
  Name : String
  AppName : String
  Labels : Option (GoMap String)
  Versions : List ChartVersion
  Controller : Option String
  deriving DecidableEq, Repr

/-- Go `app.Labels[k]` in comma-ok form (a nil map has no entries). -/
def Application.label (app : Application) (k : String) : Option String :=
  app.Labels.bind fun m => m.get k

/-- Go `copyMaintainers`. -/
def copyMaintainers (mm : List chart.Maintainer) : List Maintainer :=
  mm.map fun m => { Name := m.Name, Email := m.Email, URL := m.URL }

/-- Go `copyDependencies`. -/
def copyDependencies (dd : List chart.Dependency) : List Dependency :=
  dd.map fun d =>
    { Name := d.Name, Version := d.Version, Repository := d.Repository,
      Condition := d.Condition, Tags := d.Tags, Enabled := d.Enabled,
      ImportValues := d.ImportValues, Alias := d.Alias }

/-! ## Label keys -/

def sourceNameLabel : String := "marketplace.criticalstack.com/source.name"

def applicationNameLabel : String := "marketplace.criticalstack.com/application.name"

def categoryLabelPrefix : String := "marketplace.criticalstack.com/application.category."

def deprecatedLabel : String := "marketplace.criticalstack.com/app.deprecated"

/-! ## The loop body of `Reconcile` over `repoIndex.Entries` -/

/-- Line 246: `fmt.Sprintf("%s.%s", src.Name, chartName)`. -/
def applicationName (srcName chartName : String) : String :=
  srcName ++ "." ++ chartName

/-- Lines 247–257: `app, ok := have[name]`, seeded when absent (`existing` is
the result of the lookup). -/
def locateApp (srcName chartName : String) (existing : Option Application) : Application :=
  match existing with
  | some app => app
  | none =>
    { Name := applicationName srcName chartName
      AppName := chartName
      Labels := some [(sourceNameLabel, srcName), (applicationNameLabel, chartName)]
      Versions := []
      Controller := none }

/-- Lines 260–267: the category overlay, looked up under `app.AppName`. -/
def applyCategories (defaultCategories : GoMap (List String)) (app : Application) :
    Application :=
  let cats := (defaultCategories.get app.AppName).getD []
  if cats.length > 0 then
    { app with
      Labels := some (cats.foldl (fun labels c => labels.set (categoryLabelPrefix ++ c) "")
        (app.Labels.getD [])) }
  else app

/-- Lines 282–301: the descriptor appended for index entry `cv`. -/
def newChartVersion (lib : NetURL) (srcURL : String) (cv : repo.ChartVersion) : ChartVersion :=
  { Home := cv.Home
    Sources := cv.Sources
    Version := cv.Version
    Description := cv.Description
    Keywords := cv.Keywords
    Maintainers := copyMaintainers cv.Maintainers
    Icon := cv.Icon
    APIVersion := cv.APIVersion
    AppVersion := cv.AppVersion
    Deprecated := cv.Deprecated
    Annotations := cv.Annotations
    KubeVersion := cv.KubeVersion
    Dependencies := copyDependencies cv.Dependencies
    ChartType := cv.ChartType
    URLs := fixURLs lib srcURL cv.URLs
    Created := cv.Created
    Removed := some cv.Removed
    Digest := cv.Digest }

/-- Lines 269–302: the labelled loop `L` over the index entries of one package,
on the record and the `needsUpdate` flag. -/
def appendVersions (lib : NetURL) (srcURL chartName : String) :
    Application × Bool → List repo.ChartVersion → Application × Bool
  | st, [] => st
  | (app, needsUpdate), cv :: items =>
    if app.Versions.any (fun v => decide (v.Version = cv.Version)) then
      appendVersions lib srcURL chartName (app, needsUpdate) items
    else
      appendVersions lib srcURL chartName
        ({ app with
           AppName := chartName
           Versions := app.Versions ++ [newChartVersion lib srcURL cv] }, true) items

/-- Lines 245–302 for one `chartName, items` of the index: the merged record
and `needsUpdate`. `existing` is `have[name]`. -/
def mergeEntry (lib : NetURL) (srcName srcURL : String)
    (defaultCategories : GoMap (List String)) (existing : Option Application)
    (chartName : String) (items : List repo.ChartVersion) : Application × Bool :=
  appendVersions lib srcURL chartName
    (applyCategories defaultCategories (locateApp srcName chartName existing), false) items

/-- Successive sync cycles on one package: each cycle merges its fetched
entry list into the record the previous one left. -/
def mergeCycles (lib : NetURL) (srcName srcURL : String)
    (defaultCategories : GoMap (List String)) (chartName : String) :
    Option Application → List (List repo.ChartVersion) → Option Application
  | existing, [] => existing
  | existing, items :: cycles =>
    mergeCycles lib srcName srcURL defaultCategories chartName
      (some (mergeEntry lib srcName srcURL defaultCategories existing chartName items).1) cycles

/-- The versions on the record `have[name]` yields: none when it is absent. -/
def recordedVersions : Option Application → List ChartVersion
  | some app => app.Versions
  | none => []

/-- A run-time fault of the Go code. -/
inductive Fault where
  /-- Assignment to an entry of a nil map. -/
  | nilMapWrite
  /-- Field access through a nil pointer. -/
  | nilDereference
  deriving DecidableEq, Repr

/-- Lines 305–311: label the record when one of its versions is deprecated. -/
def labelDeprecated (app : Application) : Except Fault Application :=
  if app.Versions.any (fun v => v.Deprecated) then
    match app.Labels with
    | none => .error .nilMapWrite
    | some labels => .ok { app with Labels := some (labels.set deprecatedLabel "true") }
  else .ok app

/-- Lines 245–311, the merge of one index entry list into the record of its
package: the merged record, labelled when `needsUpdate`, and `needsUpdate`
(the spec's `changed`). -/
def merge (lib : NetURL) (srcName srcURL : String)
    (defaultCategories : GoMap (List String)) (existing : Option Application)
    (chartName : String) (items : List repo.ChartVersion) : Except Fault (Application × Bool) :=
  let r := mergeEntry lib srcName srcURL defaultCategories existing chartName items
  if r.2 then
    match labelDeprecated r.1 with
    | .error f => .error f
    | .ok app => .ok (app, true)
  else .ok (r.1, false)

/-- What `Reconcile` hands to `ctrl.CreateOrUpdate` on lines 312–322: the
object (whose name is the key) and the variables the mutate function
captures: the Source to own the record, `vv` and `l`. -/
structure AppWrite where
  obj : Application
  owner : String
  versions : List ChartVersion
  labels : Option (GoMap String)
  deriving DecidableEq, Repr

/-- Lines 313–322: the mutate function on the object the library passes it
(the stored record when there is one), once `ctrl.SetControllerReference`
has made the Source the controller: `Versions` is overwritten with `vv`,
every label of `l` is set, which faults when the object has a nil label map. -/
def AppWrite.mutate (w : AppWrite) (obj : Application) : Except Fault Application :=
  let obj := { obj with Controller := some w.owner, Versions := w.versions }
  match w.labels.getD [] with
  | [] => .ok obj
  | kv :: l =>
    match obj.Labels with
    | none => .error .nilMapWrite
    | some m => .ok { obj with Labels := some ((kv :: l).foldl (fun m e => m.set e.1 e.2) m) }

/-- Lines 305–322: the call for the labelled record `app`, with `vv` and `l`
read off it. -/
def appWriteOf (srcName : String) (app : Application) : AppWrite :=
  { obj := app, owner := srcName, versions := app.Versions, labels := app.Labels }

/-- What the Resource Store and `controllerutil` answer inside
`ctrl.CreateOrUpdate`: the error of the `Get` of a key other than not-found,
the error of `ctrl.SetControllerReference` for an owner name and an object,
and the errors of `Create` and of `Update` of an object. -/
structure ResourceStore where
  getError : String → Option String
  setControllerReference : String → Application → Option String
  createError : Application → Option String
  updateError : Application → Option String

/-- The failure messages `ctrl.CreateOrUpdate` can return. -/
def ResourceStore.reports (store : ResourceStore) (m : String) : Prop :=
  (∃ key, store.getError key = some m) ∨
  (∃ owner obj, store.setControllerReference owner obj = some m) ∨
  (∃ obj, store.createError obj = some m) ∨
  (∃ obj, store.updateError obj = some m)

/-- How one `ctrl.CreateOrUpdate` call ended. -/
inductive WriteOutcome where
  /-- It returned nil; `stored` are the Applications in the store afterwards. -/
  | written (stored : List Application)
  /-- It returned the error `err`; the store is unchanged. -/
  | failed (err : String)
  /-- The mutate function faulted; the store is unchanged. -/
  | fault (f : Fault)
  deriving DecidableEq, Repr

/-- The store with every record named like `obj` replaced by `obj`. -/
def replaceApp (stored : List Application) (obj : Application) : List Application :=
  stored.map fun a => if a.Name = obj.Name then obj else a

/-- The library function `ctrl.CreateOrUpdate` on the Applications `stored`:
it reads the record named like `w.obj` into the object (which stays as
passed when there is none), runs the mutate function of lines 313–322 on it,
and creates the record, or updates it unless the mutate function left it as
it was. -/
def createOrUpdate (store : ResourceStore) (stored : List Application) (w : AppWrite) :
    WriteOutcome :=
  match store.getError w.obj.Name with
  | some err => .failed err
  | none =>
    match stored.find? (fun a => decide (a.Name = w.obj.Name)) with
    | none =>
      match store.setControllerReference w.owner w.obj with
      | some err => .failed err
      | none =>
        match w.mutate w.obj with
        | .error f => .fault f
        | .ok obj =>
          match store.createError obj with
          | some err => .failed err
          | none => .written (stored ++ [obj])
    | some existing =>
      match store.setControllerReference w.owner existing with
      | some err => .failed err
      | none =>
        match w.mutate existing with
        | .error f => .fault f
        | .ok obj =>
          if obj = existing then .written stored
          else
            match store.updateError obj with
            | some err => .failed err
            | none => .written (replaceApp stored obj)

/-- `client.MatchingLabels` with the source-name label of `srcName`. -/
def matchesSource (srcName : String) (app : Application) : Bool :=
  decide ((app.Labels.bind fun m => m.get sourceNameLabel) = some srcName)

/-- Lines 231–242: the Applications listed under the label selector, as the
map `have` keyed by name. -/
def buildHave (srcName : String) (stored : List Application) : GoMap Application :=
  (stored.filter (matchesSource srcName)).foldl (fun m app => m.set app.Name app) []

/-- How the loop over the index ended. -/
inductive SyncOutcome where
  /-- Every entry was processed. -/
  | done
  /-- The loop returned on the error of `ctrl.CreateOrUpdate`. -/
  | writeFailed (err : String)
  /-- The loop stopped on a run-time fault. -/
  | fault (f : Fault)
  deriving DecidableEq, Repr

/-- The `ctrl.CreateOrUpdate` calls the loop issued, in order, how it ended,
and the Applications in the store afterwards. -/
structure SyncResult where
  writes : List AppWrite
  outcome : SyncOutcome
  stored : List Application
  deriving DecidableEq, Repr

/-- Lines 244–331: the loop over `repoIndex.Entries`, given in the order the
range visits them, on the Applications `stored` in the store. A record is
handed to `ctrl.CreateOrUpdate` only under `needsUpdate`; the first error
ends the loop, and so does a fault. -/
def syncEntries (lib : NetURL) (store : ResourceStore) (srcName srcURL : String)
    (defaultCategories : GoMap (List String)) (haveApps : GoMap Application) :
    List Application → List (String × List repo.ChartVersion) → SyncResult
  | stored, [] => { writes := [], outcome := .done, stored := stored }
  | stored, (chartName, items) :: entries =>
    let r := mergeEntry lib srcName srcURL defaultCategories
      (haveApps.get (applicationName srcName chartName)) chartName items
    if r.2 then
      match labelDeprecated r.1 with
      | .error f => { writes := [], outcome := .fault f, stored := stored }
      | .ok app =>
        let w := appWriteOf srcName app
        match createOrUpdate store stored w with
        | .fault f => { writes := [w], outcome := .fault f, stored := stored }
        | .failed err => { writes := [w], outcome := .writeFailed err, stored := stored }
        | .written stored' =>
          let rest := syncEntries lib store srcName srcURL defaultCategories haveApps
            stored' entries
          { writes := w :: rest.writes, outcome := rest.outcome, stored := rest.stored }
    else syncEntries lib store srcName srcURL defaultCategories haveApps stored entries

/-! ## Category overlay loader -/

/-- Go `parseCategories`. `decoded` is what the YAML/JSON decoder yields for
the document: an error, or the map `byCategory` as the list of its entries in
the order the range visits them; `toLower` is `strings.ToLower`. -/
def parseCategories (toLower : String → String)
    (decoded : Except String (List (String × List String))) :
    Except String (GoMap (List String)) :=
  match decoded with
  | .error err => .error err
  | .ok byCategory =>
    .ok (byCategory.foldl
      (fun result entry =>
        let cat := toLower entry.1
        entry.2.foldl (fun result app => result.set app ((result.get app).getD [] ++ [cat]))
          result)
      [])

/-- Lower-casing of the letters `A`–`Z`, on which `strings.ToLower` agrees. -/
def asciiLower (s : String) : String := String.mk (s.data.map Char.toLower)

/-! ## Specification-side definitions -/

/-- The spec's wording of step 3: the index entries whose version string is
neither on the record (`recorded`) nor the version of an earlier entry of the
same list, in the order of the list. -/
def unseenEntries (recorded : List String) (items : List repo.ChartVersion) :
    List repo.ChartVersion :=
  ((items.zip items.inits).filter fun p =>
    decide (p.1.Version ∉ recorded ∧ p.1.Version ∉ p.2.map fun e => e.Version)).map Prod.fst

/-- The spec's wording of the category overlay for package `p`: the
lower-cased name of each category that lists `p`, once per listing, in the
order of the categories. -/
def categoriesListing (toLower : String → String) (byCategory : List (String × List String))
    (p : String) : List String :=
  byCategory.flatMap fun entry => (entry.2.filter fun app => decide (app = p)).map fun _ => toLower entry.1

/-- The entries the loop `L` appends when the version strings in `seen` are on
the record: an entry is kept unless its version is in `seen`, and a kept
version is seen from then on. -/
def freshEntries : List String → List repo.ChartVersion → List repo.ChartVersion
  | _, [] => []
  | seen, cv :: items =>
    if cv.Version ∈ seen then freshEntries seen items
    else cv :: freshEntries (seen ++ [cv.Version]) items

/-- Appending the list `l` under a key whose current entry is `o`: no entry
appears when nothing is appended. -/
def appendUnder (o : Option (List String)) (l : List String) : Option (List String) :=
  if l = [] then o else some (o.getD [] ++ l)

/-- The four fields of a descriptor the spec names. -/
def descriptorKey (d : ChartVersion) : String × String × Int × Bool :=
  (d.Version, d.Digest, d.Created, d.Deprecated)

/-- The same four fields of an index entry. -/
def entryKey (e : repo.ChartVersion) : String × String × Int × Bool :=
  (e.Version, e.Digest, e.Created, e.Deprecated)

/-! ## Concrete data for evaluations -/

/-- An index entry with the given version string and deprecated flag. -/
def exampleEntry (version : String) (deprecated : Bool) : repo.ChartVersion :=
  { Home := "", Sources := [], Version := version, Description := "", Keywords := [],
    Maintainers := [], Icon := "", APIVersion := "v1", AppVersion := "",
    Deprecated := deprecated, Annotations := [], KubeVersion := "", Dependencies := [],
    ChartType := "", URLs := ["mysql-" ++ version ++ ".tgz"], Created := 0, Removed := false,
    Digest := "sha256:" ++ version }

/-- A stored record of package `mysql` of Source `stable` with the given
`AppName`, labels and versions. -/
def exampleRecord (appName : String) (labels : GoMap String) (versions : List ChartVersion) :
    Application :=
  { Name := "stable.mysql", AppName := appName, Labels := some labels, Versions := versions,
    Controller := some "stable" }

/-- A store that accepts every write. -/
def acceptingStore : ResourceStore :=
  { getError := fun _ => none, setControllerReference := fun _ _ => none,
    createError := fun _ => none, updateError := fun _ => none }

/-! ## Source and its status (`api/v1alpha2/source_types.go`) -/

/-- Go `SourceSpec`. -/
structure SourceSpec where
  URL : String
  SkipSync : Bool
  Username : String
  Password : String
  CertFile : String
  KeyFile : String
  CAFile : String
  UpdateFrequency : String
  deriving DecidableEq, Repr

/-- Go `SourceSyncState`, a string type. -/
abbrev SourceSyncState := String

def SyncStateSuccess : SourceSyncState := "success"

def SyncStateError : SourceSyncState := "error"

def SyncStateUnknown : SourceSyncState := "unknown"

def SyncStateUpdating : SourceSyncState := "updating"

/-- Go `SourceStatus`; `LastUpdate` is `none` for the zero time. -/
structure SourceStatus where
  State : SourceSyncState
  Reason : String
  LastUpdate : Option Int
  AppCount : Int
  deriving DecidableEq, Repr

/-- Go `Source` (name, spec and status). -/
structure Source where
  Name : String
  Spec : SourceSpec
  Status : SourceStatus
  deriving DecidableEq, Repr

/-- Go `ctrl.Result`; `RequeueAfter` in nanoseconds. -/
structure ctrl.Result where
  Requeue : Bool
  RequeueAfter : Int
  deriving DecidableEq, Repr

/-- Helm `repo.Entry` as `Reconcile` fills it on lines 196–204. -/
structure repo.Entry where
  Name : String
  URL : String
  Username : String
  Password : String
  CertFile : String
  KeyFile : String
  CAFile : String
  deriving DecidableEq, Repr

/-- Go `corev1.ConfigMap`: its `Data`, in the order a range visits it. -/
structure ConfigMap where
  Name : String
  Data : List (String × String)
  deriving DecidableEq, Repr

/-- The error of a `client.Get`. -/
inductive GetError where
  /-- The object does not exist (`client.IgnoreNotFound` turns it into nil). -/
  | notFound
  /-- Any other failure, with its message. -/
  | other (msg : String)
  deriving DecidableEq, Repr

/-- What the collaborators of `SourceReconciler.Reconcile` answer during one
run: the Resource Store (`Get`, `List`, `CreateOrUpdate`, `Status().Patch`),
the decoder of the overlay document, `strings.ToLower`, `time.ParseDuration`,
`net/url`, the Helm repository client and the clock. `stored` are the
Applications in the store when line 232 lists them, on which the
`ctrl.CreateOrUpdate` calls of the run then work; `storedAtStatus` are those
in it when `setSourceStatus` lists them. -/
structure SourceEnv where
  source : Except GetError Source
  categories : Except GetError ConfigMap
  decode : String → Except String (List (String × List String))
  toLower : String → String
  parseDuration : String → Except String Int
  lib : NetURL
  newChartRepository : repo.Entry → Option String
  now : Int
  downloadIndexFile : repo.Entry → Except String String
  loadIndexFile : String → Except String (List (String × List repo.ChartVersion))
  listError : Option String
  stored : List Application
  store : ResourceStore
  statusListError : Option String
  storedAtStatus : List Application
  patchStatus : Source → Option String

/-- Lines 345–351 of `setSourceStatus`: the listed Applications whose
controller reference names the Source. -/
def countOwned (srcName : String) (all : List Application) : Int :=
  all.foldl
    (fun n x =>
      match x.Controller with
      | none => n
      | some ref => if ref ≠ srcName then n else n + 1)
    0

/-- What one call of `setSourceStatus` did: the status it handed to
`Status().Patch` (none when the call returned before), and the error it
returned. -/
structure StatusWrite where
  patched : Option SourceStatus
  err : Option String
  deriving DecidableEq, Repr

/-- Go `setSourceStatus` (the recorder event aside): list the Applications
under the label selector, count the owned ones into `AppCount`, patch. -/
def setSourceStatus (env : SourceEnv) (src : Source) (status : SourceStatus) : StatusWrite :=
  match env.statusListError with
  | some err => { patched := none, err := some err }
  | none =>
    let all := env.storedAtStatus.filter (matchesSource src.Name)
    let status := { status with AppCount := countOwned src.Name all }
    match env.patchStatus { src with Status := status } with
    | some err => { patched := some status, err := some ("FAILED during status update: " ++ err) }
    | none => { patched := some status, err := none }

/-- What one run of `SourceReconciler.Reconcile` did and returned: the
`ctrl.Result` and error (a run that ended in a fault returned neither, and
both fields then hold the zero value), the fault that ended it if any,
whether the index was fetched, the `ctrl.CreateOrUpdate` calls, the
operation and status of each `setSourceStatus` call, the statuses handed to
`Status().Patch`, and the field `r.defaultCategories` after the run. -/
structure SourceRun where
  result : ctrl.Result
  err : Option String
  fault : Option Fault
  fetched : Bool
  writes : List AppWrite
  statusCalls : List (String × SourceStatus)
  patched : List SourceStatus
  defaultCategories : GoMap (List String)
  deriving DecidableEq, Repr

/-- A `return result, r.setSourceStatus(ctx, src, op, status)` of `Reconcile`. -/
def returnStatus (env : SourceEnv) (src : Source) (cats : GoMap (List String))
    (result : ctrl.Result) (fetched : Bool) (writes : List AppWrite) (op : String)
    (status : SourceStatus) : SourceRun :=
  let sw := setSourceStatus env src status
  { result := result, err := sw.err, fault := none, fetched := fetched, writes := writes,
    statusCalls := [(op, status)], patched := sw.patched.toList, defaultCategories := cats }

/-- A return of `Reconcile` without a status write. -/
def returnPlain (cats : GoMap (List String)) (err : Option String) : SourceRun :=
  { result := { Requeue := false, RequeueAfter := 0 }, err := err, fault := none,
    fetched := false, writes := [], statusCalls := [], patched := [],
    defaultCategories := cats }

/-- Lines 156–169: refresh of `r.defaultCategories` from the first entry the
range over the ConfigMap data visits; the field keeps its value when the
ConfigMap cannot be read, has no data, or does not parse. -/
def loadCategories (env : SourceEnv) (defaultCategories : GoMap (List String)) :
    GoMap (List String) :=
  match env.categories with
  | .ok cm =>
    match cm.Data with
    | [] => defaultCategories
    | (_, d) :: _ =>
      match parseCategories env.toLower (env.decode d) with
      | .error _ => defaultCategories
      | .ok cats => cats
  | .error _ => defaultCategories

/-- Lines 196–204: the repository entry built from the Source. -/
def repoEntry (src : Source) : repo.Entry :=
  { Name := src.Name, URL := src.Spec.URL, Username := src.Spec.Username,
    Password := src.Spec.Password, CertFile := src.Spec.CertFile,
    KeyFile := src.Spec.KeyFile, CAFile := src.Spec.CAFile }

/-- Lines 195–337 of `Reconcile`: the sync of a Source in state `updating`
whose poll interval has been accepted; `result` is what `result()` returns. -/
def syncSource (env : SourceEnv) (src : Source) (cats : GoMap (List String))
    (result : ctrl.Result) : SourceRun :=
  let entry := repoEntry src
  match env.newChartRepository entry with
  | some err =>
    returnStatus env src cats result false [] "SyncRepo"
      { State := SyncStateError, Reason := err, LastUpdate := none, AppCount := 0 }
  | none =>
    let start := env.now
    match env.downloadIndexFile entry with
    | .error err =>
      returnStatus env src cats result true [] "SyncRepo"
        { State := SyncStateError, Reason := err, LastUpdate := some start, AppCount := 0 }
    | .ok idx =>
      match env.loadIndexFile idx with
      | .error err =>
        returnStatus env src cats result true [] "SyncRepo"
          { State := SyncStateError, Reason := err, LastUpdate := some start, AppCount := 0 }
      | .ok entries =>
        match env.listError with
        | some err =>
          returnStatus env src cats result true [] "ListApps"
            { State := SyncStateError, Reason := err, LastUpdate := some start, AppCount := 0 }
        | none =>
          let r := syncEntries env.lib env.store src.Name src.Spec.URL cats
            (buildHave src.Name env.stored) env.stored entries
          match r.outcome with
          | .fault f =>
            { result := { Requeue := false, RequeueAfter := 0 }, err := none,
              fault := some f, fetched := true, writes := r.writes, statusCalls := [],
              patched := [], defaultCategories := cats }
          | .writeFailed err =>
            returnStatus env src cats result true r.writes "AppUpdate"
              { State := SyncStateError, Reason := err, LastUpdate := some start,
                AppCount := 0 }
          | .done =>
            returnStatus env src cats result true r.writes "Reconcile"
              { State := SyncStateSuccess, Reason := "", LastUpdate := some start,
                AppCount := 0 }

/-- Go `SourceReconciler.Reconcile`, on the value of `r.defaultCategories`
the reconciler holds when the run starts. -/
def SourceReconciler.Reconcile (defaultCategories : GoMap (List String)) (env : SourceEnv) :
    SourceRun :=
  match env.source with
  | .error .notFound => returnPlain defaultCategories none
  | .error (.other msg) => returnPlain defaultCategories (some msg)
  | .ok src =>
    if src.Spec.SkipSync then returnPlain defaultCategories none
    else
      let cats := loadCategories env defaultCategories
      if src.Status.State ≠ SyncStateUpdating then
        returnStatus env src cats { Requeue := true, RequeueAfter := 0 } false [] "Reconcile"
          { State := SyncStateUpdating, Reason := "object changed", LastUpdate := none,
            AppCount := 0 }
      else if src.Spec.UpdateFrequency ≠ "" then
        match env.parseDuration src.Spec.UpdateFrequency with
        | .error err =>
          returnStatus env src cats { Requeue := false, RequeueAfter := 0 } false []
            "Reconcile"
            { State := SyncStateError,
              Reason := "spec.updateFrequency is invalid: " ++ err,
              LastUpdate := none, AppCount := 0 }
        | .ok d => syncSource env src cats { Requeue := false, RequeueAfter := d }
      else syncSource env src cats { Requeue := false, RequeueAfter := 0 }

/-- The failure messages the collaborators of a sync can report to
`Reconcile`: `m` is the error of the repository client, of the index
download or load, of the listing on line 232, or of a `ctrl.CreateOrUpdate`. -/
def SourceEnv.reports (env : SourceEnv) (m : String) : Prop :=
  (∃ entry, env.newChartRepository entry = some m) ∨
  (∃ entry, env.downloadIndexFile entry = .error m) ∨
  (∃ idx, env.loadIndexFile idx = .error m) ∨
  env.listError = some m ∨
  env.store.reports m

/-- The spec's wording of the record a package has before the cycle, as far
as the cycle looks: the stored Application with the identity `name` that
carries the source-name label of the Source. -/
def listedRecord (srcName : String) (stored : List Application) (name : String) :
    Option Application :=
  stored.find? fun a => decide (a.Name = name) && matchesSource srcName a

/-- The spec's wording of the owned-Application count: the stored
Applications whose controller reference names the Source. -/
def ownedBy (srcName : String) (stored : List Application) : List Application :=
  stored.filter fun x => decide (x.Controller = some srcName)

/-! ## Releases (`api/v1alpha2/release_types.go`, `controllers/release_controller.go`) -/

/-- Go `Status` of a release, a string type. -/
abbrev Status := String

def StatusDeployed : Status := "deployed"

def StatusSuperseded : Status := "superseded"

/-- Go `Info`. -/
structure Info where
  FirstDeployed : String
  LastDeployed : String
  Deleted : String
  Description : String
  Status : Status
  Notes : String
  deriving DecidableEq, Repr

/-- Go `ChartMaintainer`. -/
structure ChartMaintainer where
  Name : String
  Email : String
  URL : String
  deriving DecidableEq, Repr

/-- Go `ChartDependency`. -/
structure ChartDependency where
  Name : String
  Version : String
  Repository : String
  Condition : String
  Tags : List String
  Enabled : Bool
  ImportValues : List Nat
  Alias : String
  deriving DecidableEq, Repr

/-- Go `Metadata`. -/
structure Metadata where
  Name : String
  Home : String
  Sources : List String
  Version : String
  Description : String
  Keywords : List String
  Maintainers : List ChartMaintainer
  Icon : String
  APIVersion : String
  Condition : String
  Tags : String
  AppVersion : String
  Deprecated : Bool
  Annotations : GoMap String
  KubeVersion : String
  Dependencies : List ChartDependency
  ChartType : String
  deriving DecidableEq, Repr

/-- Go `Lock`. -/
structure Lock where
  Generated : String
  Digest : String
  Dependencies : List ChartDependency
  deriving DecidableEq, Repr

/-- Go `File`. -/
structure File where
  Name : String
  Data : List Nat
  deriving DecidableEq, Repr

/-- Go `Chart`; a nil pointer is `none`. -/
structure Chart where
  Metadata : Option Metadata
  Lock : Option Lock
  Templates : List File
  Schema : List Nat
  deriving DecidableEq, Repr

/-- Go `HookExecution`. -/
structure HookExecution where
  StartedAt : String
  CompletedAt : String
  Phase : String
  deriving DecidableEq, Repr

/-- Go `Hook`. -/
structure Hook where
  Name : String
  Kind : String
  Path : String
  Manifest : String
  Events : List String
  LastRun : HookExecution
  Weight : Int
  DeletePolicies : List String
  deriving DecidableEq, Repr

/-- Go `ReleaseSpec`; the pointer fields `Info`, `Chart` and `Config` are
`none` when nil. -/
structure ReleaseSpec where
  Name : String
  Info : Option Info
  Chart : Option Chart
  Config : Option (List Nat)
  Manifest : String
  Hooks : List Hook
  Version : Int
  Namespace : String
  deriving DecidableEq, Repr

/-- Go `Release`: name, namespace, labels, owner references (by name), spec. -/
structure Release where
  Name : String
  Namespace : String
  Labels : GoMap String
  Owners : List String
  Spec : ReleaseSpec
  deriving DecidableEq, Repr

/-- Go `corev1.Secret`: the fields `Reconcile` reads; a data value is the
byte string as `string(...)` converts it. -/
structure Secret where
  Name : String
  Namespace : String
  Labels : GoMap String
  SecretType : String
  Data : GoMap String
  deriving DecidableEq, Repr

/-- The standard-library stages `decodeSecretRelease` runs:
`base64.StdEncoding.DecodeString`, `gzip.NewReader` (the error it reports on
the stream, if any), `ioutil.ReadAll` of the reader, `json.Unmarshal` into a
`ReleaseSpec`. -/
structure Codec where
  base64Decode : String → Except String (List Nat)
  gzipNewReader : List Nat → Option String
  readAll : List Nat → Except String (List Nat)
  jsonUnmarshal : List Nat → Except String ReleaseSpec

/-- Go `decodeSecretRelease`. -/
def decodeSecretRelease (codec : Codec) (secret : Secret) : Except String ReleaseSpec :=
  let strRel := (secret.Data.get "release").getD ""
  match codec.base64Decode strRel with
  | .error err => .error err
  | .ok dst =>
    match codec.gzipNewReader dst with
    | some err => .error err
    | none =>
      match codec.readAll dst with
      | .error err => .error err
      | .ok bRel =>
        match codec.jsonUnmarshal bRel with
        | .error err => .error err
        | .ok releaseSpec => .ok releaseSpec

/-- What `ReleaseReconciler.Reconcile` hands to `ctrl.CreateOrUpdate`: the
Release (name and namespace are the key) and the variables the mutate
function captures, the Secret and the decoded document. -/
structure ReleaseWrite where
  obj : Release
  owner : Secret
  spec : ReleaseSpec
  deriving DecidableEq, Repr

/-- Lines 94–101: the mutate function on the Release the library passes it:
the Secret is added to the owners, `Spec` is overwritten. -/
def ReleaseWrite.mutate (w : ReleaseWrite) (obj : Release) : Release :=
  { obj with
    Owners := if w.owner.Name ∈ obj.Owners then obj.Owners else obj.Owners ++ [w.owner.Name]
    Spec := w.spec }

/-- What the collaborators of `ReleaseReconciler.Reconcile` answer during
one run. -/
structure ReleaseEnv where
  secret : Except GetError Secret
  codec : Codec
  createOrUpdate : ReleaseWrite → Option String

/-- What one run of `ReleaseReconciler.Reconcile` did and returned: the
error, the fault that ended it if any, whether `decodeSecretRelease` was
called, and the `ctrl.CreateOrUpdate` calls. -/
structure ReleaseRun where
  err : Option String
  fault : Option Fault
  decoded : Bool
  writes : List ReleaseWrite
  deriving DecidableEq, Repr

/-- The label-key namespace of the marketplace. -/
def marketplaceLabelDomain : String := "marketplace.criticalstack.com/"

/-- Go `ReleaseReconciler.Reconcile` (every return carries `ctrl.Result{}`). -/
def ReleaseReconciler.Reconcile (env : ReleaseEnv) : ReleaseRun :=
  match env.secret with
  | .error .notFound => { err := none, fault := none, decoded := false, writes := [] }
  | .error (.other msg) => { err := some msg, fault := none, decoded := false, writes := [] }
  | .ok secret =>
    if secret.SecretType ≠ "helm.sh/release.v1" then
      { err := none, fault := none, decoded := false, writes := [] }
    else
      match decodeSecretRelease env.codec secret with
      | .error err => { err := some err, fault := none, decoded := true, writes := [] }
      | .ok decodedSecret =>
        match decodedSecret.Info with
        | none =>
          { err := none, fault := some .nilDereference, decoded := true, writes := [] }
        | some info =>
          if info.Status = StatusSuperseded then
            { err := none, fault := none, decoded := true, writes := [] }
          else
            let release : Release :=
              { Name := (secret.Labels.get "name").getD ""
                Namespace := secret.Namespace
                Labels := secret.Labels.filter fun kv => hasPrefixStr kv.1 marketplaceLabelDomain
                Owners := []
                Spec := decodedSecret }
            if release.Name = "" then
              { err := none, fault := none, decoded := true, writes := [] }
            else
              let w : ReleaseWrite :=
                { obj := release, owner := secret, spec := decodedSecret }
              { err := env.createOrUpdate w, fault := none, decoded := true, writes := [w] }

/-! ## Concrete collaborators for evaluations -/

/-- Parse of a decimal count followed by one unit `s`, `m` or `h`, for
concrete evaluations. It agrees with `time.ParseDuration` on such inputs and
on inputs that start with a letter (messages as Go prints them without
quoting the input); every other input is reported as a failure here. -/
def exampleParseDuration (s : String) : Except String Int :=
  let digits := s.data.takeWhile Char.isDigit
  let unit := s.data.dropWhile Char.isDigit
  let n : Int := digits.foldl (fun n c => 10 * n + ((c.toNat : Int) - 48)) 0
  if digits = [] then .error ("time: invalid duration " ++ s)
  else if unit = [] then .error ("time: missing unit in duration " ++ s)
  else if unit = ['s'] then .ok (n * 1000000000)
  else if unit = ['m'] then .ok (n * 60000000000)
  else if unit = ['h'] then .ok (n * 3600000000000)
  else .error ("time: unknown unit " ++ String.mk unit ++ " in duration " ++ s)

/-- The Source `stable` at `http://host/repo` with the given state and poll
interval. -/
def exampleSource (state : SourceSyncState) (updateFrequency : String) : Source :=
  { Name := "stable"
    Spec := { URL := "http://host/repo", SkipSync := false, Username := "", Password := "",
              CertFile := "", KeyFile := "", CAFile := "",
              UpdateFrequency := updateFrequency }
    Status := { State := state, Reason := "", LastUpdate := none, AppCount := 0 } }

/-- Collaborators that all succeed: the Source is `src`, there is no overlay
ConfigMap, the index lists package `mysql` with version `1.0.0`, the store is
empty when line 232 lists it and accepts every write, and holds the
Applications `stored` when `setSourceStatus` lists them. -/
def exampleEnv (src : Source) (stored : List Application) : SourceEnv :=
  { source := .ok src
    categories := .error .notFound
    decode := fun _ => .error "not a document"
    toLower := asciiLower
    parseDuration := exampleParseDuration
    lib := plainURL
    newChartRepository := fun _ => none
    now := 1600000000
    downloadIndexFile := fun _ => .ok "index.yaml"
    loadIndexFile := fun _ => .ok [("mysql", [exampleEntry "1.0.0" false])]
    listError := none
    stored := []
    store := acceptingStore
    statusListError := none
    storedAtStatus := stored
    patchStatus := fun _ => none }

/-- A release document with the given status and version. -/
def exampleReleaseSpec (status : Status) (version : Int) : ReleaseSpec :=
  { Name := "exampleapp"
    Info := some { FirstDeployed := "", LastDeployed := "", Deleted := "", Description := "",
                   Status := status, Notes := "" }
    Chart := none, Config := none, Manifest := "", Hooks := [], Version := version,
    Namespace := "critical-stack" }

/-- A codec for concrete evaluations: the blob `deployed` decodes to a
deployed release of version 2, the blob `superseded` to a superseded release
of version 1, and any other blob is refused as base64. -/
def exampleCodec : Codec :=
  { base64Decode := fun s =>
      if s = "deployed" then .ok [1] else if s = "superseded" then .ok [0]
      else .error "illegal base64 data at input byte 0"
    gzipNewReader := fun _ => none
    readAll := fun b => .ok b
    jsonUnmarshal := fun b =>
      if b = [1] then .ok (exampleReleaseSpec StatusDeployed 2)
      else .ok (exampleReleaseSpec StatusSuperseded 1) }

/-- A Secret of the given type with the release blob `blob` and the name
label `exampleapp`. -/
def exampleSecret (secretType blob : String) : Secret :=
  { Name := "sh.helm.release.v1.exampleapp.v1", Namespace := "critical-stack",
    Labels := [("name", "exampleapp")], SecretType := secretType,
    Data := [("release", blob)] }

/-- Collaborators of the release reconciler: the Secret is `secret`, the
store accepts every write. -/
def exampleReleaseEnv (secret : Secret) : ReleaseEnv :=
  { secret := .ok secret, codec := exampleCodec, createOrUpdate := fun _ => none }

/-- A release document without an info section, as `json.Unmarshal` yields
it for a JSON object that has no `info` key. -/
def infolessReleaseSpec : ReleaseSpec :=
  { Name := "exampleapp", Info := none, Chart := none, Config := none, Manifest := "",
    Hooks := [], Version := 1, Namespace := "critical-stack" }

/-- A codec for concrete evaluations that decodes the blob `infoless` to the
document without info section and refuses any other blob as base64. -/
def infolessCodec : Codec :=
  { base64Decode := fun s =>
      if s = "infoless" then .ok [2] else .error "illegal base64 data at input byte 0"
    gzipNewReader := fun _ => none
    readAll := fun b => .ok b
    jsonUnmarshal := fun _ => .ok infolessReleaseSpec }

/-! ## Lemmas on the version loop -/

theorem any_version_iff (vs : List ChartVersion) (s : String) :
    vs.any (fun v => decide (v.Version = s)) = true ↔ s ∈ vs.map fun v => v.Version := by
  simp only [List.any_eq_true, decide_eq_true_eq, List.mem_map]

theorem newChartVersion_version (lib : NetURL) (srcURL : String) (cv : repo.ChartVersion) :
    (newChartVersion lib srcURL cv).Version = cv.Version := rfl

theorem appendVersions_versions (lib : NetURL) (srcURL chartName : String)
    (items : List repo.ChartVersion) (app : Application) (b : Bool) :
    (appendVersions lib srcURL chartName (app, b) items).1.Versions =
      app.Versions ++
        (freshEntries (app.Versions.map fun v => v.Version) items).map
          (newChartVersion lib srcURL) := by
  induction items generalizing app b with
  | nil => simp [appendVersions, freshEntries]
  | cons cv items ih =>
    by_cases h : cv.Version ∈ app.Versions.map fun v => v.Version
    · have h' := (any_version_iff app.Versions cv.Version).2 h
      rw [appendVersions, if_pos h', ih, freshEntries, if_pos h]
    · have h' : ¬ (app.Versions.any (fun v => decide (v.Version = cv.Version)) = true) :=
        fun hc => h ((any_version_iff app.Versions cv.Version).1 hc)
      rw [appendVersions, if_neg h', ih, freshEntries, if_neg h]
      simp [newChartVersion_version]

theorem appendVersions_flag (lib : NetURL) (srcURL chartName : String)
    (items : List repo.ChartVersion) (app : Application) (b : Bool) :
    (appendVersions lib srcURL chartName (app, b) items).2 =
      (b || !(freshEntries (app.Versions.map fun v => v.Version) items).isEmpty) := by
  induction items generalizing app b with
  | nil => simp [appendVersions, freshEntries]
  | cons cv items ih =>
    by_cases h : cv.Version ∈ app.Versions.map fun v => v.Version
    · have h' := (any_version_iff app.Versions cv.Version).2 h
      rw [appendVersions, if_pos h', ih, freshEntries, if_pos h]
    · have h' : ¬ (app.Versions.any (fun v => decide (v.Version = cv.Version)) = true) :=
        fun hc => h ((any_version_iff app.Versions cv.Version).1 hc)
      rw [appendVersions, if_neg h', ih, freshEntries, if_neg h]
      simp

theorem appendVersions_labels (lib : NetURL) (srcURL chartName : String)
    (items : List repo.ChartVersion) (app : Application) (b : Bool) :
    (appendVersions lib srcURL chartName (app, b) items).1.Labels = app.Labels ∧
    (appendVersions lib srcURL chartName (app, b) items).1.Name = app.Name ∧
    (appendVersions lib srcURL chartName (app, b) items).1.Controller = app.Controller := by
  induction items generalizing app b with
  | nil => simp [appendVersions]
  | cons cv items ih =>
    rw [appendVersions]
    split
    · exact ih app b
    · exact ih _ true

theorem freshEntries_eq_nil (seen : List String) (items : List repo.ChartVersion)
    (h : ∀ e ∈ items, e.Version ∈ seen) : freshEntries seen items = [] := by
  induction items with
  | nil => rfl
  | cons cv items ih =>
    rw [freshEntries, if_pos (h cv (List.mem_cons_self _ _))]
    exact ih fun e he => h e (List.mem_cons_of_mem _ he)

theorem freshEntries_covers (items : List repo.ChartVersion) (seen : List String) :
    ∀ e ∈ items, e.Version ∈ seen ++ (freshEntries seen items).map fun e => e.Version := by
  induction items generalizing seen with
  | nil => simp
  | cons cv items ih =>
    intro e he
    by_cases h : cv.Version ∈ seen
    · rw [freshEntries, if_pos h]
      rcases List.mem_cons.1 he with rfl | he
      · exact List.mem_append_left _ h
      · exact ih seen e he
    · rw [freshEntries, if_neg h]
      have key : seen ++ List.map (fun e => e.Version) (cv :: freshEntries (seen ++ [cv.Version]) items)
          = (seen ++ [cv.Version]) ++ (freshEntries (seen ++ [cv.Version]) items).map fun e => e.Version := by
        simp
      rw [key]
      rcases List.mem_cons.1 he with rfl | he
      · exact List.mem_append_left _ (by simp)
      · exact ih _ e he

theorem freshEntries_nodup (items : List repo.ChartVersion) (seen : List String)
    (h : seen.Nodup) : (seen ++ (freshEntries seen items).map fun e => e.Version).Nodup := by
  induction items generalizing seen with
  | nil => simpa [freshEntries] using h
  | cons cv items ih =>
    by_cases hc : cv.Version ∈ seen
    · rw [freshEntries, if_pos hc]
      exact ih seen h
    · rw [freshEntries, if_neg hc]
      have h2 : (seen ++ [cv.Version]).Nodup := by
        rw [List.nodup_append]
        refine ⟨h, List.nodup_singleton _, ?_⟩
        intro a ha hb
        rw [List.mem_singleton] at hb
        exact hc (hb ▸ ha)
      have := ih _ h2
      simpa using this

theorem freshEntries_congr (items : List repo.ChartVersion) (s₁ s₂ : List String)
    (h : ∀ v, v ∈ s₁ ↔ v ∈ s₂) : freshEntries s₁ items = freshEntries s₂ items := by
  induction items generalizing s₁ s₂ with
  | nil => rfl
  | cons cv items ih =>
    by_cases hc : cv.Version ∈ s₁
    · rw [freshEntries, if_pos hc, freshEntries, if_pos ((h _).1 hc)]
      exact ih s₁ s₂ h
    · rw [freshEntries, if_neg hc, freshEntries, if_neg (fun hx => hc ((h _).2 hx))]
      congr 1
      apply ih
      intro v
      simp only [List.mem_append, List.mem_singleton, h v]

theorem freshEntries_eq_filter (recorded : List String) (items pre : List repo.ChartVersion) :
    freshEntries (recorded ++ pre.map fun e => e.Version) items =
      ((items.zip (items.inits.map fun l => pre ++ l)).filter fun p =>
        decide (p.1.Version ∉ recorded ∧ p.1.Version ∉ p.2.map fun e => e.Version)).map
        Prod.fst := by
  induction items generalizing pre with
  | nil => simp [freshEntries]
  | cons x xs ih =>
    have hz : (x :: xs).zip ((x :: xs).inits.map fun l => pre ++ l) =
        (x, pre) :: xs.zip (xs.inits.map fun l => (pre ++ [x]) ++ l) := by
      simp [List.inits, List.map_map, Function.comp_def]
    rw [hz, List.filter_cons]
    by_cases hc : x.Version ∈ recorded ++ pre.map fun e => e.Version
    · have hd : ¬ (x.Version ∉ recorded ∧ x.Version ∉ pre.map fun e => e.Version) := by
        intro hh
        rcases List.mem_append.1 hc with h1 | h1
        · exact hh.1 h1
        · exact hh.2 h1
      rw [freshEntries, if_pos hc, if_neg (by simpa using hd), ← ih (pre ++ [x])]
      apply freshEntries_congr
      intro v
      simp only [List.map_append, List.map_cons, List.map_nil, List.mem_append,
        List.mem_singleton]
      constructor
      · intro h
        rcases h with h | h
        · exact Or.inl h
        · exact Or.inr (Or.inl h)
      · intro h
        rcases h with h | h | h
        · exact Or.inl h
        · exact Or.inr h
        · rw [h]
          exact List.mem_append.1 hc
    · have hd : x.Version ∉ recorded ∧ x.Version ∉ pre.map fun e => e.Version :=
        ⟨fun h1 => hc (List.mem_append_left _ h1), fun h1 => hc (List.mem_append_right _ h1)⟩
      rw [freshEntries, if_neg hc, if_pos (by simpa using hd), List.map_cons, ← ih (pre ++ [x])]
      simp

theorem freshEntries_eq_unseenEntries (recorded : List String)
    (items : List repo.ChartVersion) :
    freshEntries recorded items = unseenEntries recorded items := by
  have h := freshEntries_eq_filter recorded items []
  simpa [unseenEntries] using h

/-! ## Merge of one package -/

theorem locateApp_versions (srcName chartName : String) (existing : Option Application) :
    (locateApp srcName chartName existing).Versions = recordedVersions existing := by
  cases existing <;> rfl

theorem applyCategories_versions (cats : GoMap (List String)) (app : Application) :
    (applyCategories cats app).Versions = app.Versions := by
  simp only [applyCategories]
  split <;> rfl

theorem mergeEntry_versions (lib : NetURL) (srcName srcURL : String)
    (cats : GoMap (List String)) (existing : Option Application) (chartName : String)
    (items : List repo.ChartVersion) :
    (mergeEntry lib srcName srcURL cats existing chartName items).1.Versions =
      recordedVersions existing ++
        (freshEntries ((recordedVersions existing).map fun v => v.Version) items).map
          (newChartVersion lib srcURL) := by
  rw [mergeEntry, appendVersions_versions, applyCategories_versions, locateApp_versions]

theorem mergeEntry_flag (lib : NetURL) (srcName srcURL : String)
    (cats : GoMap (List String)) (existing : Option Application) (chartName : String)
    (items : List repo.ChartVersion) :
    (mergeEntry lib srcName srcURL cats existing chartName items).2 =
      !(freshEntries ((recordedVersions existing).map fun v => v.Version) items).isEmpty := by
  rw [mergeEntry, appendVersions_flag, applyCategories_versions, locateApp_versions]
  simp

theorem labelDeprecated_versions (app app' : Application)
    (h : labelDeprecated app = .ok app') : app'.Versions = app.Versions := by
  unfold labelDeprecated at h
  split at h
  · split at h
    · cases h
    · cases h
      rfl
  · cases h
    rfl

theorem mutate_versions (w : AppWrite) (obj obj' : Application)
    (h : w.mutate obj = .ok obj') : obj'.Versions = w.versions := by
  simp only [AppWrite.mutate] at h
  split at h
  · cases h
    rfl
  · cases hl : obj.Labels with
    | none => simp [hl] at h
    | some m =>
      simp only [hl] at h
      cases h
      rfl

/-- C1: once an index entry list has been merged into a record, merging the
same list into any record that carries the resulting version list (the merged
record itself, or the one stored from it) reports `needsUpdate = false` and
leaves that version list as it is. -/
theorem merge_idempotent (lib : NetURL) (srcName srcURL : String)
    (cats : GoMap (List String)) (existing : Option Application) (chartName : String)
    (items : List repo.ChartVersion) (merged : Application)
    (h : merged.Versions =
      (mergeEntry lib srcName srcURL cats existing chartName items).1.Versions) :
    (mergeEntry lib srcName srcURL cats (some merged) chartName items).2 = false ∧
    (mergeEntry lib srcName srcURL cats (some merged) chartName items).1.Versions =
      merged.Versions := by
  have hnil : freshEntries
      ((recordedVersions (some merged)).map fun v => v.Version) items = [] := by
    apply freshEntries_eq_nil
    intro e he
    have hc := freshEntries_covers items
      ((recordedVersions existing).map fun v => v.Version) e he
    simp only [recordedVersions, h, mergeEntry_versions, List.map_append, List.map_map]
    simpa [Function.comp_def, newChartVersion_version] using hc
  constructor
  · rw [mergeEntry_flag, hnil]
    rfl
  · rw [mergeEntry_versions, hnil]
    simp [recordedVersions]

theorem merge_idempotent_witness :
    (mergeEntry plainURL "stable" "http://host/repo" [] none "mysql"
      [exampleEntry "1.0.0" false, exampleEntry "1.0.1" true]).1.Versions =
      (mergeEntry plainURL "stable" "http://host/repo" [] none "mysql"
        [exampleEntry "1.0.0" false, exampleEntry "1.0.1" true]).1.Versions ∧
    (mergeEntry plainURL "stable" "http://host/repo" []
      (some (mergeEntry plainURL "stable" "http://host/repo" [] none "mysql"
        [exampleEntry "1.0.0" false, exampleEntry "1.0.1" true]).1)
      "mysql" [exampleEntry "1.0.0" false, exampleEntry "1.0.1" true]).2 = false :=
  ⟨rfl, (merge_idempotent plainURL "stable" "http://host/repo" [] none "mysql"
    [exampleEntry "1.0.0" false, exampleEntry "1.0.1" true] _ rfl).1⟩

theorem mergeEntry_versions_nodup (lib : NetURL) (srcName srcURL : String)
    (cats : GoMap (List String)) (chartName : String) (existing : Option Application)
    (items : List repo.ChartVersion)
    (h : ((recordedVersions existing).map fun v => v.Version).Nodup) :
    ((mergeEntry lib srcName srcURL cats existing chartName items).1.Versions.map
      fun v => v.Version).Nodup := by
  have hn := freshEntries_nodup items _ h
  rw [mergeEntry_versions]
  simpa [Function.comp_def, newChartVersion_version] using hn

/-- C3: when the version strings on the record are pairwise distinct before a
merge (as on a record seen for the first time, which has none), they are
pairwise distinct after it for every index entry list, repeated version
strings in the list included, and so after any sequence of merge cycles. -/
theorem merge_versions_nodup (lib : NetURL) (srcName srcURL : String)
    (cats : GoMap (List String)) (chartName : String) (existing : Option Application)
    (h : ((recordedVersions existing).map fun v => v.Version).Nodup) :
    (∀ items : List repo.ChartVersion,
      ((mergeEntry lib srcName srcURL cats existing chartName items).1.Versions.map
        fun v => v.Version).Nodup) ∧
    (∀ cycles : List (List repo.ChartVersion),
      ((recordedVersions (mergeCycles lib srcName srcURL cats chartName existing cycles)).map
        fun v => v.Version).Nodup) := by
  refine ⟨fun items => mergeEntry_versions_nodup lib srcName srcURL cats chartName existing
    items h, ?_⟩
  intro cycles
  induction cycles generalizing existing with
  | nil => exact h
  | cons items cycles ih =>
    rw [mergeCycles]
    apply ih
    exact mergeEntry_versions_nodup lib srcName srcURL cats chartName existing items h

theorem merge_versions_nodup_witness :
    ((recordedVersions
      (some (exampleRecord "mysql" [(sourceNameLabel, "stable")]
        [newChartVersion plainURL "http://host/repo" (exampleEntry "1.0.0" false)]))).map
      fun v => v.Version).Nodup ∧
    ((mergeEntry plainURL "stable" "http://host/repo" []
      (some (exampleRecord "mysql" [(sourceNameLabel, "stable")]
        [newChartVersion plainURL "http://host/repo" (exampleEntry "1.0.0" false)]))
      "mysql"
      [exampleEntry "1.0.1" false, exampleEntry "1.0.0" false,
       exampleEntry "1.0.1" true]).1.Versions.map fun v => v.Version).Nodup :=
  ⟨by decide, (merge_versions_nodup plainURL "stable" "http://host/repo" [] "mysql"
    (some (exampleRecord "mysql" [(sourceNameLabel, "stable")]
      [newChartVersion plainURL "http://host/repo" (exampleEntry "1.0.0" false)]))
    (by decide)).1
    [exampleEntry "1.0.1" false, exampleEntry "1.0.0" false, exampleEntry "1.0.1" true]⟩

/-- C4: the merge extends the version list by one descriptor for each index
entry whose version string is neither on the record nor carried by an earlier
entry of the list, in the order of the list and for no other entry; each such
descriptor has the version string, digest, created timestamp and deprecated
flag of its entry. -/
theorem merge_appends_unseen (lib : NetURL) (srcName srcURL : String)
    (cats : GoMap (List String)) (existing : Option Application) (chartName : String)
    (items : List repo.ChartVersion) :
    ∃ appended : List ChartVersion,
      (mergeEntry lib srcName srcURL cats existing chartName items).1.Versions =
        recordedVersions existing ++ appended ∧
      appended.map descriptorKey =
        (unseenEntries ((recordedVersions existing).map fun v => v.Version) items).map
          entryKey := by
  refine ⟨_, mergeEntry_versions lib srcName srcURL cats existing chartName items, ?_⟩
  rw [freshEntries_eq_unseenEntries, List.map_map]
  rfl

/-! ## Lemmas on Go maps -/

theorem GoMap.get_set {α : Type} (m : GoMap α) (k k' : String) (v : α) :
    (m.set k v).get k' = if k = k' then some v else m.get k' := by
  induction m with
  | nil => simp [GoMap.set, GoMap.get]
  | cons e m ih =>
    obtain ⟨k₀, v₀⟩ := e
    by_cases h : k₀ = k
    · subst h
      by_cases h' : k₀ = k' <;> simp [GoMap.set, GoMap.get, h']
    · by_cases h' : k₀ = k'
      · subst h'
        have hne : ¬ k = k₀ := fun hx => h hx.symm
        simp [GoMap.set, GoMap.get, h, hne]
      · simp [GoMap.set, GoMap.get, h, h', ih]

theorem GoMap.set_eq_self {α : Type} (m : GoMap α) (k : String) (v : α)
    (h : m.get k = some v) : m.set k v = m := by
  induction m with
  | nil => simp [GoMap.get] at h
  | cons e m ih =>
    obtain ⟨k₀, v₀⟩ := e
    by_cases h' : k₀ = k
    · subst h'
      simp only [GoMap.get, if_true, Option.some.injEq] at h
      simp [GoMap.set, h]
    · simp only [GoMap.get, if_neg h'] at h
      simp [GoMap.set, h', ih h]

/-! ## URL normalisation -/

theorem fixURLsLoop_length (lib : NetURL) (src : String) (urls : List String)
    (parsed : Option URL) : (fixURLsLoop lib src parsed urls).length = urls.length := by
  induction urls generalizing parsed with
  | nil => rfl
  | cons u urls ih =>
    by_cases hp : hasPrefixStr u src = true
    · simp [fixURLsLoop, hp, ih]
    · cases parsed <;> simp [fixURLsLoop, hp, ih]

theorem fixURLsLoop_frame (lib : NetURL) (src : String) (urls : List String)
    (parsed : Option URL) (i : Nat) (u : String) (hi : urls[i]? = some u)
    (hp : hasPrefixStr u src = true) : (fixURLsLoop lib src parsed urls)[i]? = some u := by
  induction urls generalizing parsed i with
  | nil => simp at hi
  | cons u₀ urls ih =>
    cases i with
    | zero =>
      simp only [List.getElem?_cons_zero, Option.some.injEq] at hi
      subst hi
      simp [fixURLsLoop, hp]
    | succ i =>
      simp only [List.getElem?_cons_succ] at hi
      by_cases hp₀ : hasPrefixStr u₀ src = true
      · simpa [fixURLsLoop, hp₀] using ih parsed i hi
      · cases parsed with
        | none => simpa [fixURLsLoop, hp₀] using ih none i hi
        | some p => simpa [fixURLsLoop, hp₀] using ih _ i hi

/-- C6: `fixURLs` returns as many URLs as it was given, and an element that
begins with the source URL stands unchanged at its position. -/
theorem fixURLs_frame (lib : NetURL) (src : String) (urls : List String) :
    (fixURLs lib src urls).length = urls.length ∧
    ∀ (i : Nat) (u : String), urls[i]? = some u → hasPrefixStr u src = true →
      (fixURLs lib src urls)[i]? = some u :=
  ⟨fixURLsLoop_length lib src urls _, fun i u hi hp =>
    fixURLsLoop_frame lib src urls _ i u hi hp⟩

theorem fixURLs_frame_witness :
    ["chart-1.0.0.tgz", "http://host/repo/x.tgz"][1]? = some "http://host/repo/x.tgz" ∧
    hasPrefixStr "http://host/repo/x.tgz" "http://host/repo" = true ∧
    (fixURLs plainURL "http://host/repo"
      ["chart-1.0.0.tgz", "http://host/repo/x.tgz"])[1]? = some "http://host/repo/x.tgz" :=
  ⟨rfl, by decide,
    (fixURLs_frame plainURL "http://host/repo"
      ["chart-1.0.0.tgz", "http://host/repo/x.tgz"]).2 1 "http://host/repo/x.tgz" rfl
      (by decide)⟩

/-- C5: with source URL `http://host/repo`, a single relative asset URL is
joined onto the source path, but in a list of two the second one is joined
onto the path the first one left behind: `b.tgz` alone becomes
`http://host/repo/b.tgz`, after `chart-1.0.0.tgz` it becomes
`http://host/repo/chart-1.0.0.tgz/b.tgz`. -/
theorem fixURLs_accumulates_path :
    plainParse "http://host/repo" =
      some { Scheme := "http", Opaque := "", User := none, Host := "host", Path := "/repo",
             RawPath := "", ForceQuery := false, RawQuery := "", Fragment := "" } ∧
    fixURLs plainURL "http://host/repo" ["chart-1.0.0.tgz"] =
      ["http://host/repo/chart-1.0.0.tgz"] ∧
    fixURLs plainURL "http://host/repo" ["b.tgz"] = ["http://host/repo/b.tgz"] ∧
    fixURLs plainURL "http://host/repo" ["chart-1.0.0.tgz", "b.tgz"] =
      ["http://host/repo/chart-1.0.0.tgz", "http://host/repo/chart-1.0.0.tgz/b.tgz"] := by
  refine ⟨by decide, by decide, by decide, by decide⟩

/-! ## Category overlay loader -/

theorem appendUnder_appendUnder (o : Option (List String)) (l₁ l₂ : List String) :
    appendUnder (appendUnder o l₁) l₂ = appendUnder o (l₁ ++ l₂) := by
  unfold appendUnder
  by_cases h₁ : l₁ = [] <;> by_cases h₂ : l₂ = [] <;> simp [h₁, h₂]

theorem parseCategories_inner (cat p : String) (apps : List String)
    (m : GoMap (List String)) :
    (apps.foldl (fun result app => result.set app ((result.get app).getD [] ++ [cat])) m).get p =
      appendUnder (m.get p) ((apps.filter fun app => decide (app = p)).map fun _ => cat) := by
  induction apps generalizing m with
  | nil => simp [appendUnder]
  | cons a apps ih =>
    rw [List.foldl_cons, ih, GoMap.get_set]
    by_cases h : a = p
    · subst h
      simp [appendUnder]
    · simp [h]

theorem parseCategories_outer (toLower : String → String) (p : String)
    (byCategory : List (String × List String)) (m : GoMap (List String)) :
    (byCategory.foldl
      (fun result entry =>
        let cat := toLower entry.1
        entry.2.foldl (fun result app => result.set app ((result.get app).getD [] ++ [cat]))
          result) m).get p =
      appendUnder (m.get p) (categoriesListing toLower byCategory p) := by
  induction byCategory generalizing m with
  | nil => simp [categoriesListing, appendUnder]
  | cons e rest ih =>
    rw [List.foldl_cons, ih]
    simp only [parseCategories_inner, appendUnder_appendUnder]
    simp [categoriesListing]

/-- C7: on a well-formed overlay document `parseCategories` returns the
inverse mapping: under package `p`, the lower-cased name of every category
that lists `p`, once per listing, in the order the categories are visited,
and no key for a package no category lists. Visited in the order `db`,
`cache`, the document with `db: [mysql, postgres]` and `cache: [mysql]` gives
`mysql -> [db, cache]` and `postgres -> [db]`; visited in the other order it
gives `mysql -> [cache, db]`. -/
theorem parseCategories_inverse :
    (∀ (toLower : String → String) (byCategory : List (String × List String)),
      ∃ result, parseCategories toLower (.ok byCategory) = .ok result ∧
        ∀ p, result.get p =
          if categoriesListing toLower byCategory p = [] then none
          else some (categoriesListing toLower byCategory p)) ∧
    parseCategories asciiLower (.ok [("db", ["mysql", "postgres"]), ("cache", ["mysql"])]) =
      .ok [("mysql", ["db", "cache"]), ("postgres", ["db"])] ∧
    parseCategories asciiLower (.ok [("cache", ["mysql"]), ("db", ["mysql", "postgres"])]) =
      .ok [("mysql", ["cache", "db"]), ("postgres", ["db"])] := by
  refine ⟨?_, rfl, rfl⟩
  intro toLower byCategory
  refine ⟨_, rfl, ?_⟩
  intro p
  rw [parseCategories_outer]
  simp [appendUnder, GoMap.get]

/-! ## Labels -/

theorem category_key_ne_deprecated (c : String) :
    categoryLabelPrefix ++ c ≠ deprecatedLabel := by
  intro h
  have hd : categoryLabelPrefix.data ++ c.data = deprecatedLabel.data := by
    rw [← String.data_append, h]
  have hp : categoryLabelPrefix.data <+: deprecatedLabel.data := ⟨c.data, hd⟩
  have hf : categoryLabelPrefix.data.isPrefixOf deprecatedLabel.data = false := by decide
  rw [ List.isPrefixOf_iff_prefix.2 hp] at hf
  cases hf

theorem overlay_get_other (cats : List String) (m : GoMap String) (k : String)
    (hk : k ∉ cats.map fun c => categoryLabelPrefix ++ c) :
    (cats.foldl (fun labels c => labels.set (categoryLabelPrefix ++ c) "") m).get k =
      m.get k := by
  induction cats generalizing m with
  | nil => rfl
  | cons c cats ih =>
    have h1 : k ∉ cats.map fun c => categoryLabelPrefix ++ c :=
      fun hx => hk (List.mem_cons_of_mem _ hx)
    have h2 : ¬ categoryLabelPrefix ++ c = k := fun hx => hk (by simp [hx])
    rw [List.foldl_cons, ih _ h1, GoMap.get_set, if_neg h2]

theorem overlay_get_category (cats : List String) (m : GoMap String) (c : String)
    (hc : c ∈ cats) :
    (cats.foldl (fun labels c => labels.set (categoryLabelPrefix ++ c) "") m).get
      (categoryLabelPrefix ++ c) = some "" := by
  induction cats generalizing m with
  | nil => simp at hc
  | cons c₀ cats ih =>
    rw [List.foldl_cons]
    by_cases h : c ∈ cats
    · exact ih _ h
    · by_cases hk : categoryLabelPrefix ++ c ∈ cats.map fun c => categoryLabelPrefix ++ c
      · obtain ⟨c', hc', he⟩ := List.mem_map.1 hk
        have : c' = c := by
          have := congrArg String.data he
          simp only [String.data_append] at this
          exact String.ext (List.append_cancel_left this)
        exact absurd (this ▸ hc') h
      · have hc0 : c = c₀ := by
          rcases List.mem_cons.1 hc with h' | h'
          · exact h'
          · exact absurd h' h
        subst hc0
        rw [overlay_get_other _ _ _ hk, GoMap.get_set, if_pos rfl]

theorem overlay_fixed (cats : List String) (m : GoMap String)
    (h : ∀ c ∈ cats, m.get (categoryLabelPrefix ++ c) = some "") :
    cats.foldl (fun labels c => labels.set (categoryLabelPrefix ++ c) "") m = m := by
  induction cats generalizing m with
  | nil => rfl
  | cons c cats ih =>
    rw [List.foldl_cons, GoMap.set_eq_self _ _ _ (h c (List.mem_cons_self _ _))]
    exact ih m fun c' hc' => h c' (List.mem_cons_of_mem _ hc')

theorem applyCategories_appName (cats : GoMap (List String)) (app : Application) :
    (applyCategories cats app).AppName = app.AppName := by
  simp only [applyCategories]
  split <;> rfl

/-- C9: after the overlay step the labels hold the category key of every
category the overlay mapping lists under the record's `AppName`, which is
the package name for a record seen for the first time; a label key present
before is present after, with its value unless it is one of those category
keys; and applying the overlay to the result changes nothing. -/
theorem overlay_adds_category_labels (cats : GoMap (List String))
    (srcName chartName : String) (existing : Option Application) :
    (∀ c ∈ (cats.get (locateApp srcName chartName existing).AppName).getD [],
      (applyCategories cats (locateApp srcName chartName existing)).label
        (categoryLabelPrefix ++ c) = some "") ∧
    (locateApp srcName chartName none).AppName = chartName ∧
    (∀ k v, (locateApp srcName chartName existing).label k = some v →
      ((applyCategories cats (locateApp srcName chartName existing)).label k).isSome = true) ∧
    (∀ k, k ∉ ((cats.get (locateApp srcName chartName existing).AppName).getD []).map
        (fun c => categoryLabelPrefix ++ c) →
      (applyCategories cats (locateApp srcName chartName existing)).label k =
        (locateApp srcName chartName existing).label k) ∧
    applyCategories cats (applyCategories cats (locateApp srcName chartName existing)) =
      applyCategories cats (locateApp srcName chartName existing) := by
  generalize locateApp srcName chartName existing = app
  have hother : ∀ k, k ∉ ((cats.get app.AppName).getD []).map
      (fun c => categoryLabelPrefix ++ c) →
      (applyCategories cats app).label k = app.label k := by
    intro k hk
    simp only [applyCategories]
    split
    · cases hl : app.Labels with
      | none =>
        simp only [Application.label, hl]
        show GoMap.get _ k = none
        rw [overlay_get_other _ _ _ hk]
        rfl
      | some m =>
        simp only [Application.label, hl]
        show GoMap.get _ k = GoMap.get m k
        exact overlay_get_other _ _ _ hk
    · rfl
  have hcat : ∀ c ∈ (cats.get app.AppName).getD [],
      (applyCategories cats app).label (categoryLabelPrefix ++ c) = some "" := by
    intro c hc
    have hpos : ((cats.get app.AppName).getD []).length > 0 := List.length_pos_of_mem hc
    simp only [applyCategories, if_pos hpos, Application.label]
    show GoMap.get _ (categoryLabelPrefix ++ c) = some ""
    exact overlay_get_category _ _ c hc
  refine ⟨hcat, rfl, ?_, hother, ?_⟩
  · intro k v hv
    by_cases hk : k ∈ ((cats.get app.AppName).getD []).map fun c => categoryLabelPrefix ++ c
    · obtain ⟨c, hc, rfl⟩ := List.mem_map.1 hk
      rw [hcat c hc]
      rfl
    · rw [hother k hk, hv]
      rfl
  · by_cases hpos : ((cats.get app.AppName).getD []).length > 0
    · have e1 : applyCategories cats app =
          { app with
            Labels := some (((cats.get app.AppName).getD []).foldl
              (fun labels c => labels.set (categoryLabelPrefix ++ c) "")
              (app.Labels.getD [])) } := by
        simp only [applyCategories, if_pos hpos]
      rw [e1]
      simp only [applyCategories, if_pos hpos, Option.getD_some]
      rw [overlay_fixed]
      intro c hc
      exact overlay_get_category _ _ c hc
    · have e1 : applyCategories cats app = app := by
        simp only [applyCategories, if_neg hpos]
      rw [e1, e1]

theorem overlay_adds_category_labels_witness :
    "db" ∈ (GoMap.get [("mysql", ["db", "cache"])]
      (locateApp "stable" "mysql" none).AppName).getD [] ∧
    (applyCategories [("mysql", ["db", "cache"])] (locateApp "stable" "mysql" none)).label
      (categoryLabelPrefix ++ "db") = some "" :=
  ⟨by decide, (overlay_adds_category_labels [("mysql", ["db", "cache"])] "stable" "mysql"
    none).1 "db" (by decide)⟩

/-- C9, counterexample: the stored record of package `mysql` carries the
`AppName` `MySQL`; the overlay mapping lists category `db` under `mysql`, and
the overlay step adds no category label. -/
theorem overlay_reads_record_appName :
    GoMap.get [("mysql", ["db"])] "mysql" = some ["db"] ∧
    (applyCategories [("mysql", ["db"])]
      (locateApp "stable" "mysql"
        (some (exampleRecord "MySQL" [(sourceNameLabel, "stable")] [])))).label
      (categoryLabelPrefix ++ "db") = none := by
  refine ⟨by decide, by decide⟩

theorem applyCategories_deprecated_label (cats : GoMap (List String)) (app : Application) :
    (applyCategories cats app).label deprecatedLabel = app.label deprecatedLabel := by
  have hk : deprecatedLabel ∉ ((cats.get app.AppName).getD []).map
      fun c => categoryLabelPrefix ++ c := by
    intro h
    obtain ⟨c, _, hc⟩ := List.mem_map.1 h
    exact category_key_ne_deprecated c hc
  simp only [applyCategories]
  split
  · cases hl : app.Labels with
    | none =>
      simp only [Application.label, hl]
      show GoMap.get _ deprecatedLabel = none
      rw [overlay_get_other _ _ _ hk]
      rfl
    | some m =>
      simp only [Application.label, hl]
      show GoMap.get _ deprecatedLabel = GoMap.get m deprecatedLabel
      exact overlay_get_other _ _ _ hk
  · rfl

theorem mergeEntry_deprecated_label (lib : NetURL) (srcName srcURL : String)
    (cats : GoMap (List String)) (existing : Option Application) (chartName : String)
    (items : List repo.ChartVersion) :
    (mergeEntry lib srcName srcURL cats existing chartName items).1.label deprecatedLabel =
      (locateApp srcName chartName existing).label deprecatedLabel := by
  have e : (mergeEntry lib srcName srcURL cats existing chartName items).1.Labels =
      (applyCategories cats (locateApp srcName chartName existing)).Labels :=
    (appendVersions_labels _ _ _ _ _ _).1
  have e' := applyCategories_deprecated_label cats (locateApp srcName chartName existing)
  simp only [Application.label] at e' ⊢
  rw [e, e']

theorem merge_ok_true (lib : NetURL) (srcName srcURL : String)
    (cats : GoMap (List String)) (existing : Option Application) (chartName : String)
    (items : List repo.ChartVersion) (app : Application)
    (h : merge lib srcName srcURL cats existing chartName items = .ok (app, true)) :
    labelDeprecated (mergeEntry lib srcName srcURL cats existing chartName items).1 =
      .ok app := by
  simp only [merge] at h
  split at h
  · split at h
    · cases h
    · next app' heq =>
      cases h
      exact heq
  · cases h

/-- C8: after a merge with `needsUpdate = true`, the deprecation label is
present with value `true` when some descriptor of the full version list is
flagged deprecated; when none is, the label is as it was on the record
before the merge, so a record seen for the first time then has none: the
label is set from the list and never removed. -/
theorem merge_deprecated_label (lib : NetURL) (srcName srcURL : String)
    (cats : GoMap (List String)) (existing : Option Application) (chartName : String)
    (items : List repo.ChartVersion) (app : Application)
    (h : merge lib srcName srcURL cats existing chartName items = .ok (app, true)) :
    (app.Versions.any (fun v => v.Deprecated) = true →
      app.label deprecatedLabel = some "true") ∧
    (app.Versions.any (fun v => v.Deprecated) = false →
      app.label deprecatedLabel = (locateApp srcName chartName existing).label deprecatedLabel) ∧
    (existing = none →
      (app.label deprecatedLabel = some "true" ↔
        app.Versions.any (fun v => v.Deprecated) = true)) := by
  have hl := merge_ok_true lib srcName srcURL cats existing chartName items app h
  have hv := labelDeprecated_versions _ _ hl
  have hlab := mergeEntry_deprecated_label lib srcName srcURL cats existing chartName items
  have h1 : app.Versions.any (fun v => v.Deprecated) = true →
      app.label deprecatedLabel = some "true" := by
    intro hd
    rw [hv] at hd
    simp only [labelDeprecated, if_pos hd] at hl
    split at hl
    · cases hl
    · cases hl
      simp only [Application.label]
      show GoMap.get _ deprecatedLabel = some "true"
      rw [GoMap.get_set, if_pos rfl]
  have h2 : app.Versions.any (fun v => v.Deprecated) = false →
      app.label deprecatedLabel =
        (locateApp srcName chartName existing).label deprecatedLabel := by
    intro hd
    rw [hv] at hd
    have hn : ¬ ((mergeEntry lib srcName srcURL cats existing chartName items).1.Versions.any
        (fun v => v.Deprecated) = true) := by simp [hd]
    simp only [labelDeprecated, if_neg hn] at hl
    cases hl
    exact hlab
  refine ⟨h1, h2, ?_⟩
  intro hex
  subst hex
  constructor
  · intro hs
    by_contra hd
    have hd' : app.Versions.any (fun v => v.Deprecated) = false := by
      cases hb : app.Versions.any (fun v => v.Deprecated)
      · rfl
      · exact absurd hb hd
    rw [h2 hd'] at hs
    have k1 : ¬ sourceNameLabel = deprecatedLabel := by decide
    have k2 : ¬ applicationNameLabel = deprecatedLabel := by decide
    simp [locateApp, Application.label, GoMap.get, k1, k2] at hs
  · exact h1

theorem merge_deprecated_label_witness :
    merge plainURL "stable" "http://host/repo" [] none "mysql"
      [exampleEntry "1.0.0" true] =
      .ok ({ Name := "stable.mysql", AppName := "mysql",
             Labels := some [(sourceNameLabel, "stable"), (applicationNameLabel, "mysql"),
               (deprecatedLabel, "true")],
             Versions := [newChartVersion plainURL "http://host/repo"
               (exampleEntry "1.0.0" true)],
             Controller := none }, true) ∧
    (({ Name := "stable.mysql", AppName := "mysql",
        Labels := some [(sourceNameLabel, "stable"), (applicationNameLabel, "mysql"),
          (deprecatedLabel, "true")],
        Versions := [newChartVersion plainURL "http://host/repo"
          (exampleEntry "1.0.0" true)],
        Controller := none } : Application).label deprecatedLabel = some "true" ↔
      ([newChartVersion plainURL "http://host/repo" (exampleEntry "1.0.0" true)].any
        (fun v => v.Deprecated) = true)) :=
  ⟨rfl, (merge_deprecated_label plainURL "stable" "http://host/repo" [] none "mysql"
    [exampleEntry "1.0.0" true] _ rfl).2.2 rfl⟩

/-- C8, counterexample: a record that carries the deprecation label and has
no version receives one new version that is not deprecated; the merge reports
`needsUpdate = true` and the label stays, with no deprecated descriptor in
the version list. -/
theorem deprecated_label_is_not_removed :
    ∃ app : Application,
      merge plainURL "stable" "http://host/repo" []
        (some (exampleRecord "mysql"
          [(sourceNameLabel, "stable"), (deprecatedLabel, "true")] []))
        "mysql" [exampleEntry "1.0.0" false] = .ok (app, true) ∧
      app.label deprecatedLabel = some "true" ∧
      app.Versions.any (fun v => v.Deprecated) = false :=
  ⟨_, rfl, by decide, by decide⟩

/-! ## The loop over the index -/

theorem mutate_name (w : AppWrite) (obj obj' : Application)
    (h : w.mutate obj = .ok obj') : obj'.Name = obj.Name := by
  simp only [AppWrite.mutate] at h
  split at h
  · cases h
    rfl
  · cases hl : obj.Labels with
    | none => simp [hl] at h
    | some m =>
      simp only [hl] at h
      cases h
      rfl

theorem mutate_labels_ne_none (w : AppWrite) (obj obj' : Application)
    (h : w.mutate obj = .ok obj') (hl : obj.Labels ≠ none) : obj'.Labels ≠ none := by
  simp only [AppWrite.mutate] at h
  split at h
  · cases h
    exact hl
  · cases hl' : obj.Labels with
    | none => exact absurd hl' hl
    | some m =>
      simp only [hl'] at h
      cases h
      simp

theorem mutate_ok (w : AppWrite) (obj : Application) (hl : obj.Labels ≠ none) :
    ∃ obj', w.mutate obj = .ok obj' := by
  simp only [AppWrite.mutate]
  split
  · exact ⟨_, rfl⟩
  · cases hl' : obj.Labels with
    | none => exact absurd hl' hl
    | some m => exact ⟨_, rfl⟩

theorem mutate_self_ok (srcName : String) (app : Application) :
    ∃ obj', (appWriteOf srcName app).mutate app = .ok obj' := by
  cases hl : app.Labels with
  | none =>
    refine ⟨{ app with Controller := some srcName, Versions := app.Versions }, ?_⟩
    simp [AppWrite.mutate, appWriteOf, hl]
  | some m => exact mutate_ok _ _ (by simp [hl])

theorem mutate_error (w : AppWrite) (obj : Application) (f : Fault)
    (h : w.mutate obj = .error f) : obj.Labels = none := by
  cases hl : obj.Labels with
  | none => rfl
  | some m =>
    obtain ⟨obj', ho⟩ := mutate_ok w obj (by simp [hl])
    rw [ho] at h
    cases h

theorem find_name_some (stored : List Application) (name : String) (x : Application)
    (h : stored.find? (fun a => decide (a.Name = name)) = some x) :
    x ∈ stored ∧ x.Name = name := by
  refine ⟨List.mem_of_find?_eq_some h, ?_⟩
  have := List.find?_some h
  simpa using this

theorem find_name_none (stored : List Application) (name : String)
    (h : stored.find? (fun a => decide (a.Name = name)) = none) :
    ∀ a ∈ stored, a.Name ≠ name := by
  intro a ha hn
  have := List.find?_eq_none.1 h a ha
  simp [hn] at this

/-- The three ways `ctrl.CreateOrUpdate` returns nil: the record did not
exist and the mutated object was created, the mutate function left the
stored record as it was, or the mutated record replaced the stored one. -/
theorem createOrUpdate_written (store : ResourceStore) (stored stored' : List Application)
    (w : AppWrite) (h : createOrUpdate store stored w = .written stored') :
    (∃ obj, (∀ a ∈ stored, a.Name ≠ w.obj.Name) ∧ w.mutate w.obj = .ok obj ∧
      stored' = stored ++ [obj]) ∨
    stored' = stored ∨
    (∃ existing obj, existing ∈ stored ∧ existing.Name = w.obj.Name ∧
      w.mutate existing = .ok obj ∧ stored' = replaceApp stored obj) := by
  simp only [createOrUpdate] at h
  split at h
  · cases h
  · split at h
    · next hfind =>
      split at h
      · cases h
      · split at h
        · cases h
        · next obj hm =>
          split at h
          · cases h
          · simp only [WriteOutcome.written.injEq] at h
            exact Or.inl ⟨obj, find_name_none _ _ hfind, hm, h.symm⟩
    · next existing hfind =>
      split at h
      · cases h
      · split at h
        · cases h
        · next obj hm =>
          split at h
          · simp only [WriteOutcome.written.injEq] at h
            exact Or.inr (Or.inl h.symm)
          · split at h
            · cases h
            · simp only [WriteOutcome.written.injEq] at h
              exact Or.inr (Or.inr ⟨existing, obj, (find_name_some _ _ _ hfind).1,
                (find_name_some _ _ _ hfind).2, hm, h.symm⟩)

theorem createOrUpdate_failed (store : ResourceStore) (stored : List Application)
    (w : AppWrite) (err : String) (h : createOrUpdate store stored w = .failed err) :
    store.reports err := by
  simp only [createOrUpdate] at h
  split at h
  · next e he =>
    simp only [WriteOutcome.failed.injEq] at h
    exact Or.inl ⟨_, h ▸ he⟩
  · split at h
    · split at h
      · next e he =>
        simp only [WriteOutcome.failed.injEq] at h
        exact Or.inr (Or.inl ⟨_, _, h ▸ he⟩)
      · split at h
        · cases h
        · split at h
          · next e he =>
            simp only [WriteOutcome.failed.injEq] at h
            exact Or.inr (Or.inr (Or.inl ⟨_, h ▸ he⟩))
          · cases h
    · split at h
      · next e he =>
        simp only [WriteOutcome.failed.injEq] at h
        exact Or.inr (Or.inl ⟨_, _, h ▸ he⟩)
      · split at h
        · cases h
        · split at h
          · cases h
          · split at h
            · next e he =>
              simp only [WriteOutcome.failed.injEq] at h
              exact Or.inr (Or.inr (Or.inr ⟨_, h ▸ he⟩))
            · cases h

theorem createOrUpdate_fault (store : ResourceStore) (stored : List Application)
    (srcName : String) (app : Application) (f : Fault)
    (h : createOrUpdate store stored (appWriteOf srcName app) = .fault f) :
    ∃ existing ∈ stored, existing.Name = app.Name ∧ existing.Labels = none := by
  simp only [createOrUpdate] at h
  split at h
  · cases h
  · split at h
    · split at h
      · cases h
      · split at h
        · next f' hm =>
          obtain ⟨obj', ho⟩ := mutate_self_ok srcName app
          have : (appWriteOf srcName app).obj = app := rfl
          rw [this, ho] at hm
          cases hm
        · split at h <;> cases h
    · next existing hfind =>
      split at h
      · cases h
      · split at h
        · next f' hm =>
          exact ⟨existing, (find_name_some _ _ _ hfind).1, (find_name_some _ _ _ hfind).2,
            mutate_error _ _ _ hm⟩
        · split at h
          · cases h
          · split at h <;> cases h

theorem createOrUpdate_accepting (store : ResourceStore) (stored : List Application)
    (srcName : String) (app : Application) (hstore : ∀ m, ¬ store.reports m)
    (hl : ∀ a ∈ stored, a.Labels ≠ none) :
    ∃ stored', createOrUpdate store stored (appWriteOf srcName app) = .written stored' := by
  cases hc : createOrUpdate store stored (appWriteOf srcName app) with
  | written stored' => exact ⟨stored', rfl⟩
  | failed err => exact absurd (createOrUpdate_failed _ _ _ _ hc) (hstore err)
  | fault f =>
    obtain ⟨x, hx, _, hnil⟩ := createOrUpdate_fault _ _ _ _ _ hc
    exact absurd hnil (hl x hx)

theorem replaceApp_mem (stored : List Application) (obj x : Application)
    (hx : x ∈ stored) (hn : x.Name ≠ obj.Name) : x ∈ replaceApp stored obj := by
  simp only [replaceApp, List.mem_map]
  exact ⟨x, hx, by simp [hn]⟩

theorem replaceApp_mem_obj (stored : List Application) (obj x : Application)
    (hx : x ∈ stored) (hn : x.Name = obj.Name) : obj ∈ replaceApp stored obj := by
  simp only [replaceApp, List.mem_map]
  exact ⟨x, hx, by simp [hn]⟩

theorem replaceApp_cases (stored : List Application) (obj y : Application)
    (hy : y ∈ replaceApp stored obj) : y = obj ∨ y ∈ stored := by
  simp only [replaceApp, List.mem_map] at hy
  obtain ⟨a, ha, rfl⟩ := hy
  split
  · exact Or.inl rfl
  · exact Or.inr ha

theorem labelDeprecated_ok (app : Application) (h : app.Labels ≠ none) :
    ∃ app', labelDeprecated app = .ok app' := by
  simp only [labelDeprecated]
  split
  · cases hl : app.Labels with
    | none => exact absurd hl h
    | some m => exact ⟨_, rfl⟩
  · exact ⟨_, rfl⟩

theorem labelDeprecated_name (app app' : Application)
    (h : labelDeprecated app = .ok app') : app'.Name = app.Name := by
  simp only [labelDeprecated] at h
  split at h
  · cases hl : app.Labels with
    | none => simp [hl] at h
    | some m =>
      simp only [hl] at h
      cases h
      rfl
  · cases h
    rfl

theorem applyCategories_name (cats : GoMap (List String)) (app : Application) :
    (applyCategories cats app).Name = app.Name := by
  simp only [applyCategories]
  split <;> rfl

theorem applyCategories_labels_ne_none (cats : GoMap (List String)) (app : Application)
    (h : app.Labels ≠ none) : (applyCategories cats app).Labels ≠ none := by
  simp only [applyCategories]
  split
  · simp
  · exact h

theorem buildHave_get (srcName : String) (stored : List Application) (k : String)
    (a : Application) (h : (buildHave srcName stored).get k = some a) :
    a.Name = k ∧ matchesSource srcName a = true := by
  have key : ∀ (l : List Application) (m : GoMap Application),
      (∀ x ∈ l, matchesSource srcName x = true) →
      (∀ k a, m.get k = some a → a.Name = k ∧ matchesSource srcName a = true) →
      ∀ k a, (l.foldl (fun m app => m.set app.Name app) m).get k = some a →
        a.Name = k ∧ matchesSource srcName a = true := by
    intro l
    induction l with
    | nil => intro m _ hm k a hk; exact hm k a hk
    | cons x l ih =>
      intro m hl hm k a hk
      rw [List.foldl_cons] at hk
      refine ih (m.set x.Name x) (fun y hy => hl y (List.mem_cons_of_mem _ hy)) ?_ k a hk
      intro k' a' hk'
      rw [GoMap.get_set] at hk'
      split at hk'
      · next heq =>
        cases hk'
        exact ⟨heq, hl _ (List.mem_cons_self _ _)⟩
      · exact hm k' a' hk'
  refine key _ [] ?_ ?_ k a h
  · intro x hx
    exact (List.mem_filter.1 hx).2
  · intro k a hk
    simp [GoMap.get] at hk

theorem matchesSource_labels (srcName : String) (a : Application)
    (h : matchesSource srcName a = true) : a.Labels ≠ none := by
  intro hl
  simp [matchesSource, hl] at h

theorem applicationName_injective (srcName c₁ c₂ : String)
    (h : applicationName srcName c₁ = applicationName srcName c₂) : c₁ = c₂ := by
  have hd := congrArg String.data h
  simp only [applicationName, String.data_append] at hd
  exact String.ext (List.append_cancel_left hd)

theorem mergeEntry_name (lib : NetURL) (srcName srcURL : String)
    (cats : GoMap (List String)) (existing : Option Application) (chartName : String)
    (items : List repo.ChartVersion) :
    (mergeEntry lib srcName srcURL cats existing chartName items).1.Name =
      (locateApp srcName chartName existing).Name := by
  rw [mergeEntry, (appendVersions_labels _ _ _ _ _ _).2.1, applyCategories_name]

theorem mergeEntry_flag_iff (lib : NetURL) (srcName srcURL : String)
    (cats : GoMap (List String)) (existing : Option Application) (chartName : String)
    (items : List repo.ChartVersion) :
    (mergeEntry lib srcName srcURL cats existing chartName items).2 = true ↔
      (recordedVersions existing).length <
        (mergeEntry lib srcName srcURL cats existing chartName items).1.Versions.length := by
  rw [mergeEntry_flag, mergeEntry_versions]
  cases freshEntries (List.map (fun v => v.Version) (recordedVersions existing)) items <;> simp

theorem built_entry_facts (lib : NetURL) (srcName srcURL : String)
    (cats : GoMap (List String)) (stored : List Application) (chartName : String)
    (items : List repo.ChartVersion) :
    (mergeEntry lib srcName srcURL cats
      ((buildHave srcName stored).get (applicationName srcName chartName))
      chartName items).1.Name = applicationName srcName chartName ∧
    (mergeEntry lib srcName srcURL cats
      ((buildHave srcName stored).get (applicationName srcName chartName))
      chartName items).1.Labels ≠ none := by
  have hl : (mergeEntry lib srcName srcURL cats
      ((buildHave srcName stored).get (applicationName srcName chartName))
      chartName items).1.Labels =
      (applyCategories cats (locateApp srcName chartName
        ((buildHave srcName stored).get (applicationName srcName chartName)))).Labels :=
    (appendVersions_labels _ _ _ _ _ _).1
  rw [mergeEntry_name, hl]
  cases hg : (buildHave srcName stored).get (applicationName srcName chartName) with
  | none =>
    refine ⟨rfl, applyCategories_labels_ne_none _ _ ?_⟩
    simp [locateApp]
  | some a =>
    have := buildHave_get srcName stored _ a hg
    exact ⟨this.1, applyCategories_labels_ne_none _ _ (matchesSource_labels _ _ this.2)⟩

/-- C10: in the loop over the index, with `have` built from the Applications
listed for the Source and distinct package names, `ctrl.CreateOrUpdate` is
called for a record exactly when the merge appended a descriptor to it: every
call is for a package whose version list grew; every package whose list grew
gets a call with the merged list, unless the loop has returned on a store
error; the loop runs to its end when the store accepts every write; a
package without a record and with at least one version has its list grow; and
a package whose index versions are all on its record gets no call. -/

theorem labelDeprecated_labels_ne_none (app app' : Application)
    (h : labelDeprecated app = .ok app') (hl : app.Labels ≠ none) : app'.Labels ≠ none := by
  simp only [labelDeprecated] at h
  split at h
  · cases hl' : app.Labels with
    | none => exact absurd hl' hl
    | some m =>
      simp only [hl'] at h
      cases h
      simp
  · cases h
    exact hl

theorem sync_writes_sound (lib : NetURL) (store : ResourceStore) (srcName srcURL : String)
    (cats : GoMap (List String)) (haveApps : GoMap Application)
    (entries : List (String × List repo.ChartVersion)) (stored : List Application)
    (w : AppWrite)
    (hw : w ∈ (syncEntries lib store srcName srcURL cats haveApps stored entries).writes) :
    ∃ e ∈ entries,
      (mergeEntry lib srcName srcURL cats (haveApps.get (applicationName srcName e.1))
        e.1 e.2).2 = true ∧
      ∃ app, labelDeprecated (mergeEntry lib srcName srcURL cats
          (haveApps.get (applicationName srcName e.1)) e.1 e.2).1 = .ok app ∧
        w = appWriteOf srcName app := by
  induction entries generalizing stored with
  | nil => simp [syncEntries] at hw
  | cons e entries ih =>
    obtain ⟨chartName, items⟩ := e
    simp only [syncEntries] at hw
    split at hw
    · next hflag =>
      split at hw
      · simp at hw
      · next app happ =>
        split at hw
        · simp only [List.mem_singleton] at hw
          exact ⟨(chartName, items), List.mem_cons_self _ _, hflag, app, happ, hw⟩
        · simp only [List.mem_singleton] at hw
          exact ⟨(chartName, items), List.mem_cons_self _ _, hflag, app, happ, hw⟩
        · simp only [List.mem_cons] at hw
          rcases hw with hw | hw
          · exact ⟨(chartName, items), List.mem_cons_self _ _, hflag, app, happ, hw⟩
          · obtain ⟨e, he, h⟩ := ih _ hw
            exact ⟨e, List.mem_cons_of_mem _ he, h⟩
    · obtain ⟨e, he, h⟩ := ih _ hw
      exact ⟨e, List.mem_cons_of_mem _ he, h⟩

theorem sync_writes_complete (lib : NetURL) (store : ResourceStore) (srcName srcURL : String)
    (cats : GoMap (List String)) (haveApps : GoMap Application)
    (entries : List (String × List repo.ChartVersion)) (stored : List Application)
    (e : String × List repo.ChartVersion) (he : e ∈ entries)
    (hflag : (mergeEntry lib srcName srcURL cats (haveApps.get (applicationName srcName e.1))
        e.1 e.2).2 = true) :
    (∃ w ∈ (syncEntries lib store srcName srcURL cats haveApps stored entries).writes,
      ∃ app, labelDeprecated (mergeEntry lib srcName srcURL cats
          (haveApps.get (applicationName srcName e.1)) e.1 e.2).1 = .ok app ∧
        w = appWriteOf srcName app) ∨
    (syncEntries lib store srcName srcURL cats haveApps stored entries).outcome ≠ .done := by
  induction entries generalizing stored with
  | nil => simp at he
  | cons e₀ entries ih =>
    obtain ⟨chartName, items⟩ := e₀
    simp only [syncEntries]
    split
    · next hflag₀ =>
      split
      · right
        simp
      · next app happ =>
        split
        · right
          simp
        · right
          simp
        · rcases List.mem_cons.1 he with rfl | he
          · left
            exact ⟨_, List.mem_cons_self _ _, app, happ, rfl⟩
          · rcases ih _ he with ⟨w, hw, h⟩ | h
            · left
              exact ⟨w, List.mem_cons_of_mem _ hw, h⟩
            · right
              exact h
    · next hflag₀ =>
      rcases List.mem_cons.1 he with rfl | he
      · exact absurd hflag hflag₀
      · exact ih _ he

theorem syncEntries_writeFailed (lib : NetURL) (store : ResourceStore) (srcName srcURL : String)
    (cats : GoMap (List String)) (haveApps : GoMap Application)
    (entries : List (String × List repo.ChartVersion)) (stored : List Application)
    (m : String)
    (h : (syncEntries lib store srcName srcURL cats haveApps stored entries).outcome =
      .writeFailed m) :
    store.reports m := by
  induction entries generalizing stored with
  | nil => simp [syncEntries] at h
  | cons e entries ih =>
    obtain ⟨chartName, items⟩ := e
    simp only [syncEntries] at h
    split at h
    · split at h
      · simp at h
      · split at h
        · simp at h
        · next err herr =>
          simp only [SyncOutcome.writeFailed.injEq] at h
          exact h ▸ createOrUpdate_failed _ _ _ _ herr
        · exact ih _ h
    · exact ih _ h

/-- The loop does not fault when no stored Application has a nil label map
(the merged records have none either, being listed under a label or seeded
with one), and it runs to its end when in addition the store reports no
error. -/
theorem sync_outcome (lib : NetURL) (store : ResourceStore) (srcName srcURL : String)
    (cats : GoMap (List String)) (haveApps : GoMap Application)
    (entries : List (String × List repo.ChartVersion)) (stored : List Application)
    (hm : ∀ e ∈ entries, (mergeEntry lib srcName srcURL cats
        (haveApps.get (applicationName srcName e.1)) e.1 e.2).1.Labels ≠ none)
    (hl : ∀ a ∈ stored, a.Labels ≠ none) :
    (∀ f, (syncEntries lib store srcName srcURL cats haveApps stored entries).outcome ≠
      .fault f) ∧
    ((∀ m, ¬ store.reports m) →
      (syncEntries lib store srcName srcURL cats haveApps stored entries).outcome = .done) := by
  induction entries generalizing stored with
  | nil => simp [syncEntries]
  | cons e₀ entries ih =>
    obtain ⟨chartName, items⟩ := e₀
    have hm' := fun e he => hm e (List.mem_cons_of_mem _ he)
    have hm₀ := hm (chartName, items) (List.mem_cons_self _ _)
    obtain ⟨app₀, happ₀⟩ := labelDeprecated_ok _ hm₀
    simp only [syncEntries]
    split
    · split
      · next f hf =>
        rw [happ₀] at hf
        cases hf
      · next app happ =>
        have happl : app.Labels ≠ none := labelDeprecated_labels_ne_none _ _ happ hm₀
        split
        · next f hf =>
          obtain ⟨x, hx, _, hnil⟩ := createOrUpdate_fault _ _ _ _ _ hf
          exact absurd hnil (hl x hx)
        · next err herr =>
          refine ⟨by simp, fun hs => ?_⟩
          exact absurd (createOrUpdate_failed _ _ _ _ herr) (hs err)
        · next stored' hw =>
          apply ih stored' hm'
          rcases createOrUpdate_written _ _ _ _ hw with ⟨obj, _, hmu, rfl⟩ | rfl |
            ⟨existing, obj, hex, _, hmu, rfl⟩
          · intro a ha
            rcases List.mem_append.1 ha with ha | ha
            · exact hl a ha
            · simp only [List.mem_singleton] at ha
              subst ha
              exact mutate_labels_ne_none _ _ _ hmu happl
          · exact hl
          · intro a ha
            rcases replaceApp_cases _ _ _ ha with rfl | ha
            · exact mutate_labels_ne_none _ _ _ hmu (hl existing hex)
            · exact hl a ha
    · exact ih stored hm' hl

theorem sync_persist (lib : NetURL) (store : ResourceStore) (srcName srcURL : String)
    (cats : GoMap (List String)) (haveApps : GoMap Application)
    (entries : List (String × List repo.ChartVersion)) (stored : List Application)
    (x : Application) (hx : x ∈ stored)
    (hw : ∀ w ∈ (syncEntries lib store srcName srcURL cats haveApps stored entries).writes,
      w.obj.Name ≠ x.Name) :
    x ∈ (syncEntries lib store srcName srcURL cats haveApps stored entries).stored := by
  induction entries generalizing stored with
  | nil => simpa [syncEntries] using hx
  | cons e₀ entries ih =>
    obtain ⟨chartName, items⟩ := e₀
    simp only [syncEntries] at hw ⊢
    by_cases hflag : (mergeEntry lib srcName srcURL cats
        (haveApps.get (applicationName srcName chartName)) chartName items).2 = true
    · simp only [hflag, if_true] at hw ⊢
      cases happ : labelDeprecated (mergeEntry lib srcName srcURL cats
          (haveApps.get (applicationName srcName chartName)) chartName items).1 with
      | error f => exact hx
      | ok app =>
        simp only [happ] at hw ⊢
        cases hwr : createOrUpdate store stored (appWriteOf srcName app) with
        | fault f => exact hx
        | failed err => exact hx
        | written stored' =>
          simp only [hwr] at hw ⊢
          have hne : (appWriteOf srcName app).obj.Name ≠ x.Name :=
            hw _ (List.mem_cons_self _ _)
          apply ih stored'
          · rcases createOrUpdate_written _ _ _ _ hwr with ⟨obj, _, _, rfl⟩ | rfl |
              ⟨existing, obj, _, hen, hmu, rfl⟩
            · exact List.mem_append_left _ hx
            · exact hx
            · apply replaceApp_mem _ _ _ hx
              rw [mutate_name _ _ _ hmu, hen]
              exact fun h => hne h.symm
          · intro w hwm
            exact hw w (List.mem_cons_of_mem _ hwm)
    · simp only [hflag] at hw ⊢
      exact ih stored hx hw

/-! ## The store after the loop -/

theorem foldl_set_get_other (l : List Application) (m : GoMap Application) (k : String)
    (hk : ∀ x ∈ l, x.Name ≠ k) :
    (l.foldl (fun m app => m.set app.Name app) m).get k = m.get k := by
  induction l generalizing m with
  | nil => rfl
  | cons x l ih =>
    rw [List.foldl_cons, ih _ fun y hy => hk y (List.mem_cons_of_mem _ hy), GoMap.get_set,
      if_neg (hk x (List.mem_cons_self _ _))]

theorem foldl_set_get_mem (l : List Application) (m : GoMap Application) (a : Application)
    (ha : a ∈ l) (hn : (l.map fun x => x.Name).Nodup) :
    (l.foldl (fun m app => m.set app.Name app) m).get a.Name = some a := by
  induction l generalizing m with
  | nil => simp at ha
  | cons x l ih =>
    simp only [List.map_cons, List.nodup_cons, List.mem_map, not_exists, not_and] at hn
    rw [List.foldl_cons]
    rcases List.mem_cons.1 ha with rfl | ha
    · rw [foldl_set_get_other _ _ _ fun y hy h => hn.1 y hy h, GoMap.get_set, if_pos rfl]
    · exact ih _ ha hn.2

theorem filter_names_nodup (srcName : String) (stored : List Application)
    (hn : (stored.map fun x => x.Name).Nodup) :
    ((stored.filter (matchesSource srcName)).map fun x => x.Name).Nodup :=
  hn.sublist ((List.filter_sublist _).map _)

theorem buildHave_get_of_mem (srcName : String) (stored : List Application)
    (a : Application) (hn : (stored.map fun x => x.Name).Nodup) (ha : a ∈ stored)
    (hm : matchesSource srcName a = true) :
    (buildHave srcName stored).get a.Name = some a :=
  foldl_set_get_mem _ [] a (List.mem_filter.2 ⟨ha, hm⟩) (filter_names_nodup srcName stored hn)

theorem buildHave_get_mem (srcName : String) (stored : List Application) (k : String)
    (a : Application) (h : (buildHave srcName stored).get k = some a) : a ∈ stored := by
  have key : ∀ (l : List Application) (m : GoMap Application),
      (∀ k a, m.get k = some a → a ∈ stored) → (∀ x ∈ l, x ∈ stored) →
      ∀ k a, (l.foldl (fun m app => m.set app.Name app) m).get k = some a → a ∈ stored := by
    intro l
    induction l with
    | nil => intro m hm _ k a hk; exact hm k a hk
    | cons x l ih =>
      intro m hm hl k a hk
      rw [List.foldl_cons] at hk
      refine ih (m.set x.Name x) ?_ (fun y hy => hl y (List.mem_cons_of_mem _ hy)) k a hk
      intro k' a' hk'
      rw [GoMap.get_set] at hk'
      split at hk'
      · cases hk'
        exact hl _ (List.mem_cons_self _ _)
      · exact hm k' a' hk'
  refine key _ [] ?_ ?_ k a h
  · intro k a hk
    simp [GoMap.get] at hk
  · intro x hx
    exact (List.mem_filter.1 hx).1

/-- The lookup `have[name]` yields the stored Application of that name that
carries the source-name label, when names are unique in the store. -/
theorem buildHave_eq_listed (srcName : String) (stored : List Application) (name : String)
    (hn : (stored.map fun x => x.Name).Nodup) :
    (buildHave srcName stored).get name = listedRecord srcName stored name := by
  cases hl : listedRecord srcName stored name with
  | some a =>
    have hmem := List.mem_of_find?_eq_some hl
    have hp := List.find?_some hl
    simp only [Bool.and_eq_true, decide_eq_true_eq] at hp
    rw [← hp.1]
    exact buildHave_get_of_mem srcName stored a hn hmem hp.2
  | none =>
    cases hg : (buildHave srcName stored).get name with
    | none => rfl
    | some a =>
      have h1 := buildHave_get srcName stored name a hg
      have h2 := buildHave_get_mem srcName stored name a hg
      have := List.find?_eq_none.1 hl a h2
      simp [h1.1, h1.2] at this

theorem sync_write_name (lib : NetURL) (store : ResourceStore) (srcName srcURL : String)
    (cats : GoMap (List String)) (stored₀ stored : List Application)
    (entries : List (String × List repo.ChartVersion)) (w : AppWrite)
    (hw : w ∈ (syncEntries lib store srcName srcURL cats (buildHave srcName stored₀)
      stored entries).writes) :
    ∃ e ∈ entries, w.obj.Name = applicationName srcName e.1 ∧
      w.versions = (mergeEntry lib srcName srcURL cats
        ((buildHave srcName stored₀).get (applicationName srcName e.1)) e.1 e.2).1.Versions ∧
      (mergeEntry lib srcName srcURL cats
        ((buildHave srcName stored₀).get (applicationName srcName e.1)) e.1 e.2).2 = true := by
  obtain ⟨e, he, hflag, app, happ, rfl⟩ :=
    sync_writes_sound lib store srcName srcURL cats _ entries stored w hw
  refine ⟨e, he, ?_, labelDeprecated_versions _ _ happ, hflag⟩
  show app.Name = _
  rw [labelDeprecated_name _ _ happ]
  exact (built_entry_facts lib srcName srcURL cats stored₀ e.1 e.2).1

theorem sync_keeps_listed (lib : NetURL) (store : ResourceStore) (srcName srcURL : String)
    (cats : GoMap (List String)) (stored₀ : List Application)
    (hn : (stored₀.map fun x => x.Name).Nodup) (a : Application) (ha : a ∈ stored₀)
    (hm : matchesSource srcName a = true)
    (entries : List (String × List repo.ChartVersion)) (stored : List Application)
    (hinv : ∃ a' ∈ stored, a'.Name = a.Name ∧ a.Versions <+: a'.Versions) :
    ∃ a' ∈ (syncEntries lib store srcName srcURL cats (buildHave srcName stored₀)
        stored entries).stored,
      a'.Name = a.Name ∧ a.Versions <+: a'.Versions := by
  induction entries generalizing stored with
  | nil => simpa [syncEntries] using hinv
  | cons e₀ entries ih =>
    obtain ⟨chartName, items⟩ := e₀
    simp only [syncEntries]
    split
    · split
      · exact hinv
      · next app happ =>
        split
        · exact hinv
        · exact hinv
        · next stored' hwr =>
          apply ih stored'
          obtain ⟨a', ha', hname, hpre⟩ := hinv
          rcases createOrUpdate_written _ _ _ _ hwr with ⟨obj, _, _, rfl⟩ | rfl |
            ⟨existing, obj, _, hen, hmu, rfl⟩
          · exact ⟨a', List.mem_append_left _ ha', hname, hpre⟩
          · exact ⟨a', ha', hname, hpre⟩
          · have hobj : obj.Name = applicationName srcName chartName := by
              rw [mutate_name _ _ _ hmu, hen]
              show app.Name = _
              rw [labelDeprecated_name _ _ happ]
              exact (built_entry_facts lib srcName srcURL cats stored₀ chartName items).1
            by_cases hsame : a'.Name = obj.Name
            · refine ⟨obj, replaceApp_mem_obj _ _ _ ha' hsame, hsame.symm.trans hname, ?_⟩
              have hkey : (buildHave srcName stored₀).get (applicationName srcName chartName) =
                  some a := by
                rw [← hobj, ← hsame, hname]
                exact buildHave_get_of_mem srcName stored₀ a hn ha hm
              rw [mutate_versions _ _ _ hmu]
              show a.Versions <+: app.Versions
              rw [labelDeprecated_versions _ _ happ, mergeEntry_versions, hkey]
              exact List.prefix_append _ _
            · exact ⟨a', replaceApp_mem _ _ _ ha' hsame, hname, hpre⟩
    · exact ih stored hinv

/-- C2: the merge only appends to the version list of the record it works
on, and in the store a cycle leaves every Application that carries the
source-name label of the Source with a version list that starts with the
list it had, descriptor for descriptor, so of at least the same length; an
Application whose name is not the identity of a package of the index is left
as it is. -/
theorem merge_keeps_listed_versions (lib : NetURL) (store : ResourceStore)
    (srcName srcURL : String) (cats : GoMap (List String)) (stored : List Application)
    (entries : List (String × List repo.ChartVersion)) :
    (∀ (existing : Option Application) (chartName : String) (items : List repo.ChartVersion),
      recordedVersions existing <+:
        (mergeEntry lib srcName srcURL cats existing chartName items).1.Versions ∧
      (recordedVersions existing).length ≤
        (mergeEntry lib srcName srcURL cats existing chartName items).1.Versions.length) ∧
    ((stored.map fun x => x.Name).Nodup →
      ∀ a ∈ stored, matchesSource srcName a = true →
        ∃ a' ∈ (syncEntries lib store srcName srcURL cats (buildHave srcName stored)
            stored entries).stored,
          a'.Name = a.Name ∧ a.Versions <+: a'.Versions ∧
          a.Versions.length ≤ a'.Versions.length) ∧
    (∀ a ∈ stored, (∀ e ∈ entries, a.Name ≠ applicationName srcName e.1) →
      a ∈ (syncEntries lib store srcName srcURL cats (buildHave srcName stored)
        stored entries).stored) := by
  refine ⟨?_, ?_, ?_⟩
  · intro existing chartName items
    have hp : recordedVersions existing <+:
        (mergeEntry lib srcName srcURL cats existing chartName items).1.Versions := by
      rw [mergeEntry_versions]
      exact List.prefix_append _ _
    exact ⟨hp, hp.length_le⟩
  · intro hn a ha hm
    obtain ⟨a', ha', hname, hpre⟩ := sync_keeps_listed lib store srcName srcURL cats stored hn
      a ha hm entries stored ⟨a, ha, rfl, List.prefix_refl _⟩
    exact ⟨a', ha', hname, hpre, hpre.length_le⟩
  · intro a ha hne
    apply sync_persist _ _ _ _ _ _ _ _ _ ha
    intro w hw
    obtain ⟨e, he, hname, _⟩ := sync_write_name lib store srcName srcURL cats stored stored
      entries w hw
    rw [hname]
    exact fun h => hne e he h.symm

theorem merge_keeps_listed_versions_witness :
    ([exampleRecord "mysql" [(sourceNameLabel, "stable")]
      [newChartVersion plainURL "http://host/repo" (exampleEntry "0.9.0" false)]].map
      fun x => x.Name).Nodup ∧
    ∃ a' ∈ (syncEntries plainURL acceptingStore "stable" "http://host/repo" []
        (buildHave "stable"
          [exampleRecord "mysql" [(sourceNameLabel, "stable")]
            [newChartVersion plainURL "http://host/repo" (exampleEntry "0.9.0" false)]])
        [exampleRecord "mysql" [(sourceNameLabel, "stable")]
          [newChartVersion plainURL "http://host/repo" (exampleEntry "0.9.0" false)]]
        [("mysql", [exampleEntry "1.0.0" false])]).stored,
      a'.Name = "stable.mysql" ∧
      [newChartVersion plainURL "http://host/repo" (exampleEntry "0.9.0" false)] <+:
        a'.Versions ∧
      1 ≤ a'.Versions.length :=
  ⟨by decide, (merge_keeps_listed_versions plainURL acceptingStore "stable" "http://host/repo" []
    [exampleRecord "mysql" [(sourceNameLabel, "stable")]
      [newChartVersion plainURL "http://host/repo" (exampleEntry "0.9.0" false)]]
    [("mysql", [exampleEntry "1.0.0" false])]).2.1 (by decide) _
    (List.mem_singleton.2 rfl) rfl⟩

/-- C2, counterexample: the store holds the Application `stable.mysql` with
the descriptor of version `0.9.0` and without the source-name label, so the
listing of line 232 does not return it; the index lists `mysql` with version
`1.0.0`. The record is seeded anew, and the mutate function overwrites the
stored version list: after the cycle the record holds `1.0.0` alone. -/
theorem unlisted_record_is_overwritten :
    matchesSource "stable"
      { Name := "stable.mysql", AppName := "mysql", Labels := some [],
        Versions := [newChartVersion plainURL "http://host/repo" (exampleEntry "0.9.0" false)],
        Controller := none } = false ∧
    ((syncEntries plainURL acceptingStore "stable" "http://host/repo" []
      (buildHave "stable"
        [{ Name := "stable.mysql", AppName := "mysql", Labels := some [],
           Versions := [newChartVersion plainURL "http://host/repo"
             (exampleEntry "0.9.0" false)],
           Controller := none }])
      [{ Name := "stable.mysql", AppName := "mysql", Labels := some [],
         Versions := [newChartVersion plainURL "http://host/repo"
           (exampleEntry "0.9.0" false)],
         Controller := none }]
      [("mysql", [exampleEntry "1.0.0" false])]).stored.map
      fun a => (a.Name, a.Versions.map fun v => v.Version)) =
      [("stable.mysql", ["1.0.0"])] := by
  refine ⟨by decide, by decide⟩

theorem createOrUpdate_written_new (store : ResourceStore) (stored stored' : List Application)
    (w : AppWrite) (hno : ∀ a ∈ stored, a.Name ≠ w.obj.Name)
    (h : createOrUpdate store stored w = .written stored') :
    ∃ obj, w.mutate w.obj = .ok obj ∧ stored' = stored ++ [obj] := by
  rcases createOrUpdate_written _ _ _ _ h with ⟨obj, _, hm, hs⟩ | hs | ⟨existing, _, hex, hn, _⟩
  · exact ⟨obj, hm, hs⟩
  · simp only [createOrUpdate] at h
    split at h
    · cases h
    · split at h
      · split at h
        · cases h
        · split at h
          · cases h
          · next obj hm =>
            split at h
            · cases h
            · simp only [WriteOutcome.written.injEq] at h
              exact ⟨obj, hm, h.symm⟩
      · next existing hfind =>
        exact absurd (find_name_some _ _ _ hfind).2 (hno _ (find_name_some _ _ _ hfind).1)
  · exact absurd hn (hno _ hex)

theorem createOrUpdate_fault_eq (store : ResourceStore) (stored : List Application)
    (w : AppWrite) (f : Fault) (h : createOrUpdate store stored w = .fault f) :
    f = .nilMapWrite := by
  have key : ∀ obj, w.mutate obj = .error f → f = .nilMapWrite := by
    intro obj hm
    simp only [AppWrite.mutate] at hm
    split at hm
    · cases hm
    · split at hm
      · cases hm
        rfl
      · cases hm
  simp only [createOrUpdate] at h
  split at h
  · cases h
  · split at h
    · split at h
      · cases h
      · split at h
        · next f' hm =>
          cases h
          exact key _ hm
        · split at h <;> cases h
    · split at h
      · cases h
      · split at h
        · next f' hm =>
          cases h
          exact key _ hm
        · split at h
          · cases h
          · split at h <;> cases h

/-- The loop faults only on the label write of line 319, on a stored
Application that has a nil label map and the identity of a package of the
index. -/
theorem sync_fault_cause (lib : NetURL) (store : ResourceStore) (srcName srcURL : String)
    (cats : GoMap (List String)) (stored₀ : List Application)
    (entries : List (String × List repo.ChartVersion)) (stored : List Application)
    (hsub : ∀ a ∈ stored, a.Labels = none → ∃ a₀ ∈ stored₀, a₀.Name = a.Name ∧ a₀.Labels = none)
    (f : Fault)
    (h : (syncEntries lib store srcName srcURL cats (buildHave srcName stored₀)
      stored entries).outcome = .fault f) :
    f = .nilMapWrite ∧
    ∃ a ∈ stored₀, a.Labels = none ∧ ∃ e ∈ entries, a.Name = applicationName srcName e.1 := by
  induction entries generalizing stored with
  | nil => simp [syncEntries] at h
  | cons e₀ entries ih =>
    obtain ⟨chartName, items⟩ := e₀
    have lift : (f = .nilMapWrite ∧
        ∃ a ∈ stored₀, a.Labels = none ∧ ∃ e ∈ entries, a.Name = applicationName srcName e.1) →
        f = .nilMapWrite ∧ ∃ a ∈ stored₀, a.Labels = none ∧
          ∃ e ∈ (chartName, items) :: entries, a.Name = applicationName srcName e.1 := by
      rintro ⟨hf, a, ha, hnil, e, he, hn⟩
      exact ⟨hf, a, ha, hnil, e, List.mem_cons_of_mem _ he, hn⟩
    have hfacts := built_entry_facts lib srcName srcURL cats stored₀ chartName items
    simp only [syncEntries] at h
    split at h
    · split at h
      · next f' hf =>
        obtain ⟨app₀, happ₀⟩ := labelDeprecated_ok _ hfacts.2
        rw [happ₀] at hf
        cases hf
      · next app happ =>
        have hname : app.Name = applicationName srcName chartName := by
          rw [labelDeprecated_name _ _ happ]
          exact hfacts.1
        have happl : app.Labels ≠ none := labelDeprecated_labels_ne_none _ _ happ hfacts.2
        split at h
        · next f' hf =>
          simp only [SyncOutcome.fault.injEq] at h
          subst h
          obtain ⟨x, hx, hxn, hnil⟩ := createOrUpdate_fault _ _ _ _ _ hf
          obtain ⟨a₀, ha₀, hn₀, hnil₀⟩ := hsub x hx hnil
          exact ⟨createOrUpdate_fault_eq _ _ _ _ hf, a₀, ha₀, hnil₀, (chartName, items),
            List.mem_cons_self _ _, hn₀.trans (hxn.trans hname)⟩
        · simp at h
        · next stored' hw =>
          apply lift
          apply ih stored' _ h
          rcases createOrUpdate_written _ _ _ _ hw with ⟨obj, _, hmu, rfl⟩ | rfl |
            ⟨existing, obj, hex, _, hmu, rfl⟩
          · intro a ha hnil
            rcases List.mem_append.1 ha with ha | ha
            · exact hsub a ha hnil
            · simp only [List.mem_singleton] at ha
              subst ha
              exact absurd hnil (mutate_labels_ne_none _ _ _ hmu happl)
          · exact hsub
          · intro a ha hnil
            rcases replaceApp_cases _ _ _ ha with rfl | ha
            · have hen : existing.Labels = none := by
                by_contra hne
                exact mutate_labels_ne_none _ _ _ hmu hne hnil
              obtain ⟨a₀, ha₀, hn₀, hnil₀⟩ := hsub existing hex hen
              exact ⟨a₀, ha₀, hn₀.trans (mutate_name _ _ _ hmu).symm, hnil₀⟩
            · exact hsub a ha hnil
    · exact lift (ih stored hsub h)

/-- A package the merge changed and of whose identity the store holds no
Application is created with the merged version list, and the record is in
the store when the loop has run to its end. -/
theorem sync_created (lib : NetURL) (store : ResourceStore) (srcName srcURL : String)
    (cats : GoMap (List String)) (stored₀ : List Application)
    (entries : List (String × List repo.ChartVersion))
    (hkeys : (entries.map Prod.fst).Nodup) (stored : List Application)
    (e : String × List repo.ChartVersion) (he : e ∈ entries)
    (hno : ∀ a ∈ stored, a.Name ≠ applicationName srcName e.1)
    (hflag : (mergeEntry lib srcName srcURL cats
      ((buildHave srcName stored₀).get (applicationName srcName e.1)) e.1 e.2).2 = true)
    (hdone : (syncEntries lib store srcName srcURL cats (buildHave srcName stored₀)
      stored entries).outcome = .done) :
    ∃ a' ∈ (syncEntries lib store srcName srcURL cats (buildHave srcName stored₀)
        stored entries).stored,
      a'.Name = applicationName srcName e.1 ∧
      a'.Versions = (mergeEntry lib srcName srcURL cats
        ((buildHave srcName stored₀).get (applicationName srcName e.1)) e.1 e.2).1.Versions := by
  induction entries generalizing stored with
  | nil => simp at he
  | cons e₀ entries ih =>
    obtain ⟨chartName, items⟩ := e₀
    simp only [List.map_cons, List.nodup_cons, List.mem_map, not_exists, not_and] at hkeys
    have hfacts := built_entry_facts lib srcName srcURL cats stored₀ chartName items
    simp only [syncEntries] at hdone ⊢
    by_cases hflag₀ : (mergeEntry lib srcName srcURL cats
        ((buildHave srcName stored₀).get (applicationName srcName chartName))
        chartName items).2 = true
    · simp only [hflag₀, if_true] at hdone ⊢
      cases happ : labelDeprecated (mergeEntry lib srcName srcURL cats
          ((buildHave srcName stored₀).get (applicationName srcName chartName))
          chartName items).1 with
      | error f => simp [happ] at hdone
      | ok app =>
        simp only [happ] at hdone ⊢
        have hname : app.Name = applicationName srcName chartName := by
          rw [labelDeprecated_name _ _ happ]
          exact hfacts.1
        cases hwr : createOrUpdate store stored (appWriteOf srcName app) with
        | fault f => simp [hwr] at hdone
        | failed err => simp [hwr] at hdone
        | written stored' =>
          simp only [hwr] at hdone ⊢
          rcases List.mem_cons.1 he with rfl | he
          · have hno' : ∀ a ∈ stored, a.Name ≠ (appWriteOf srcName app).obj.Name := by
              intro a ha
              show a.Name ≠ app.Name
              rw [hname]
              exact hno a ha
            obtain ⟨obj, hmu, rfl⟩ := createOrUpdate_written_new _ _ _ _ hno' hwr
            refine ⟨obj, ?_, ?_, ?_⟩
            · apply sync_persist _ _ _ _ _ _ _ _ _ (List.mem_append_right _
                (List.mem_singleton.2 rfl))
              intro w hw hwn
              obtain ⟨e', he', hn', _⟩ := sync_write_name lib store srcName srcURL cats stored₀
                _ entries w hw
              have h1 : obj.Name = applicationName srcName chartName :=
                (mutate_name _ _ _ hmu).trans hname
              have h2 : e'.1 = chartName :=
                applicationName_injective srcName _ _ (hn'.symm.trans (hwn.trans h1))
              exact hkeys.1 e' he' h2
            · exact (mutate_name _ _ _ hmu).trans hname
            · rw [mutate_versions _ _ _ hmu]
              exact labelDeprecated_versions _ _ happ
          · apply ih hkeys.2 stored' he _ hdone
            have hne : applicationName srcName chartName ≠ applicationName srcName e.1 := by
              intro heq
              exact hkeys.1 e he (applicationName_injective srcName _ _ heq).symm
            rcases createOrUpdate_written _ _ _ _ hwr with ⟨obj, _, hmu, rfl⟩ | rfl |
              ⟨existing, obj, hex, hen, hmu, rfl⟩
            · intro a ha
              rcases List.mem_append.1 ha with ha | ha
              · exact hno a ha
              · simp only [List.mem_singleton] at ha
                subst ha
                rw [mutate_name _ _ _ hmu]
                show app.Name ≠ _
                rw [hname]
                exact hne
            · exact hno
            · intro a ha
              rcases replaceApp_cases _ _ _ ha with rfl | ha
              · rw [mutate_name _ _ _ hmu]
                exact hno existing hex
              · exact hno a ha
    · simp only [hflag₀] at hdone ⊢
      rcases List.mem_cons.1 he with rfl | he
      · exact absurd hflag hflag₀
      · exact ih hkeys.2 stored he hno hdone

theorem listedRecord_mem (srcName : String) (stored : List Application) (name : String)
    (a : Application) (h : listedRecord srcName stored name = some a) :
    a ∈ stored ∧ a.Name = name ∧ matchesSource srcName a = true := by
  have hp := List.find?_some h
  simp only [Bool.and_eq_true, decide_eq_true_eq] at hp
  exact ⟨List.mem_of_find?_eq_some h, hp.1, hp.2⟩

/-- C10: in the loop over the index, with distinct package names and distinct
Application names in the store, and the record of a package read as the
stored Application of its identity that carries the source-name label of the
Source: `ctrl.CreateOrUpdate` is called for a package exactly when the merge
appended a descriptor to that record. Every call is for a package whose
version list grew; every package whose list grew gets a call with the merged
list, unless the loop stopped early; the loop runs to its end when the store
reports no error and no stored Application has a nil label map; a package of
whose identity the store holds no Application and that has at least one
version is in the store with the merged, non-empty list once the loop has
run to its end; and a package whose index versions are all on its record
gets no call and its record stays in the store as it is. -/
theorem sync_writes_iff_listed_changed (lib : NetURL) (store : ResourceStore)
    (srcName srcURL : String) (cats : GoMap (List String)) (stored : List Application)
    (entries : List (String × List repo.ChartVersion))
    (hnames : (stored.map fun x => x.Name).Nodup)
    (hkeys : (entries.map Prod.fst).Nodup) :
    (∀ w ∈ (syncEntries lib store srcName srcURL cats (buildHave srcName stored)
        stored entries).writes,
      ∃ e ∈ entries, w.obj.Name = applicationName srcName e.1 ∧
        (recordedVersions
          (listedRecord srcName stored (applicationName srcName e.1))).length <
          w.versions.length) ∧
    (∀ e ∈ entries,
      (recordedVersions
        (listedRecord srcName stored (applicationName srcName e.1))).length <
        (mergeEntry lib srcName srcURL cats
          (listedRecord srcName stored (applicationName srcName e.1))
          e.1 e.2).1.Versions.length →
      (∃ w ∈ (syncEntries lib store srcName srcURL cats (buildHave srcName stored)
          stored entries).writes,
        w.obj.Name = applicationName srcName e.1 ∧
        w.versions = (mergeEntry lib srcName srcURL cats
          (listedRecord srcName stored (applicationName srcName e.1))
          e.1 e.2).1.Versions) ∨
      (syncEntries lib store srcName srcURL cats (buildHave srcName stored)
        stored entries).outcome ≠ .done) ∧
    ((∀ m, ¬ store.reports m) → (∀ a ∈ stored, a.Labels ≠ none) →
      (syncEntries lib store srcName srcURL cats (buildHave srcName stored)
        stored entries).outcome = .done) ∧
    (∀ e ∈ entries,
      (∀ a ∈ stored, a.Name ≠ applicationName srcName e.1) → e.2 ≠ [] →
      (syncEntries lib store srcName srcURL cats (buildHave srcName stored)
        stored entries).outcome = .done →
      ∃ a' ∈ (syncEntries lib store srcName srcURL cats (buildHave srcName stored)
          stored entries).stored,
        a'.Name = applicationName srcName e.1 ∧
        a'.Versions = (mergeEntry lib srcName srcURL cats none e.1 e.2).1.Versions ∧
        a'.Versions ≠ []) ∧
    (∀ e ∈ entries, ∀ a : Application,
      listedRecord srcName stored (applicationName srcName e.1) = some a →
      (∀ cv ∈ e.2, cv.Version ∈ a.Versions.map fun v => v.Version) →
      (∀ w ∈ (syncEntries lib store srcName srcURL cats (buildHave srcName stored)
          stored entries).writes,
        w.obj.Name ≠ applicationName srcName e.1) ∧
      a ∈ (syncEntries lib store srcName srcURL cats (buildHave srcName stored)
        stored entries).stored) := by
  have hget : ∀ name, (buildHave srcName stored).get name = listedRecord srcName stored name :=
    fun name => buildHave_eq_listed srcName stored name hnames
  have hA' : ∀ w ∈ (syncEntries lib store srcName srcURL cats (buildHave srcName stored)
        stored entries).writes,
      ∃ e ∈ entries, w.obj.Name = applicationName srcName e.1 ∧
        w.versions = (mergeEntry lib srcName srcURL cats
          (listedRecord srcName stored (applicationName srcName e.1)) e.1 e.2).1.Versions ∧
        (recordedVersions
          (listedRecord srcName stored (applicationName srcName e.1))).length <
          w.versions.length := by
    intro w hw
    obtain ⟨e, he, hn, hv, hflag⟩ :=
      sync_write_name lib store srcName srcURL cats stored stored entries w hw
    rw [hget] at hv hflag
    refine ⟨e, he, hn, hv, ?_⟩
    rw [hv]
    exact (mergeEntry_flag_iff _ _ _ _ _ _ _).1 hflag
  have hnoWrite : ∀ e ∈ entries,
      ¬ (recordedVersions
        (listedRecord srcName stored (applicationName srcName e.1))).length <
        (mergeEntry lib srcName srcURL cats
          (listedRecord srcName stored (applicationName srcName e.1))
          e.1 e.2).1.Versions.length →
      ∀ w ∈ (syncEntries lib store srcName srcURL cats (buildHave srcName stored)
          stored entries).writes,
        w.obj.Name ≠ applicationName srcName e.1 := by
    intro e he hnot w hw hname
    obtain ⟨e', he', hn', hv, hlt⟩ := hA' w hw
    have h1 : e'.1 = e.1 := applicationName_injective srcName _ _ (hn'.symm.trans hname)
    have he'e : e' = e := List.inj_on_of_nodup_map hkeys he' he h1
    subst he'e
    exact hnot (hv ▸ hlt)
  refine ⟨?_, ?_, ?_, ?_, ?_⟩
  · intro w hw
    obtain ⟨e, he, h1, _, h3⟩ := hA' w hw
    exact ⟨e, he, h1, h3⟩
  · intro e he hlen
    have hflag := (mergeEntry_flag_iff _ _ _ _ _ _ _).2 hlen
    rw [← hget] at hflag
    rcases sync_writes_complete lib store srcName srcURL cats _ entries stored e he hflag with
      ⟨w, hw, app, happ, rfl⟩ | hne
    · left
      rw [hget] at happ
      refine ⟨_, hw, ?_, ?_⟩
      · show app.Name = _
        rw [labelDeprecated_name _ _ happ, mergeEntry_name]
        cases hl : listedRecord srcName stored (applicationName srcName e.1) with
        | none => rfl
        | some a => exact (listedRecord_mem _ _ _ _ hl).2.1
      · show app.Versions = _
        exact labelDeprecated_versions _ _ happ
    · exact Or.inr hne
  · intro hstore hl
    exact (sync_outcome lib store srcName srcURL cats (buildHave srcName stored) entries stored
      (fun e _ => (built_entry_facts lib srcName srcURL cats stored e.1 e.2).2) hl).2 hstore
  · intro e he hno hitems hdone
    have hnone : (buildHave srcName stored).get (applicationName srcName e.1) = none := by
      rw [hget]
      cases hl : listedRecord srcName stored (applicationName srcName e.1) with
      | none => rfl
      | some a =>
        exact absurd (listedRecord_mem _ _ _ _ hl).2.1 (hno a (listedRecord_mem _ _ _ _ hl).1)
    have hgrow : (mergeEntry lib srcName srcURL cats none e.1 e.2).1.Versions ≠ [] := by
      rw [mergeEntry_versions]
      cases hi : e.2 with
      | nil => exact absurd hi hitems
      | cons cv items => simp [recordedVersions, freshEntries]
    have hflag : (mergeEntry lib srcName srcURL cats
        ((buildHave srcName stored).get (applicationName srcName e.1)) e.1 e.2).2 = true := by
      rw [hnone]
      apply (mergeEntry_flag_iff _ _ _ _ _ _ _).2
      exact List.length_pos.2 hgrow
    obtain ⟨a', ha', hn', hv'⟩ := sync_created lib store srcName srcURL cats stored entries
      hkeys stored e he hno hflag hdone
    rw [hnone] at hv'
    exact ⟨a', ha', hn', hv', hv' ▸ hgrow⟩
  · intro e he a hl hall
    have hnot : ¬ (recordedVersions
        (listedRecord srcName stored (applicationName srcName e.1))).length <
        (mergeEntry lib srcName srcURL cats
          (listedRecord srcName stored (applicationName srcName e.1))
          e.1 e.2).1.Versions.length := by
      rw [mergeEntry_versions, hl]
      have hfresh := freshEntries_eq_nil ((recordedVersions (some a)).map fun v => v.Version)
        e.2 hall
      rw [hfresh]
      simp
    have hw := hnoWrite e he hnot
    refine ⟨hw, ?_⟩
    apply sync_persist _ _ _ _ _ _ _ _ _ (listedRecord_mem _ _ _ _ hl).1
    rw [(listedRecord_mem _ _ _ _ hl).2.1]
    exact hw

theorem sync_writes_iff_listed_changed_witness :
    ([exampleRecord "mysql" [(sourceNameLabel, "stable")]
      [newChartVersion plainURL "http://host/repo" (exampleEntry "1.0.0" false)]].map
      fun x => x.Name).Nodup ∧
    ([("mysql", [exampleEntry "1.0.0" false]), ("redis", [exampleEntry "6.0.0" false])].map
      Prod.fst).Nodup ∧
    ∃ a' ∈ (syncEntries plainURL acceptingStore "stable" "http://host/repo" []
        (buildHave "stable"
          [exampleRecord "mysql" [(sourceNameLabel, "stable")]
            [newChartVersion plainURL "http://host/repo" (exampleEntry "1.0.0" false)]])
        [exampleRecord "mysql" [(sourceNameLabel, "stable")]
          [newChartVersion plainURL "http://host/repo" (exampleEntry "1.0.0" false)]]
        [("mysql", [exampleEntry "1.0.0" false]),
         ("redis", [exampleEntry "6.0.0" false])]).stored,
      a'.Name = applicationName "stable" "redis" ∧
      a'.Versions = (mergeEntry plainURL "stable" "http://host/repo" [] none "redis"
        [exampleEntry "6.0.0" false]).1.Versions ∧
      a'.Versions ≠ [] :=
  ⟨by decide, by decide,
    (sync_writes_iff_listed_changed plainURL acceptingStore "stable" "http://host/repo" []
      [exampleRecord "mysql" [(sourceNameLabel, "stable")]
        [newChartVersion plainURL "http://host/repo" (exampleEntry "1.0.0" false)]]
      [("mysql", [exampleEntry "1.0.0" false]), ("redis", [exampleEntry "6.0.0" false])]
      (by decide) (by decide)).2.2.2.1 ("redis", [exampleEntry "6.0.0" false])
      (by decide) (by decide) (by decide) (by decide)⟩

/-- C10, counterexample: the store holds the Application `stable.mysql` with
the descriptor of version `1.0.0` and without the source-name label; the
index lists `mysql` with version `1.0.0` alone, so every index version is
already recorded. The listing of line 232 does not return the record, the
merge seeds a new one and appends `1.0.0` to it, and `ctrl.CreateOrUpdate`
is called and updates the stored record. -/
theorem unlisted_record_is_written :
    ((syncEntries plainURL acceptingStore "stable" "http://host/repo" []
      (buildHave "stable"
        [{ Name := "stable.mysql", AppName := "mysql", Labels := some [],
           Versions := [newChartVersion plainURL "http://host/repo"
             (exampleEntry "1.0.0" false)],
           Controller := none }])
      [{ Name := "stable.mysql", AppName := "mysql", Labels := some [],
         Versions := [newChartVersion plainURL "http://host/repo"
           (exampleEntry "1.0.0" false)],
         Controller := none }]
      [("mysql", [exampleEntry "1.0.0" false])]).writes.map
      fun w => (w.obj.Name, w.versions.map fun v => v.Version)) =
      [("stable.mysql", ["1.0.0"])] ∧
    (syncEntries plainURL acceptingStore "stable" "http://host/repo" []
      (buildHave "stable"
        [{ Name := "stable.mysql", AppName := "mysql", Labels := some [],
           Versions := [newChartVersion plainURL "http://host/repo"
             (exampleEntry "1.0.0" false)],
           Controller := none }])
      [{ Name := "stable.mysql", AppName := "mysql", Labels := some [],
         Versions := [newChartVersion plainURL "http://host/repo"
           (exampleEntry "1.0.0" false)],
         Controller := none }]
      [("mysql", [exampleEntry "1.0.0" false])]).stored ≠
      [{ Name := "stable.mysql", AppName := "mysql", Labels := some [],
         Versions := [newChartVersion plainURL "http://host/repo"
           (exampleEntry "1.0.0" false)],
         Controller := none }] := by
  refine ⟨by decide, by decide⟩

/-! ## The reconciliation state machine -/

theorem returnStatus_fields (env : SourceEnv) (src : Source) (cats : GoMap (List String))
    (result : ctrl.Result) (fetched : Bool) (writes : List AppWrite) (op : String)
    (status : SourceStatus) :
    (returnStatus env src cats result fetched writes op status).result = result ∧
    (returnStatus env src cats result fetched writes op status).fault = none ∧
    (returnStatus env src cats result fetched writes op status).fetched = fetched ∧
    (returnStatus env src cats result fetched writes op status).writes = writes ∧
    (returnStatus env src cats result fetched writes op status).statusCalls = [(op, status)] ∧
    (returnStatus env src cats result fetched writes op status).defaultCategories = cats :=
  ⟨rfl, rfl, rfl, rfl, rfl, rfl⟩

theorem setSourceStatus_patched (env : SourceEnv) (src : Source) (status : SourceStatus)
    (h : env.statusListError = none) :
    (setSourceStatus env src status).patched =
      some { status with
        AppCount := countOwned src.Name (env.storedAtStatus.filter (matchesSource src.Name)) } := by
  simp only [setSourceStatus, h]
  split <;> rfl

theorem returnStatus_patched (env : SourceEnv) (src : Source) (cats : GoMap (List String))
    (result : ctrl.Result) (fetched : Bool) (writes : List AppWrite) (op : String)
    (status : SourceStatus) (h : env.statusListError = none) :
    (returnStatus env src cats result fetched writes op status).patched =
      [{ status with
        AppCount := countOwned src.Name (env.storedAtStatus.filter (matchesSource src.Name)) }] := by
  simp only [returnStatus, setSourceStatus_patched env src status h]
  rfl

/-- C11: for a Source with sync not skipped whose state is not `updating`,
the run calls `setSourceStatus` once, with state `updating` and reason
`object changed`, returns `Requeue: true`, fetches no index and calls
`ctrl.CreateOrUpdate` for no Application; the status is handed to
`Status().Patch` when the listing for the count succeeds. -/
theorem reconcile_enters_updating (cats : GoMap (List String)) (env : SourceEnv)
    (src : Source) (hsrc : env.source = .ok src) (hskip : src.Spec.SkipSync = false)
    (hstate : src.Status.State ≠ SyncStateUpdating) :
    (SourceReconciler.Reconcile cats env).statusCalls =
      [("Reconcile", { State := SyncStateUpdating, Reason := "object changed",
                       LastUpdate := none, AppCount := 0 })] ∧
    (SourceReconciler.Reconcile cats env).result = { Requeue := true, RequeueAfter := 0 } ∧
    (SourceReconciler.Reconcile cats env).fetched = false ∧
    (SourceReconciler.Reconcile cats env).writes = [] ∧
    (SourceReconciler.Reconcile cats env).fault = none ∧
    (env.statusListError = none →
      (SourceReconciler.Reconcile cats env).patched =
        [{ State := SyncStateUpdating, Reason := "object changed", LastUpdate := none,
           AppCount := countOwned src.Name
             (env.storedAtStatus.filter (matchesSource src.Name)) }]) := by
  have e : SourceReconciler.Reconcile cats env =
      returnStatus env src (loadCategories env cats) { Requeue := true, RequeueAfter := 0 }
        false [] "Reconcile"
        { State := SyncStateUpdating, Reason := "object changed", LastUpdate := none,
          AppCount := 0 } := by
    simp only [SourceReconciler.Reconcile, hsrc, hskip, if_pos hstate]
    rfl
  rw [e]
  refine ⟨rfl, rfl, rfl, rfl, rfl, fun h => ?_⟩
  rw [returnStatus_patched _ _ _ _ _ _ _ _ h]

theorem reconcile_enters_updating_witness :
    (exampleEnv (exampleSource SyncStateSuccess "") []).source =
      .ok (exampleSource SyncStateSuccess "") ∧
    (SourceReconciler.Reconcile [] (exampleEnv (exampleSource SyncStateSuccess "") [])).result =
      { Requeue := true, RequeueAfter := 0 } :=
  ⟨rfl, (reconcile_enters_updating [] (exampleEnv (exampleSource SyncStateSuccess "") [])
    (exampleSource SyncStateSuccess "") rfl rfl (by decide)).2.1⟩

theorem interval_reason_shape (err : String) :
    hasPrefixStr ("spec.updateFrequency is invalid: " ++ err)
      "spec.updateFrequency is invalid:" = true ∧
    "spec.updateFrequency is invalid: " ++ err =
      "spec.updateFrequency is " ++ ("invalid" ++ (": " ++ err)) := by
  constructor
  · simp only [hasPrefixStr, String.data_append]
    rw [ List.isPrefixOf_iff_prefix]
    exact ⟨[' '] ++ err.data, by simp⟩
  · apply String.ext
    simp only [String.data_append]
    rfl

/-- C12: for a Source with sync not skipped in state `updating` whose
`updateFrequency` is not empty and is refused by `time.ParseDuration` with message `err`, the run
calls `setSourceStatus` once, with state `error` and the reason
`spec.updateFrequency is invalid: ` followed by `err` (which begins with
`spec.updateFrequency is invalid:` and contains `invalid`), returns the empty
`ctrl.Result` and fetches no index; `invalid` is such a value. -/
theorem reconcile_rejects_bad_interval (cats : GoMap (List String)) (env : SourceEnv)
    (src : Source) (err : String) (hsrc : env.source = .ok src)
    (hskip : src.Spec.SkipSync = false) (hstate : src.Status.State = SyncStateUpdating)
    (hfreq : src.Spec.UpdateFrequency ≠ "")
    (hparse : env.parseDuration src.Spec.UpdateFrequency = .error err) :
    (SourceReconciler.Reconcile cats env).statusCalls =
      [("Reconcile", { State := SyncStateError,
                       Reason := "spec.updateFrequency is invalid: " ++ err,
                       LastUpdate := none, AppCount := 0 })] ∧
    hasPrefixStr ("spec.updateFrequency is invalid: " ++ err)
      "spec.updateFrequency is invalid:" = true ∧
    "spec.updateFrequency is invalid: " ++ err =
      "spec.updateFrequency is " ++ ("invalid" ++ (": " ++ err)) ∧
    (SourceReconciler.Reconcile cats env).result = { Requeue := false, RequeueAfter := 0 } ∧
    (SourceReconciler.Reconcile cats env).fetched = false ∧
    (SourceReconciler.Reconcile cats env).writes = [] ∧
    (env.statusListError = none →
      (SourceReconciler.Reconcile cats env).patched =
        [{ State := SyncStateError, Reason := "spec.updateFrequency is invalid: " ++ err,
           LastUpdate := none,
           AppCount := countOwned src.Name
             (env.storedAtStatus.filter (matchesSource src.Name)) }]) ∧
    exampleParseDuration "invalid" = .error "time: invalid duration invalid" := by
  have hn : ¬ src.Status.State ≠ SyncStateUpdating := fun h => h hstate
  have e : SourceReconciler.Reconcile cats env =
      returnStatus env src (loadCategories env cats) { Requeue := false, RequeueAfter := 0 }
        false [] "Reconcile"
        { State := SyncStateError, Reason := "spec.updateFrequency is invalid: " ++ err,
          LastUpdate := none, AppCount := 0 } := by
    simp only [SourceReconciler.Reconcile, hsrc, hskip, if_neg hn, if_pos hfreq, hparse]
    rfl
  rw [e]
  refine ⟨rfl, (interval_reason_shape err).1, (interval_reason_shape err).2, rfl, rfl, rfl,
    fun h => ?_, rfl⟩
  rw [returnStatus_patched _ _ _ _ _ _ _ _ h]

theorem reconcile_rejects_bad_interval_witness :
    (exampleEnv (exampleSource SyncStateUpdating "invalid") []).parseDuration
      (exampleSource SyncStateUpdating "invalid").Spec.UpdateFrequency =
      .error "time: invalid duration invalid" ∧
    (SourceReconciler.Reconcile []
      (exampleEnv (exampleSource SyncStateUpdating "invalid") [])).statusCalls =
      [("Reconcile", { State := SyncStateError,
                       Reason := "spec.updateFrequency is invalid: " ++
                         "time: invalid duration invalid",
                       LastUpdate := none, AppCount := 0 })] :=
  ⟨rfl, (reconcile_rejects_bad_interval []
    (exampleEnv (exampleSource SyncStateUpdating "invalid") [])
    (exampleSource SyncStateUpdating "invalid") "time: invalid duration invalid"
    rfl rfl rfl (by decide) rfl).1⟩

/-- C12, counterexample: a Source in state `updating` with `updateFrequency`
`invalid` and `skipSync` set; the run returns before the interval check,
calls `setSourceStatus` for no status and returns the empty `ctrl.Result`. -/
theorem skipped_source_keeps_status :
    exampleParseDuration "invalid" = .error "time: invalid duration invalid" ∧
    (SourceReconciler.Reconcile []
      (exampleEnv
        { exampleSource SyncStateUpdating "invalid" with
          Spec := { (exampleSource SyncStateUpdating "invalid").Spec with SkipSync := true } }
        [])).statusCalls = [] ∧
    (SourceReconciler.Reconcile []
      (exampleEnv
        { exampleSource SyncStateUpdating "invalid" with
          Spec := { (exampleSource SyncStateUpdating "invalid").Spec with SkipSync := true } }
        [])).patched = [] ∧
    (SourceReconciler.Reconcile []
      (exampleEnv
        { exampleSource SyncStateUpdating "invalid" with
          Spec := { (exampleSource SyncStateUpdating "invalid").Spec with SkipSync := true } }
        [])).err = none :=
  ⟨rfl, rfl, rfl, rfl⟩

/-- The two ways a sync ends: with one call of `setSourceStatus`, for state
`success` or for state `error` with the message of a collaborator, or in a
fault of the merge loop, with no such call. -/
theorem syncSource_shape (env : SourceEnv) (src : Source) (cats : GoMap (List String))
    (result : ctrl.Result) :
    (∃ fetched writes op status,
      syncSource env src cats result =
        returnStatus env src cats result fetched writes op status ∧
      (status.State = SyncStateSuccess ∨
        status.State = SyncStateError ∧ env.reports status.Reason)) ∨
    (∃ f idx entries,
      env.downloadIndexFile (repoEntry src) = .ok idx ∧
      env.loadIndexFile idx = .ok entries ∧
      (syncEntries env.lib env.store src.Name src.Spec.URL cats
        (buildHave src.Name env.stored) env.stored entries).outcome = .fault f ∧
      syncSource env src cats result =
        { result := { Requeue := false, RequeueAfter := 0 }, err := none, fault := some f,
          fetched := true,
          writes := (syncEntries env.lib env.store src.Name src.Spec.URL cats
            (buildHave src.Name env.stored) env.stored entries).writes,
          statusCalls := [], patched := [], defaultCategories := cats }) := by
  cases h1 : env.newChartRepository (repoEntry src) with
  | some err =>
    left
    refine ⟨false, [], "SyncRepo",
      { State := SyncStateError, Reason := err, LastUpdate := none, AppCount := 0 }, ?_,
      Or.inr ⟨rfl, Or.inl ⟨_, h1⟩⟩⟩
    simp only [syncSource, h1]
  | none =>
    cases h2 : env.downloadIndexFile (repoEntry src) with
    | error err =>
      left
      refine ⟨true, [], "SyncRepo",
        { State := SyncStateError, Reason := err, LastUpdate := some env.now, AppCount := 0 },
        ?_, Or.inr ⟨rfl, Or.inr (Or.inl ⟨_, h2⟩)⟩⟩
      simp only [syncSource, h1, h2]
    | ok idx =>
      cases h3 : env.loadIndexFile idx with
      | error err =>
        left
        refine ⟨true, [], "SyncRepo",
          { State := SyncStateError, Reason := err, LastUpdate := some env.now, AppCount := 0 },
          ?_, Or.inr ⟨rfl, Or.inr (Or.inr (Or.inl ⟨_, h3⟩))⟩⟩
        simp only [syncSource, h1, h2, h3]
      | ok entries =>
        cases h4 : env.listError with
        | some err =>
          left
          refine ⟨true, [], "ListApps",
            { State := SyncStateError, Reason := err, LastUpdate := some env.now,
              AppCount := 0 },
            ?_, Or.inr ⟨rfl, Or.inr (Or.inr (Or.inr (Or.inl h4)))⟩⟩
          simp only [syncSource, h1, h2, h3, h4]
        | none =>
          cases h5 : (syncEntries env.lib env.store src.Name src.Spec.URL cats
              (buildHave src.Name env.stored) env.stored entries).outcome with
          | fault f =>
            right
            refine ⟨f, idx, entries, rfl, h3, h5, ?_⟩
            simp only [syncSource, h1, h2, h3, h4, h5]
          | writeFailed err =>
            left
            refine ⟨true, (syncEntries env.lib env.store src.Name src.Spec.URL cats
                (buildHave src.Name env.stored) env.stored entries).writes, "AppUpdate",
              { State := SyncStateError, Reason := err, LastUpdate := some env.now,
                AppCount := 0 },
              ?_, Or.inr ⟨rfl, Or.inr (Or.inr (Or.inr (Or.inr
                (syncEntries_writeFailed _ _ _ _ _ _ _ _ _ h5))))⟩⟩
            simp only [syncSource, h1, h2, h3, h4, h5]
          | done =>
            left
            refine ⟨true, (syncEntries env.lib env.store src.Name src.Spec.URL cats
                (buildHave src.Name env.stored) env.stored entries).writes, "Reconcile",
              { State := SyncStateSuccess, Reason := "", LastUpdate := some env.now,
                AppCount := 0 },
              ?_, Or.inl rfl⟩
            simp only [syncSource, h1, h2, h3, h4, h5]

theorem syncSource_result (env : SourceEnv) (src : Source) (cats : GoMap (List String))
    (result : ctrl.Result) (h : (syncSource env src cats result).fault = none) :
    (syncSource env src cats result).result = result := by
  rcases syncSource_shape env src cats result with ⟨_, _, _, _, he, _⟩ | ⟨f, _, _, _, _, _, he⟩
  · rw [he]
    rfl
  · rw [he] at h
    cases h

/-- A sync ends in a fault only on the label write of line 319: the store
holds an Application with a nil label map and the identity of a package of
the index. Nothing is handed to `setSourceStatus` in such a run. -/
theorem syncSource_fault_cause (env : SourceEnv) (src : Source) (cats : GoMap (List String))
    (result : ctrl.Result) (f : Fault) (h : (syncSource env src cats result).fault = some f) :
    f = .nilMapWrite ∧
    (syncSource env src cats result).statusCalls = [] ∧
    (syncSource env src cats result).patched = [] ∧
    (syncSource env src cats result).err = none ∧
    (syncSource env src cats result).defaultCategories = cats ∧
    ∃ a ∈ env.stored, a.Labels = none ∧
      ∃ idx entries, env.downloadIndexFile (repoEntry src) = .ok idx ∧
        env.loadIndexFile idx = .ok entries ∧
        ∃ e ∈ entries, a.Name = applicationName src.Name e.1 := by
  rcases syncSource_shape env src cats result with ⟨_, _, _, _, he, _⟩ |
    ⟨f', idx, entries, hidx, hent, hout, he⟩
  · rw [he] at h
    cases h
  · rw [he] at h ⊢
    simp only [Option.some.injEq] at h
    subst h
    obtain ⟨hf', a, ha, hnil, e, hmem, hn⟩ := sync_fault_cause env.lib env.store src.Name
      src.Spec.URL cats env.stored entries env.stored
      (fun a ha hnil => ⟨a, ha, rfl, hnil⟩) f' hout
    exact ⟨hf', rfl, rfl, rfl, rfl, a, ha, hnil, idx, entries, hidx, hent, e, hmem, hn⟩

theorem syncSource_no_fault (env : SourceEnv) (src : Source) (cats : GoMap (List String))
    (result : ctrl.Result) (hl : ∀ a ∈ env.stored, a.Labels ≠ none) :
    (syncSource env src cats result).fault = none := by
  cases hf : (syncSource env src cats result).fault with
  | none => rfl
  | some f =>
    obtain ⟨_, _, _, _, _, a, ha, hnil, _⟩ := syncSource_fault_cause env src cats result f hf
    exact absurd hnil (hl a ha)

/-- For a Source in state `updating` with sync not skipped, a run that passes
the interval check and does not fault returns `RequeueAfter: d` when
`updateFrequency` parses to `d`, and the empty `ctrl.Result` when
`updateFrequency` is empty, whatever the repository client and the store
answer; such a run faults only on the label write of line 319, on a stored
Application with a nil label map, and not when there is none. -/
theorem reconcile_requeue_or_fault (cats : GoMap (List String)) (env : SourceEnv)
    (src : Source) (hsrc : env.source = .ok src) (hskip : src.Spec.SkipSync = false)
    (hstate : src.Status.State = SyncStateUpdating) :
    (∀ d, src.Spec.UpdateFrequency ≠ "" →
      env.parseDuration src.Spec.UpdateFrequency = .ok d →
      (SourceReconciler.Reconcile cats env).fault = none →
      (SourceReconciler.Reconcile cats env).result = { Requeue := false, RequeueAfter := d }) ∧
    (src.Spec.UpdateFrequency = "" →
      (SourceReconciler.Reconcile cats env).fault = none →
      (SourceReconciler.Reconcile cats env).result = { Requeue := false, RequeueAfter := 0 }) ∧
    (∀ f, (SourceReconciler.Reconcile cats env).fault = some f →
      f = .nilMapWrite ∧ (SourceReconciler.Reconcile cats env).statusCalls = [] ∧
      ∃ a ∈ env.stored, a.Labels = none) ∧
    ((∀ a ∈ env.stored, a.Labels ≠ none) →
      (SourceReconciler.Reconcile cats env).fault = none) := by
  have hn : ¬ src.Status.State ≠ SyncStateUpdating := fun h => h hstate
  have hrun : ∃ result, SourceReconciler.Reconcile cats env =
      returnStatus env src (loadCategories env cats) { Requeue := false, RequeueAfter := 0 }
        false [] "Reconcile" result ∨
      ∃ result, SourceReconciler.Reconcile cats env =
        syncSource env src (loadCategories env cats) result := by
    by_cases hfreq : src.Spec.UpdateFrequency ≠ ""
    · cases hparse : env.parseDuration src.Spec.UpdateFrequency with
      | error err =>
        refine ⟨
          { State := SyncStateError, Reason := "spec.updateFrequency is invalid: " ++ err,
            LastUpdate := none, AppCount := 0 }, Or.inl ?_⟩
        simp only [SourceReconciler.Reconcile, hsrc, hskip, if_neg hn, if_pos hfreq, hparse]
        rfl
      | ok d =>
        refine ⟨{ State := SyncStateError, Reason := "", LastUpdate := none, AppCount := 0 },
          Or.inr ⟨{ Requeue := false, RequeueAfter := d }, ?_⟩⟩
        simp only [SourceReconciler.Reconcile, hsrc, hskip, if_neg hn, if_pos hfreq, hparse]
        rfl
    · refine ⟨{ State := SyncStateError, Reason := "", LastUpdate := none, AppCount := 0 },
        Or.inr ⟨{ Requeue := false, RequeueAfter := 0 }, ?_⟩⟩
      simp only [SourceReconciler.Reconcile, hsrc, hskip, if_neg hn, if_neg hfreq]
      rfl
  refine ⟨?_, ?_, ?_, ?_⟩
  · intro d hfreq hparse hfault
    have e : SourceReconciler.Reconcile cats env =
        syncSource env src (loadCategories env cats) { Requeue := false, RequeueAfter := d } := by
      simp only [SourceReconciler.Reconcile, hsrc, hskip, if_neg hn, if_pos hfreq, hparse]
      rfl
    rw [e] at hfault ⊢
    exact syncSource_result _ _ _ _ hfault
  · intro hfreq hfault
    have hnf : ¬ src.Spec.UpdateFrequency ≠ "" := fun h => h hfreq
    have e : SourceReconciler.Reconcile cats env =
        syncSource env src (loadCategories env cats) { Requeue := false, RequeueAfter := 0 } := by
      simp only [SourceReconciler.Reconcile, hsrc, hskip, if_neg hn, if_neg hnf]
      rfl
    rw [e] at hfault ⊢
    exact syncSource_result _ _ _ _ hfault
  · intro f hf
    obtain ⟨status, he | ⟨result, he⟩⟩ := hrun
    · rw [he] at hf
      cases hf
    · rw [he] at hf ⊢
      obtain ⟨h1, h2, _, _, _, a, ha, hnil, _⟩ := syncSource_fault_cause _ _ _ _ f hf
      exact ⟨h1, h2, a, ha, hnil⟩
  · intro hl
    obtain ⟨status, he | ⟨result, he⟩⟩ := hrun
    · rw [he]
      rfl
    · rw [he]
      exact syncSource_no_fault _ _ _ _ hl

/-- C13: the Source `stable` is in state `updating` with `updateFrequency`
`30s`, which parses to 30 seconds, the index lists `mysql` with version
`1.0.0`, and the store holds an Application `stable.mysql` with a nil label
map. The listing of line 232 does not return the record, the merge seeds a
new one, and the mutate function of `ctrl.CreateOrUpdate` writes the labels
into the nil map of the stored record on line 319: the run ends in a fault,
calls `setSourceStatus` for no status and returns no `ctrl.Result`. With an
empty label map in place of the nil one the same run returns
`RequeueAfter: 30s`. -/
theorem reconcile_faults_on_nil_label_map :
    exampleParseDuration "30s" = .ok 30000000000 ∧
    (SourceReconciler.Reconcile []
      { exampleEnv (exampleSource SyncStateUpdating "30s") [] with
        stored := [{ Name := "stable.mysql", AppName := "mysql", Labels := none,
                     Versions := [], Controller := none }] }).fault = some .nilMapWrite ∧
    (SourceReconciler.Reconcile []
      { exampleEnv (exampleSource SyncStateUpdating "30s") [] with
        stored := [{ Name := "stable.mysql", AppName := "mysql", Labels := none,
                     Versions := [], Controller := none }] }).statusCalls = [] ∧
    (SourceReconciler.Reconcile []
      { exampleEnv (exampleSource SyncStateUpdating "30s") [] with
        stored := [{ Name := "stable.mysql", AppName := "mysql", Labels := none,
                     Versions := [], Controller := none }] }).patched = [] ∧
    (SourceReconciler.Reconcile []
      { exampleEnv (exampleSource SyncStateUpdating "30s") [] with
        stored := [{ Name := "stable.mysql", AppName := "mysql", Labels := some [],
                     Versions := [], Controller := none }] }).fault = none ∧
    (SourceReconciler.Reconcile []
      { exampleEnv (exampleSource SyncStateUpdating "30s") [] with
        stored := [{ Name := "stable.mysql", AppName := "mysql", Labels := some [],
                     Versions := [], Controller := none }] }).result =
      { Requeue := false, RequeueAfter := 30000000000 } := by
  refine ⟨rfl, by decide, by decide, by decide, by decide, by decide⟩

/-! ## Status writes -/

theorem setSourceStatus_err (env : SourceEnv) (src : Source) (status : SourceStatus)
    (e : String) (h : (setSourceStatus env src status).err = some e) :
    env.statusListError = some e ∨
    ∃ status' msg, env.patchStatus { src with Status := status' } = some msg ∧
      e = "FAILED during status update: " ++ msg := by
  simp only [setSourceStatus] at h
  split at h
  · next err herr =>
    simp only [Option.some.injEq] at h
    left
    rw [herr, h]
  · split at h
    · next msg hmsg =>
      simp only [Option.some.injEq] at h
      right
      exact ⟨_, msg, hmsg, h.symm⟩
    · cases h

theorem setSourceStatus_ok (env : SourceEnv) (src : Source) (status : SourceStatus)
    (hl : env.statusListError = none) (hp : ∀ s, env.patchStatus s = none) :
    (setSourceStatus env src status).err = none := by
  simp only [setSourceStatus, hl, hp]

theorem syncSource_err (env : SourceEnv) (src : Source) (cats : GoMap (List String))
    (result : ctrl.Result) (e : String) (h : (syncSource env src cats result).err = some e) :
    env.statusListError = some e ∨
    ∃ status' msg, env.patchStatus { src with Status := status' } = some msg ∧
      e = "FAILED during status update: " ++ msg := by
  rcases syncSource_shape env src cats result with ⟨_, _, _, status, he, _⟩ |
    ⟨_, _, _, _, _, _, he⟩
  · rw [he] at h
    exact setSourceStatus_err env src status e h
  · rw [he] at h
    cases h

theorem syncSource_err_none (env : SourceEnv) (src : Source) (cats : GoMap (List String))
    (result : ctrl.Result) (hl : env.statusListError = none)
    (hp : ∀ s, env.patchStatus s = none) : (syncSource env src cats result).err = none := by
  rcases syncSource_shape env src cats result with ⟨_, _, _, status, he, _⟩ |
    ⟨_, _, _, _, _, _, he⟩
  · rw [he]
    exact setSourceStatus_ok env src status hl hp
  · rw [he]

theorem reconcile_cases (cats : GoMap (List String)) (env : SourceEnv) (src : Source)
    (hsrc : env.source = .ok src) (hskip : src.Spec.SkipSync = false) :
    (∃ result status,
      SourceReconciler.Reconcile cats env =
        returnStatus env src (loadCategories env cats) result false [] "Reconcile" status ∧
      (status.State = SyncStateUpdating ∨
        status.State = SyncStateError ∧
          ∃ m, status.Reason = "spec.updateFrequency is invalid: " ++ m)) ∨
    (src.Status.State = SyncStateUpdating ∧
      (src.Spec.UpdateFrequency = "" ∨
        ∃ d, env.parseDuration src.Spec.UpdateFrequency = .ok d) ∧
      ∃ result,
        SourceReconciler.Reconcile cats env =
          syncSource env src (loadCategories env cats) result) := by
  by_cases hstate : src.Status.State ≠ SyncStateUpdating
  · left
    refine ⟨{ Requeue := true, RequeueAfter := 0 },
      { State := SyncStateUpdating, Reason := "object changed", LastUpdate := none,
        AppCount := 0 }, ?_, Or.inl rfl⟩
    simp only [SourceReconciler.Reconcile, hsrc, hskip, if_pos hstate]
    rfl
  · have hst : src.Status.State = SyncStateUpdating := not_not.1 hstate
    by_cases hfreq : src.Spec.UpdateFrequency ≠ ""
    · cases hparse : env.parseDuration src.Spec.UpdateFrequency with
      | error err =>
        left
        refine ⟨{ Requeue := false, RequeueAfter := 0 },
          { State := SyncStateError, Reason := "spec.updateFrequency is invalid: " ++ err,
            LastUpdate := none, AppCount := 0 }, ?_, Or.inr ⟨rfl, err, rfl⟩⟩
        simp only [SourceReconciler.Reconcile, hsrc, hskip, if_neg hstate, if_pos hfreq, hparse]
        rfl
      | ok d =>
        right
        refine ⟨hst, Or.inr ⟨d, rfl⟩, { Requeue := false, RequeueAfter := d }, ?_⟩
        simp only [SourceReconciler.Reconcile, hsrc, hskip, if_neg hstate, if_pos hfreq, hparse]
        rfl
    · right
      refine ⟨hst, Or.inl (not_not.1 hfreq), { Requeue := false, RequeueAfter := 0 }, ?_⟩
      simp only [SourceReconciler.Reconcile, hsrc, hskip, if_neg hstate, if_neg hfreq]
      rfl

theorem reconcile_not_synced (cats : GoMap (List String)) (env : SourceEnv)
    (h : ∀ src, env.source = .ok src → src.Spec.SkipSync = true) :
    ∃ err, SourceReconciler.Reconcile cats env = returnPlain cats err ∧
      ∀ e, err = some e → env.source = .error (.other e) := by
  cases hs : env.source with
  | error ge =>
    cases ge with
    | notFound =>
      refine ⟨none, ?_, fun e he => by cases he⟩
      simp only [SourceReconciler.Reconcile, hs]
    | other msg =>
      refine ⟨some msg, ?_, fun e he => by cases he; rfl⟩
      simp only [SourceReconciler.Reconcile, hs]
  | ok src =>
    refine ⟨none, ?_, fun e he => by cases he⟩
    simp only [SourceReconciler.Reconcile, hs, h src hs, if_true]

/-- The two ways a run for a Source with sync not skipped ends: with one
call of `setSourceStatus`, or in a fault of the merge loop with no such
call. -/
theorem reconcile_shape (cats : GoMap (List String)) (env : SourceEnv) (src : Source)
    (hsrc : env.source = .ok src) (hskip : src.Spec.SkipSync = false) :
    (∃ result fetched writes op status,
      SourceReconciler.Reconcile cats env =
        returnStatus env src (loadCategories env cats) result fetched writes op status ∧
      (status.State = SyncStateUpdating ∨ status.State = SyncStateSuccess ∨
        status.State = SyncStateError ∧
          (env.reports status.Reason ∨
            ∃ m, status.Reason = "spec.updateFrequency is invalid: " ++ m))) ∨
    (∃ f writes,
      SourceReconciler.Reconcile cats env =
        { result := { Requeue := false, RequeueAfter := 0 }, err := none, fault := some f,
          fetched := true, writes := writes, statusCalls := [], patched := [],
          defaultCategories := loadCategories env cats }) := by
  rcases reconcile_cases cats env src hsrc hskip with ⟨result, status, he, hs⟩ |
    ⟨_, _, result, he⟩
  · left
    refine ⟨result, false, [], "Reconcile", status, he, ?_⟩
    rcases hs with hs | ⟨hs, m, hm⟩
    · exact Or.inl hs
    · exact Or.inr (Or.inr ⟨hs, Or.inr ⟨m, hm⟩⟩)
  · rcases syncSource_shape env src (loadCategories env cats) result with
      ⟨fetched, writes, op, status, hs, hst⟩ | ⟨f, _, _, _, _, _, hs⟩
    · left
      refine ⟨result, fetched, writes, op, status, he.trans hs, ?_⟩
      rcases hst with hst | ⟨hst, hr⟩
      · exact Or.inr (Or.inl hst)
      · exact Or.inr (Or.inr ⟨hst, Or.inl hr⟩)
    · right
      exact ⟨f, _, he.trans hs⟩

theorem source_cases (env : SourceEnv) :
    (∀ src, env.source = .ok src → src.Spec.SkipSync = true) ∨
    ∃ src, env.source = .ok src ∧ src.Spec.SkipSync = false := by
  cases hs : env.source with
  | error ge => exact Or.inl fun src h => by cases h
  | ok src =>
    cases hk : src.Spec.SkipSync with
    | true => exact Or.inl fun src' h => by cases h; exact hk
    | false => exact Or.inr ⟨src, rfl, hk⟩

/-- C14: `Reconcile` returns a non-nil error only when reading the Source
fails with an error other than not-found, or when `setSourceStatus` fails
(its listing of the Applications, or the patch, whose error is wrapped); a
run that ends without a fault returns nil when the status write succeeds. A
bad poll interval is handed to `setSourceStatus` as state `error` with the
parse error after the text `spec.updateFrequency is invalid: `; and in a run
that passes the interval check and ends without a fault, `setSourceStatus`
is called once, and a failure of the repository client, the index download,
the index load, the listing or a `ctrl.CreateOrUpdate` is handed to it as
state `error` with the failure message as reason. No run faults when no
stored Application has a nil label map. -/
theorem reconcile_error_sources (cats : GoMap (List String)) (env : SourceEnv) :
    (∀ e, (SourceReconciler.Reconcile cats env).err = some e →
      env.source = .error (.other e) ∨
      ∃ src, env.source = .ok src ∧
        (env.statusListError = some e ∨
          ∃ status msg, env.patchStatus { src with Status := status } = some msg ∧
            e = "FAILED during status update: " ++ msg)) ∧
    (env.statusListError = none → (∀ s, env.patchStatus s = none) →
      (∀ m, env.source ≠ .error (.other m)) →
      (SourceReconciler.Reconcile cats env).fault = none →
      (SourceReconciler.Reconcile cats env).err = none) ∧
    (∀ src, env.source = .ok src → src.Spec.SkipSync = false →
      src.Status.State = SyncStateUpdating →
      (∀ m, src.Spec.UpdateFrequency ≠ "" →
        env.parseDuration src.Spec.UpdateFrequency = .error m →
        (SourceReconciler.Reconcile cats env).statusCalls =
          [("Reconcile", { State := SyncStateError,
                           Reason := "spec.updateFrequency is invalid: " ++ m,
                           LastUpdate := none, AppCount := 0 })]) ∧
      ((src.Spec.UpdateFrequency = "" ∨
          ∃ d, env.parseDuration src.Spec.UpdateFrequency = .ok d) →
        (SourceReconciler.Reconcile cats env).fault = none →
        ∃ op status, (SourceReconciler.Reconcile cats env).statusCalls = [(op, status)] ∧
          (status.State = SyncStateSuccess ∨
            status.State = SyncStateError ∧ env.reports status.Reason) ∧
          (∀ m, env.newChartRepository (repoEntry src) = some m →
            status = { State := SyncStateError, Reason := m, LastUpdate := none,
                       AppCount := 0 }) ∧
          (∀ m, env.newChartRepository (repoEntry src) = none →
            env.downloadIndexFile (repoEntry src) = .error m →
            status = { State := SyncStateError, Reason := m, LastUpdate := some env.now,
                       AppCount := 0 }) ∧
          (∀ idx m, env.newChartRepository (repoEntry src) = none →
            env.downloadIndexFile (repoEntry src) = .ok idx →
            env.loadIndexFile idx = .error m →
            status = { State := SyncStateError, Reason := m, LastUpdate := some env.now,
                       AppCount := 0 }) ∧
          (∀ idx entries m, env.newChartRepository (repoEntry src) = none →
            env.downloadIndexFile (repoEntry src) = .ok idx →
            env.loadIndexFile idx = .ok entries → env.listError = some m →
            status = { State := SyncStateError, Reason := m, LastUpdate := some env.now,
                       AppCount := 0 }) ∧
          (∀ idx entries m, env.newChartRepository (repoEntry src) = none →
            env.downloadIndexFile (repoEntry src) = .ok idx →
            env.loadIndexFile idx = .ok entries → env.listError = none →
            (syncEntries env.lib env.store src.Name src.Spec.URL (loadCategories env cats)
              (buildHave src.Name env.stored) env.stored entries).outcome = .writeFailed m →
            status = { State := SyncStateError, Reason := m, LastUpdate := some env.now,
                       AppCount := 0 }))) ∧
    ((∀ a ∈ env.stored, a.Labels ≠ none) →
      (SourceReconciler.Reconcile cats env).fault = none) := by
  refine ⟨?_, ?_, ?_, ?_⟩
  · intro e he
    rcases source_cases env with hno | ⟨src, hsrc, hskip⟩
    · obtain ⟨err, hrun, herr⟩ := reconcile_not_synced cats env hno
      rw [hrun] at he
      exact Or.inl (herr e he)
    · rcases reconcile_shape cats env src hsrc hskip with
        ⟨result, fetched, writes, op, status, hrun, _⟩ | ⟨f, writes, hrun⟩
      · rw [hrun] at he
        exact Or.inr ⟨src, hsrc, setSourceStatus_err env src status e he⟩
      · rw [hrun] at he
        cases he
  · intro hl hp hget hfault
    rcases source_cases env with hno | ⟨src, hsrc, hskip⟩
    · obtain ⟨err, hrun, herr⟩ := reconcile_not_synced cats env hno
      rw [hrun]
      cases err with
      | none => rfl
      | some e => exact absurd (herr e rfl) (hget e)
    · rcases reconcile_shape cats env src hsrc hskip with
        ⟨result, fetched, writes, op, status, hrun, _⟩ | ⟨f, writes, hrun⟩
      · rw [hrun]
        exact setSourceStatus_ok env src status hl hp
      · rw [hrun] at hfault
        cases hfault
  · intro src hsrc hskip hstate
    have hn : ¬ src.Status.State ≠ SyncStateUpdating := fun h => h hstate
    constructor
    · intro m hfreq hparse
      simp only [SourceReconciler.Reconcile, hsrc, hskip, if_neg hn, if_pos hfreq, hparse]
      rfl
    · intro hint hfault
      have hrun : ∃ result, SourceReconciler.Reconcile cats env =
          syncSource env src (loadCategories env cats) result := by
        by_cases hfreq : src.Spec.UpdateFrequency ≠ ""
        · rcases hint with h0 | ⟨d, hd⟩
          · exact absurd h0 hfreq
          · refine ⟨{ Requeue := false, RequeueAfter := d }, ?_⟩
            simp only [SourceReconciler.Reconcile, hsrc, hskip, if_neg hn, if_pos hfreq, hd]
            rfl
        · refine ⟨{ Requeue := false, RequeueAfter := 0 }, ?_⟩
          simp only [SourceReconciler.Reconcile, hsrc, hskip, if_neg hn, if_neg hfreq]
          rfl
      obtain ⟨result, hrun⟩ := hrun
      rw [hrun] at hfault
      rcases syncSource_shape env src (loadCategories env cats) result with
        ⟨fetched, writes, op, status, hs, hst⟩ | ⟨f, _, _, _, _, _, hs⟩
      swap
      · rw [hs] at hfault
        cases hfault
      have hcalls : (syncSource env src (loadCategories env cats) result).statusCalls =
          [(op, status)] := by rw [hs]; rfl
      refine ⟨op, status, by rw [hrun, hcalls], hst, ?_, ?_, ?_, ?_, ?_⟩
      · intro m h1
        have : (syncSource env src (loadCategories env cats) result).statusCalls =
            [("SyncRepo", { State := SyncStateError, Reason := m, LastUpdate := none,
                            AppCount := 0 })] := by
          simp only [syncSource, h1]
          rfl
        rw [hcalls] at this
        simpa using congrArg (fun l => l.map Prod.snd) this
      · intro m h1 h2
        have : (syncSource env src (loadCategories env cats) result).statusCalls =
            [("SyncRepo", { State := SyncStateError, Reason := m, LastUpdate := some env.now,
                            AppCount := 0 })] := by
          simp only [syncSource, h1, h2]
          rfl
        rw [hcalls] at this
        simpa using congrArg (fun l => l.map Prod.snd) this
      · intro idx m h1 h2 h3
        have : (syncSource env src (loadCategories env cats) result).statusCalls =
            [("SyncRepo", { State := SyncStateError, Reason := m, LastUpdate := some env.now,
                            AppCount := 0 })] := by
          simp only [syncSource, h1, h2, h3]
          rfl
        rw [hcalls] at this
        simpa using congrArg (fun l => l.map Prod.snd) this
      · intro idx entries m h1 h2 h3 h4
        have : (syncSource env src (loadCategories env cats) result).statusCalls =
            [("ListApps", { State := SyncStateError, Reason := m, LastUpdate := some env.now,
                            AppCount := 0 })] := by
          simp only [syncSource, h1, h2, h3, h4]
          rfl
        rw [hcalls] at this
        simpa using congrArg (fun l => l.map Prod.snd) this
      · intro idx entries m h1 h2 h3 h4 h5
        have : (syncSource env src (loadCategories env cats) result).statusCalls =
            [("AppUpdate", { State := SyncStateError, Reason := m, LastUpdate := some env.now,
                             AppCount := 0 })] := by
          simp only [syncSource, h1, h2, h3, h4, h5]
          rfl
        rw [hcalls] at this
        simpa using congrArg (fun l => l.map Prod.snd) this
  · intro hl
    rcases source_cases env with hno | ⟨src, hsrc, hskip⟩
    · obtain ⟨err, hrun, _⟩ := reconcile_not_synced cats env hno
      rw [hrun]
      rfl
    · rcases reconcile_cases cats env src hsrc hskip with ⟨result, status, he, _⟩ |
        ⟨_, _, result, he⟩
      · rw [he]
        rfl
      · rw [he]
        exact syncSource_no_fault _ _ _ _ hl

theorem reconcile_error_sources_witness :
    (SourceReconciler.Reconcile []
      { exampleEnv (exampleSource SyncStateUpdating "30s") [] with
        patchStatus := fun _ => some "conflict" }).err =
      some "FAILED during status update: conflict" ∧
    ((exampleEnv (exampleSource SyncStateUpdating "30s") []).source =
        .error (.other "FAILED during status update: conflict") ∨
      ∃ src, (exampleEnv (exampleSource SyncStateUpdating "30s") []).source = .ok src ∧
        ((exampleEnv (exampleSource SyncStateUpdating "30s") []).statusListError =
            some "FAILED during status update: conflict" ∨
          ∃ (status : SourceStatus) (msg : String),
            (fun _ : Source => some "conflict") { src with Status := status } = some msg ∧
            "FAILED during status update: conflict" =
              "FAILED during status update: " ++ msg)) :=
  ⟨rfl, (reconcile_error_sources []
    { exampleEnv (exampleSource SyncStateUpdating "30s") [] with
      patchStatus := fun _ => some "conflict" }).1
    "FAILED during status update: conflict" rfl⟩

/-- C14, counterexample: the read of the Source fails with `connection
refused`; `Reconcile` returns that error, and no status write is attempted. -/
theorem reconcile_returns_get_error :
    (SourceReconciler.Reconcile []
      { exampleEnv (exampleSource SyncStateUpdating "30s") [] with
        source := .error (.other "connection refused") }).err = some "connection refused" ∧
    (SourceReconciler.Reconcile []
      { exampleEnv (exampleSource SyncStateUpdating "30s") [] with
        source := .error (.other "connection refused") }).statusCalls = [] ∧
    (SourceReconciler.Reconcile []
      { exampleEnv (exampleSource SyncStateUpdating "30s") [] with
        source := .error (.other "connection refused") }).patched = [] :=
  ⟨rfl, rfl, rfl⟩

theorem returnStatus_patched_mem (env : SourceEnv) (src : Source) (cats : GoMap (List String))
    (result : ctrl.Result) (fetched : Bool) (writes : List AppWrite) (op : String)
    (status s : SourceStatus)
    (h : s ∈ (returnStatus env src cats result fetched writes op status).patched) :
    s = { status with
      AppCount := countOwned src.Name (env.storedAtStatus.filter (matchesSource src.Name)) } := by
  simp only [returnStatus, setSourceStatus] at h
  split at h
  · simp at h
  · split at h
    · simpa using h
    · simpa using h

theorem countOwned_eq (srcName : String) (all : List Application) :
    countOwned srcName all = ((ownedBy srcName all).length : Int) := by
  have key : ∀ (l : List Application) (n : Int),
      l.foldl (fun n x =>
        match x.Controller with
        | none => n
        | some ref => if ref ≠ srcName then n else n + 1) n =
      n + ((ownedBy srcName l).length : Int) := by
    intro l
    induction l with
    | nil => intro n; simp [ownedBy]
    | cons x l ih =>
      intro n
      rw [List.foldl_cons, ih]
      cases hc : x.Controller with
      | none => simp [ownedBy, hc]
      | some ref =>
        by_cases hr : ref = srcName
        · subst hr
          simp [ownedBy, hc]
          omega
        · simp [ownedBy, hc, hr]
  simpa [countOwned] using key all 0

/-- C15: every status a run hands to `Status().Patch` has one of the states
`unknown`, `updating`, `success`, `error`; when its state is `error` its
reason is the failure message a collaborator reported, or the text
`spec.updateFrequency is invalid: ` followed by the parse error, so it is
non-empty whenever the collaborators report non-empty messages. -/
theorem written_status_invariant (cats : GoMap (List String)) (env : SourceEnv) :
    (∀ s ∈ (SourceReconciler.Reconcile cats env).patched,
      s.State ∈ [SyncStateUnknown, SyncStateUpdating, SyncStateSuccess, SyncStateError]) ∧
    (∀ s ∈ (SourceReconciler.Reconcile cats env).patched, s.State = SyncStateError →
      env.reports s.Reason ∨ ∃ m, s.Reason = "spec.updateFrequency is invalid: " ++ m) ∧
    ((∀ m, env.reports m → m ≠ "") →
      ∀ s ∈ (SourceReconciler.Reconcile cats env).patched, s.State = SyncStateError →
        s.Reason ≠ "") := by
  have key : ∀ s ∈ (SourceReconciler.Reconcile cats env).patched,
      s.State = SyncStateUpdating ∨ s.State = SyncStateSuccess ∨
        s.State = SyncStateError ∧
          (env.reports s.Reason ∨
            ∃ m, s.Reason = "spec.updateFrequency is invalid: " ++ m) := by
    intro s hs
    rcases source_cases env with hno | ⟨src, hsrc, hskip⟩
    · obtain ⟨err, hrun, _⟩ := reconcile_not_synced cats env hno
      rw [hrun] at hs
      simp [returnPlain] at hs
    · rcases reconcile_shape cats env src hsrc hskip with
        ⟨result, fetched, writes, op, status, hrun, hst⟩ | ⟨f, writes, hrun⟩
      · rw [hrun] at hs
        have he := returnStatus_patched_mem _ _ _ _ _ _ _ _ _ hs
        subst he
        exact hst
      · rw [hrun] at hs
        simp at hs
  have herr : ∀ s ∈ (SourceReconciler.Reconcile cats env).patched,
      s.State = SyncStateError →
      env.reports s.Reason ∨ ∃ m, s.Reason = "spec.updateFrequency is invalid: " ++ m := by
    intro s hs hstate
    rcases key s hs with h | h | ⟨_, h⟩
    · rw [h] at hstate
      exact absurd hstate (by decide)
    · rw [h] at hstate
      exact absurd hstate (by decide)
    · exact h
  refine ⟨?_, herr, ?_⟩
  · intro s hs
    rcases key s hs with h | h | ⟨h, _⟩ <;> simp [h]
  · intro hmsg s hs hstate
    rcases herr s hs hstate with h | ⟨m, h⟩
    · exact hmsg _ h
    · rw [h]
      intro hc
      have hlen := congrArg String.length hc
      rw [String.length_append] at hlen
      have h33 : "spec.updateFrequency is invalid: ".length = 33 := by decide
      have h0 : "".length = 0 := rfl
      omega

theorem written_status_invariant_witness :
    (∀ m, (exampleEnv (exampleSource SyncStateUpdating "invalid") []).reports m → m ≠ "") ∧
    ({ State := SyncStateError,
       Reason := "spec.updateFrequency is invalid: time: invalid duration invalid",
       LastUpdate := none, AppCount := 0 } : SourceStatus).Reason ≠ "" :=
  have h : ∀ m, (exampleEnv (exampleSource SyncStateUpdating "invalid") []).reports m →
      m ≠ "" := by
    intro m hm
    rcases hm with ⟨_, h⟩ | ⟨_, h⟩ | ⟨_, h⟩ | h | ⟨_, h⟩ | ⟨_, _, h⟩ | ⟨_, h⟩ | ⟨_, h⟩ <;>
      cases h
  ⟨h, (written_status_invariant [] (exampleEnv (exampleSource SyncStateUpdating "invalid") [])).2.2
    h _ (by decide) rfl⟩

/-- C16: the `AppCount` of every status handed to `Status().Patch` is the
number of stored Applications that carry the source-name label of the Source
and whose controller reference names it; the status write adds no
`ctrl.CreateOrUpdate` call to those of the merge loop. -/
theorem appCount_counts_labelled_owned :
    (∀ (env : SourceEnv) (src : Source) (status s : SourceStatus),
      (setSourceStatus env src status).patched = some s →
      s.AppCount =
        ((ownedBy src.Name (env.storedAtStatus.filter (matchesSource src.Name))).length :
          Int)) ∧
    (∀ (cats : GoMap (List String)) (env : SourceEnv),
      ∀ s ∈ (SourceReconciler.Reconcile cats env).patched,
        ∃ src, env.source = .ok src ∧
          s.AppCount =
            ((ownedBy src.Name (env.storedAtStatus.filter (matchesSource src.Name))).length :
              Int)) ∧
    (∀ (env : SourceEnv) (src : Source) (cats : GoMap (List String)) (result : ctrl.Result)
      (fetched : Bool) (writes : List AppWrite) (op : String) (status : SourceStatus),
      (returnStatus env src cats result fetched writes op status).writes = writes) := by
  refine ⟨?_, ?_, fun _ _ _ _ _ _ _ _ => rfl⟩
  · intro env src status s h
    simp only [setSourceStatus] at h
    split at h
    · cases h
    · split at h
      · cases h
        exact countOwned_eq _ _
      · cases h
        exact countOwned_eq _ _
  · intro cats env s hs
    rcases source_cases env with hno | ⟨src, hsrc, hskip⟩
    · obtain ⟨err, hrun, _⟩ := reconcile_not_synced cats env hno
      rw [hrun] at hs
      simp [returnPlain] at hs
    · rcases reconcile_shape cats env src hsrc hskip with
        ⟨result, fetched, writes, op, status, hrun, _⟩ | ⟨f, writes, hrun⟩
      · rw [hrun] at hs
        have he := returnStatus_patched_mem _ _ _ _ _ _ _ _ _ hs
        subst he
        exact ⟨src, hsrc, countOwned_eq _ _⟩
      · rw [hrun] at hs
        simp at hs

theorem appCount_counts_labelled_owned_witness :
    (setSourceStatus
      (exampleEnv (exampleSource SyncStateUpdating "")
        [exampleRecord "mysql" [(sourceNameLabel, "stable")] []])
      (exampleSource SyncStateUpdating "")
      { State := SyncStateSuccess, Reason := "", LastUpdate := none, AppCount := 0 }).patched =
      some { State := SyncStateSuccess, Reason := "", LastUpdate := none, AppCount := 1 } ∧
    ({ State := SyncStateSuccess, Reason := "", LastUpdate := none, AppCount := 1 } :
      SourceStatus).AppCount =
      ((ownedBy "stable"
        ([exampleRecord "mysql" [(sourceNameLabel, "stable")] []].filter
          (matchesSource "stable"))).length : Int) :=
  ⟨rfl, appCount_counts_labelled_owned.1
    (exampleEnv (exampleSource SyncStateUpdating "")
      [exampleRecord "mysql" [(sourceNameLabel, "stable")] []])
    (exampleSource SyncStateUpdating "")
    { State := SyncStateSuccess, Reason := "", LastUpdate := none, AppCount := 0 } _ rfl⟩

/-- C16, counterexample: the one stored Application has a controller
reference that names the Source `stable` and no source-name label; the
status written carries `AppCount` 0. -/
theorem appCount_skips_unlabelled_owned :
    (ownedBy "stable" [exampleRecord "mysql" [] []]).length = 1 ∧
    (SourceReconciler.Reconcile []
      (exampleEnv (exampleSource SyncStateSuccess "") [exampleRecord "mysql" [] []])).patched =
      [{ State := SyncStateUpdating, Reason := "object changed", LastUpdate := none,
         AppCount := 0 }] :=
  ⟨rfl, rfl⟩

/-! ## The release reconciler -/

/-- For a Secret of type `helm.sh/release.v1` with a non-empty name label
whose blob decodes to a document with an info section: when the status is
`superseded` no `ctrl.CreateOrUpdate` call is made; otherwise exactly one is
made, for the Release named by the name label in the namespace of the
Secret, with `Spec` the decoded document, which the mutate function writes
on the object it is given, so the version is that of the document. -/
theorem release_written_with_info (env : ReleaseEnv) (secret : Secret)
    (d : ReleaseSpec) (info : Info) (n : String)
    (hsec : env.secret = .ok secret) (htype : secret.SecretType = "helm.sh/release.v1")
    (hdec : decodeSecretRelease env.codec secret = .ok d) (hinfo : d.Info = some info)
    (hname : secret.Labels.get "name" = some n) (hn : n ≠ "") :
    (info.Status = StatusSuperseded →
      (ReleaseReconciler.Reconcile env).writes = [] ∧
      (ReleaseReconciler.Reconcile env).err = none ∧
      (ReleaseReconciler.Reconcile env).fault = none) ∧
    (info.Status ≠ StatusSuperseded →
      ∃ w, (ReleaseReconciler.Reconcile env).writes = [w] ∧
        w.obj.Name = n ∧ w.obj.Namespace = secret.Namespace ∧ w.obj.Spec = d ∧
        (∀ obj, (w.mutate obj).Spec = d ∧ (w.mutate obj).Spec.Version = d.Version) ∧
        (ReleaseReconciler.Reconcile env).err = env.createOrUpdate w ∧
        (ReleaseReconciler.Reconcile env).fault = none) := by
  have ht : ¬ secret.SecretType ≠ "helm.sh/release.v1" := fun h => h htype
  constructor
  · intro hs
    have e : ReleaseReconciler.Reconcile env =
        { err := none, fault := none, decoded := true, writes := [] } := by
      simp only [ReleaseReconciler.Reconcile, hsec, if_neg ht, hdec, hinfo, if_pos hs]
    rw [e]
    exact ⟨rfl, rfl, rfl⟩
  · intro hs
    have hne : ¬ (secret.Labels.get "name").getD "" = "" := by
      rw [hname]
      exact hn
    have e : ReleaseReconciler.Reconcile env =
        { err := env.createOrUpdate
            { obj := { Name := (secret.Labels.get "name").getD ""
                       Namespace := secret.Namespace
                       Labels := secret.Labels.filter fun kv =>
                         hasPrefixStr kv.1 marketplaceLabelDomain
                       Owners := []
                       Spec := d },
              owner := secret, spec := d },
          fault := none, decoded := true,
          writes := [{ obj := { Name := (secret.Labels.get "name").getD ""
                                Namespace := secret.Namespace
                                Labels := secret.Labels.filter fun kv =>
                                  hasPrefixStr kv.1 marketplaceLabelDomain
                                Owners := []
                                Spec := d },
                       owner := secret, spec := d }] } := by
      simp only [ReleaseReconciler.Reconcile, hsec, if_neg ht, hdec, hinfo, if_neg hs,
        if_neg hne]
    rw [e]
    refine ⟨_, rfl, ?_, rfl, rfl, fun obj => ⟨rfl, rfl⟩, rfl, rfl⟩
    show (secret.Labels.get "name").getD "" = n
    rw [hname]
    rfl

theorem release_nil_info_faults (env : ReleaseEnv) (secret : Secret) (d : ReleaseSpec)
    (hsec : env.secret = .ok secret) (htype : secret.SecretType = "helm.sh/release.v1")
    (hdec : decodeSecretRelease env.codec secret = .ok d) (hinfo : d.Info = none) :
    ReleaseReconciler.Reconcile env =
      { err := none, fault := some .nilDereference, decoded := true, writes := [] } := by
  have ht : ¬ secret.SecretType ≠ "helm.sh/release.v1" := fun h => h htype
  simp only [ReleaseReconciler.Reconcile, hsec, if_neg ht, hdec, hinfo]

/-- C17: the Secret of type `helm.sh/release.v1` carries the name label
`exampleapp` and its blob decodes to a document without info section, whose
status therefore is not `superseded`. No `ctrl.CreateOrUpdate` call is made
for the Release `exampleapp`: `Reconcile` reads `Info.Status` through the
nil pointer for the superseded check on line 74 and ends in a fault. With a
blob that decodes to a deployed document of version 2 the same Secret gets
exactly one call, for the Release `exampleapp` in the namespace of the Secret
with that document as `Spec`. -/
theorem release_without_info_not_written :
    (exampleSecret "helm.sh/release.v1" "infoless").SecretType = "helm.sh/release.v1" ∧
    (exampleSecret "helm.sh/release.v1" "infoless").Labels.get "name" = some "exampleapp" ∧
    decodeSecretRelease infolessCodec (exampleSecret "helm.sh/release.v1" "infoless") =
      .ok infolessReleaseSpec ∧
    (infolessReleaseSpec.Info.map fun info => info.Status) ≠ some StatusSuperseded ∧
    ReleaseReconciler.Reconcile
      { secret := .ok (exampleSecret "helm.sh/release.v1" "infoless"),
        codec := infolessCodec, createOrUpdate := fun _ => none } =
      { err := none, fault := some .nilDereference, decoded := true, writes := [] } ∧
    ReleaseReconciler.Reconcile
      (exampleReleaseEnv (exampleSecret "helm.sh/release.v1" "deployed")) =
      { err := none, fault := none, decoded := true,
        writes := [{ obj := { Name := "exampleapp", Namespace := "critical-stack",
                              Labels := [], Owners := [],
                              Spec := exampleReleaseSpec StatusDeployed 2 },
                     owner := exampleSecret "helm.sh/release.v1" "deployed",
                     spec := exampleReleaseSpec StatusDeployed 2 }] } := by
  refine ⟨rfl, rfl, rfl, by decide, ?_, by decide⟩
  exact release_nil_info_faults
    { secret := .ok (exampleSecret "helm.sh/release.v1" "infoless"),
      codec := infolessCodec, createOrUpdate := fun _ => none }
    (exampleSecret "helm.sh/release.v1" "infoless") infolessReleaseSpec rfl rfl rfl rfl

/-- C18: `decodeSecretRelease` returns the error of the stage that fails
(base64, gzip header, gzip stream, JSON document); for a Secret of type
`helm.sh/release.v1` whose decoding fails, `Reconcile` returns that error and
makes no `ctrl.CreateOrUpdate` call. -/
theorem release_decode_failure :
    (∀ (codec : Codec) (secret : Secret) (e : String),
      codec.base64Decode ((secret.Data.get "release").getD "") = .error e →
      decodeSecretRelease codec secret = .error e) ∧
    (∀ (codec : Codec) (secret : Secret) (dst : List Nat) (e : String),
      codec.base64Decode ((secret.Data.get "release").getD "") = .ok dst →
      codec.gzipNewReader dst = some e →
      decodeSecretRelease codec secret = .error e) ∧
    (∀ (codec : Codec) (secret : Secret) (dst : List Nat) (e : String),
      codec.base64Decode ((secret.Data.get "release").getD "") = .ok dst →
      codec.gzipNewReader dst = none → codec.readAll dst = .error e →
      decodeSecretRelease codec secret = .error e) ∧
    (∀ (codec : Codec) (secret : Secret) (dst bRel : List Nat) (e : String),
      codec.base64Decode ((secret.Data.get "release").getD "") = .ok dst →
      codec.gzipNewReader dst = none → codec.readAll dst = .ok bRel →
      codec.jsonUnmarshal bRel = .error e →
      decodeSecretRelease codec secret = .error e) ∧
    (∀ (env : ReleaseEnv) (secret : Secret) (e : String),
      env.secret = .ok secret → secret.SecretType = "helm.sh/release.v1" →
      decodeSecretRelease env.codec secret = .error e →
      (ReleaseReconciler.Reconcile env).err = some e ∧
      (ReleaseReconciler.Reconcile env).writes = [] ∧
      (ReleaseReconciler.Reconcile env).fault = none) := by
  refine ⟨?_, ?_, ?_, ?_, ?_⟩
  · intro codec secret e h
    simp only [decodeSecretRelease, h]
  · intro codec secret dst e h1 h2
    simp only [decodeSecretRelease, h1, h2]
  · intro codec secret dst e h1 h2 h3
    simp only [decodeSecretRelease, h1, h2, h3]
  · intro codec secret dst bRel e h1 h2 h3 h4
    simp only [decodeSecretRelease, h1, h2, h3, h4]
  · intro env secret e hsec htype hdec
    have ht : ¬ secret.SecretType ≠ "helm.sh/release.v1" := fun h => h htype
    have e' : ReleaseReconciler.Reconcile env =
        { err := some e, fault := none, decoded := true, writes := [] } := by
      simp only [ReleaseReconciler.Reconcile, hsec, if_neg ht, hdec]
    rw [e']
    exact ⟨rfl, rfl, rfl⟩

theorem release_decode_failure_witness :
    exampleCodec.base64Decode
      (((exampleSecret "helm.sh/release.v1" "!!").Data.get "release").getD "") =
      .error "illegal base64 data at input byte 0" ∧
    (ReleaseReconciler.Reconcile
      (exampleReleaseEnv (exampleSecret "helm.sh/release.v1" "!!"))).err =
      some "illegal base64 data at input byte 0" :=
  ⟨rfl, (release_decode_failure.2.2.2.2
    (exampleReleaseEnv (exampleSecret "helm.sh/release.v1" "!!"))
    (exampleSecret "helm.sh/release.v1" "!!") "illegal base64 data at input byte 0" rfl rfl
    (release_decode_failure.1 exampleCodec (exampleSecret "helm.sh/release.v1" "!!")
      "illegal base64 data at input byte 0" rfl)).1⟩

/-- C19: for a Secret whose type is not `helm.sh/release.v1`, `Reconcile`
returns no error, does not call `decodeSecretRelease` and makes no
`ctrl.CreateOrUpdate` call, whatever its data and labels. -/
theorem release_ignores_other_types (env : ReleaseEnv) (secret : Secret)
    (hsec : env.secret = .ok secret) (htype : secret.SecretType ≠ "helm.sh/release.v1") :
    (ReleaseReconciler.Reconcile env).err = none ∧
    (ReleaseReconciler.Reconcile env).decoded = false ∧
    (ReleaseReconciler.Reconcile env).writes = [] ∧
    (ReleaseReconciler.Reconcile env).fault = none := by
  have e : ReleaseReconciler.Reconcile env =
      { err := none, fault := none, decoded := false, writes := [] } := by
    simp only [ReleaseReconciler.Reconcile, hsec, if_pos htype]
  rw [e]
  exact ⟨rfl, rfl, rfl, rfl⟩

theorem release_ignores_other_types_witness :
    (exampleSecret "Opaque" "deployed").SecretType ≠ "helm.sh/release.v1" ∧
    (ReleaseReconciler.Reconcile (exampleReleaseEnv (exampleSecret "Opaque" "deployed"))).decoded =
      false :=
  ⟨by decide, (release_ignores_other_types (exampleReleaseEnv (exampleSecret "Opaque" "deployed"))
    (exampleSecret "Opaque" "deployed") rfl (by decide)).2.1⟩

/-! ## The category overlay cache -/

theorem syncSource_writes (env : SourceEnv) (src : Source) (cats : GoMap (List String))
    (result : ctrl.Result) (w : AppWrite) (h : w ∈ (syncSource env src cats result).writes) :
    ∃ entries, w ∈ (syncEntries env.lib env.store src.Name src.Spec.URL cats
      (buildHave src.Name env.stored) env.stored entries).writes := by
  simp only [syncSource] at h
  split at h
  · simp [returnStatus] at h
  · split at h
    · simp [returnStatus] at h
    · split at h
      · simp [returnStatus] at h
      · next entries _ =>
        split at h
        · simp [returnStatus] at h
        · split at h
          · exact ⟨entries, h⟩
          · exact ⟨entries, h⟩
          · exact ⟨entries, h⟩

theorem reconcile_writes (cats : GoMap (List String)) (env : SourceEnv) (w : AppWrite)
    (h : w ∈ (SourceReconciler.Reconcile cats env).writes) :
    ∃ src entries, env.source = .ok src ∧
      w ∈ (syncEntries env.lib env.store src.Name src.Spec.URL (loadCategories env cats)
        (buildHave src.Name env.stored) env.stored entries).writes := by
  rcases source_cases env with hno | ⟨src, hsrc, hskip⟩
  · obtain ⟨err, hrun, _⟩ := reconcile_not_synced cats env hno
    rw [hrun] at h
    simp [returnPlain] at h
  · rcases reconcile_cases cats env src hsrc hskip with ⟨result, status, he, _⟩ |
      ⟨_, _, result, he⟩
    · rw [he] at h
      simp [returnStatus] at h
    · rw [he] at h
      obtain ⟨entries, hw⟩ := syncSource_writes _ _ _ _ _ h
      exact ⟨src, entries, hsrc, hw⟩

theorem labelDeprecated_label_other (app app' : Application) (k : String)
    (h : labelDeprecated app = .ok app') (hk : k ≠ deprecatedLabel) :
    app'.label k = app.label k := by
  simp only [labelDeprecated] at h
  split at h
  · cases hl : app.Labels with
    | none => simp [hl] at h
    | some m =>
      simp only [hl] at h
      cases h
      simp only [Application.label, hl]
      show GoMap.get _ k = GoMap.get m k
      rw [GoMap.get_set, if_neg (fun hx => hk hx.symm)]
  · cases h
    rfl

theorem applyCategories_empty (app : Application) : applyCategories [] app = app := by
  simp [applyCategories, GoMap.get]

/-- C20: when the overlay ConfigMap is absent the run keeps the mapping the
reconciler holds, as it does for a ConfigMap without data, and returns no
error on that account; it merges with that mapping, so when the reconciler
holds the empty mapping (no earlier run loaded one) every record handed to
`ctrl.CreateOrUpdate` has, apart from the deprecation label, the labels of
the record before the merge, and no category label is added. -/
theorem absent_overlay_keeps_mapping (cats : GoMap (List String)) (env : SourceEnv)
    (habsent : env.categories = .error .notFound) :
    loadCategories env cats = cats ∧
    (SourceReconciler.Reconcile cats env).defaultCategories = cats ∧
    SourceReconciler.Reconcile cats env =
      SourceReconciler.Reconcile cats
        { env with categories := .ok { Name := "marketplace-app-categories", Data := [] } } ∧
    (cats = [] →
      ∀ w ∈ (SourceReconciler.Reconcile cats env).writes,
        ∃ src chartName, env.source = .ok src ∧
          w.obj.Name = applicationName src.Name chartName ∧
          ∀ k, k ≠ deprecatedLabel →
            w.obj.label k =
              (locateApp src.Name chartName
                ((buildHave src.Name env.stored).get
                  (applicationName src.Name chartName))).label k) := by
  have hload : loadCategories env cats = cats := by
    simp only [loadCategories, habsent]
  refine ⟨hload, ?_, ?_, ?_⟩
  · rcases source_cases env with hno | ⟨src, hsrc, hskip⟩
    · obtain ⟨err, hrun, _⟩ := reconcile_not_synced cats env hno
      rw [hrun]
      rfl
    · rcases reconcile_shape cats env src hsrc hskip with
        ⟨result, fetched, writes, op, status, hrun, _⟩ | ⟨f, writes, hrun⟩
      · rw [hrun, hload]
        rfl
      · rw [hrun, hload]
  · simp only [SourceReconciler.Reconcile, loadCategories, habsent]
    rfl
  · intro hcats w hw
    obtain ⟨src, entries, hsrc, hmem⟩ := reconcile_writes cats env w hw
    rw [hload, hcats] at hmem
    obtain ⟨e, _, _, app, happ, rfl⟩ :=
      sync_writes_sound env.lib env.store src.Name src.Spec.URL [] _ entries env.stored w hmem
    refine ⟨src, e.1, hsrc, ?_, ?_⟩
    · show app.Name = _
      rw [labelDeprecated_name _ _ happ]
      exact (built_entry_facts env.lib src.Name src.Spec.URL [] env.stored e.1 e.2).1
    · intro k hk
      show app.label k = _
      rw [labelDeprecated_label_other _ _ k happ hk]
      have hl : (mergeEntry env.lib src.Name src.Spec.URL []
          ((buildHave src.Name env.stored).get (applicationName src.Name e.1))
          e.1 e.2).1.Labels =
          (applyCategories [] (locateApp src.Name e.1
            ((buildHave src.Name env.stored).get (applicationName src.Name e.1)))).Labels :=
        (appendVersions_labels _ _ _ _ _ _).1
      simp only [Application.label, hl, applyCategories_empty]

theorem absent_overlay_keeps_mapping_witness :
    (exampleEnv (exampleSource SyncStateUpdating "") []).categories = .error .notFound ∧
    (SourceReconciler.Reconcile [("mysql", ["db"])]
      (exampleEnv (exampleSource SyncStateUpdating "") [])).defaultCategories =
      [("mysql", ["db"])] :=
  ⟨rfl, (absent_overlay_keeps_mapping [("mysql", ["db"])]
    (exampleEnv (exampleSource SyncStateUpdating "") []) rfl).2.1⟩

/-- C20, counterexample: the reconciler holds the mapping `mysql -> [db]`
from an earlier run and the overlay ConfigMap is absent; the run returns no
error and hands to `ctrl.CreateOrUpdate` the record of `mysql` with the
category label `db`. -/
theorem absent_overlay_uses_held_mapping :
    (exampleEnv (exampleSource SyncStateUpdating "") []).categories = .error .notFound ∧
    (SourceReconciler.Reconcile [("mysql", ["db"])]
      (exampleEnv (exampleSource SyncStateUpdating "") [])).err = none ∧
    ((SourceReconciler.Reconcile [("mysql", ["db"])]
      (exampleEnv (exampleSource SyncStateUpdating "") [])).writes.map
      fun w => (w.obj.Name, w.obj.label (categoryLabelPrefix ++ "db"))) =
      [("stable.mysql", some "")] :=
  ⟨rfl, rfl, by decide⟩

/-! ## Application identity -/

theorem dotted_split (a b c d : List Char) (ha : '.' ∉ a) (hc : '.' ∉ c)
    (h : a ++ '.' :: b = c ++ '.' :: d) : a = c ∧ b = d := by
  induction a generalizing c with
  | nil =>
    cases c with
    | nil => simpa using h
    | cons y c =>
      simp only [List.nil_append, List.cons_append, List.cons.injEq] at h
      exact absurd (h.1 ▸ List.mem_cons_self _ _) hc
  | cons x a ih =>
    cases c with
    | nil =>
      simp only [List.nil_append, List.cons_append, List.cons.injEq] at h
      exact absurd (h.1 ▸ List.mem_cons_self _ _) ha
    | cons y c =>
      simp only [List.cons_append, List.cons.injEq] at h
      obtain ⟨hxy, hrest⟩ := h
      have := ih c (fun hx => ha (List.mem_cons_of_mem _ hx))
        (fun hx => hc (List.mem_cons_of_mem _ hx)) hrest
      exact ⟨by rw [hxy, this.1], this.2⟩

theorem applicationName_data (s p : String) :
    (applicationName s p).data = s.data ++ '.' :: p.data := by
  simp only [applicationName, String.data_append]
  simp

/-- C21: two identities `<source-name>.<package-name>` that are equal belong
to the same package when the source names are equal, and to the same source
and package when neither source name contains a dot, or neither package name
does. -/
theorem applicationName_unique (s₁ s₂ p₁ p₂ : String)
    (h : applicationName s₁ p₁ = applicationName s₂ p₂) :
    (s₁ = s₂ → p₁ = p₂) ∧
    ('.' ∉ s₁.data → '.' ∉ s₂.data → s₁ = s₂ ∧ p₁ = p₂) ∧
    ('.' ∉ p₁.data → '.' ∉ p₂.data → s₁ = s₂ ∧ p₁ = p₂) := by
  have hd : s₁.data ++ '.' :: p₁.data = s₂.data ++ '.' :: p₂.data := by
    rw [← applicationName_data, ← applicationName_data, h]
  refine ⟨?_, ?_, ?_⟩
  · intro hs
    subst hs
    exact applicationName_injective s₁ p₁ p₂ h
  · intro h1 h2
    obtain ⟨ha, hb⟩ := dotted_split _ _ _ _ h1 h2 hd
    exact ⟨String.ext ha, String.ext hb⟩
  · intro h1 h2
    have hr : p₁.data.reverse ++ '.' :: s₁.data.reverse =
        p₂.data.reverse ++ '.' :: s₂.data.reverse := by
      have := congrArg List.reverse hd
      simpa using this
    obtain ⟨ha, hb⟩ := dotted_split _ _ _ _ (by simpa using h1) (by simpa using h2) hr
    exact ⟨String.ext (List.reverse_injective hb), String.ext (List.reverse_injective ha)⟩

theorem applicationName_unique_witness :
    applicationName "stable" "mysql" = applicationName "stable" "mysql" ∧
    '.' ∉ "stable".data ∧
    ("stable" = "stable" ∧ "mysql" = "mysql") :=
  ⟨rfl, by decide,
    (applicationName_unique "stable" "stable" "mysql" "mysql" rfl).2.1 (by decide)
      (by decide)⟩

/-- C21, counterexample: package `mysql.ha` of Source `stable` and package
`ha` of Source `stable.mysql` have the same identity `stable.mysql.ha`. -/
theorem applicationName_collision :
    applicationName "stable" "mysql.ha" = applicationName "stable.mysql" "ha" ∧
    applicationName "stable" "mysql.ha" = "stable.mysql.ha" ∧
    "stable" ≠ "stable.mysql" ∧ "mysql.ha" ≠ "ha" := by
  refine ⟨by decide, by decide, by decide, by decide⟩

/-! ## Release documents without info section -/

/-- C22: the blob of a Secret of type `helm.sh/release.v1` decodes to a
document without info section; `Reconcile` reads `Info.Status` through the
nil pointer and ends in a fault, with no `ctrl.CreateOrUpdate` call. -/
theorem release_without_info_faults :
    decodeSecretRelease infolessCodec (exampleSecret "helm.sh/release.v1" "infoless") =
      .ok infolessReleaseSpec ∧
    infolessReleaseSpec.Info = none ∧
    (ReleaseReconciler.Reconcile
      { secret := .ok (exampleSecret "helm.sh/release.v1" "infoless"),
        codec := infolessCodec, createOrUpdate := fun _ => none }).fault =
      some .nilDereference ∧
    (ReleaseReconciler.Reconcile
      { secret := .ok (exampleSecret "helm.sh/release.v1" "infoless"),
        codec := infolessCodec, createOrUpdate := fun _ => none }).writes = [] := by
  have h := release_nil_info_faults
    { secret := .ok (exampleSecret "helm.sh/release.v1" "infoless"),
      codec := infolessCodec, createOrUpdate := fun _ => none }
    (exampleSecret "helm.sh/release.v1" "infoless") infolessReleaseSpec rfl rfl rfl rfl
  refine ⟨rfl, rfl, ?_, ?_⟩
  · rw [h]
  · rw [h]

end Marketplace
